import Mathlib

/-!
Verification of the org-viewer text interchange engines.

This file shallowly embeds the two core engines of the repository:
  * the CSV fuzzy-import engine (`src/utils/csvImport.ts`), and
  * the markdown codec (`src/components/MarkdownView.tsx`),
and proves / refutes the frozen specification claims about them.

Strings are modelled as `List Char` (`Str`): each JavaScript string
primitive used by the source (`trim`, `split`, `toLowerCase`, template
literals, regexes) is embedded as an explicit Lean function on `Str`
over the ASCII fragment the data lives in.  Numeric scores (JS floats)
are modelled as exact rationals; identifiers minted with
`crypto.randomUUID()` are modelled by an explicit id-supply
`Nat → Str` threaded through a counter.
-/

/-- Strings, modelled as lists of characters. -/
abbrev Str := List Char

/-- Coerce a Lean string literal to the `Str` model. -/
def S (s : String) : Str := s.data

/-- The ASCII fragment of JavaScript's `\s` character class. -/
def jsWhitespace (c : Char) : Bool :=
  c = ' ' || c = '\t' || c = '\n' || c = '\r' || c = '\x0b' || c = '\x0c'

/-- JavaScript `String.prototype.trim` (ASCII whitespace fragment). -/
def jsTrim (s : Str) : Str :=
  ((s.dropWhile jsWhitespace).reverse.dropWhile jsWhitespace).reverse

/-- Auxiliary for `splitChar`: first piece and remaining pieces. -/
def splitCharAux (sep : Char) : Str → Str × List Str
  | [] => ([], [])
  | c :: cs =>
    let r := splitCharAux sep cs
    if c = sep then ([], r.1 :: r.2) else (c :: r.1, r.2)

/-- JavaScript `s.split(sep)` for a single-character separator. -/
def splitChar (sep : Char) (s : Str) : List Str :=
  (splitCharAux sep s).1 :: (splitCharAux sep s).2

/-- JavaScript `parts.join(sep)` for a single-character separator. -/
def joinChar (sep : Char) : List Str → Str
  | [] => []
  | [x] => x
  | x :: y :: xs => x ++ sep :: joinChar sep (y :: xs)

/-- ASCII lower-casing of one character (JS `toLowerCase`, ASCII fragment). -/
def asciiLowerChar (c : Char) : Char :=
  if 'A' ≤ c ∧ c ≤ 'Z' then Char.ofNat (c.toNat + 32) else c

/-- ASCII upper-casing of one character (JS `toUpperCase`, ASCII fragment). -/
def asciiUpperChar (c : Char) : Char :=
  if 'a' ≤ c ∧ c ≤ 'z' then Char.ofNat (c.toNat - 32) else c

def lowerStr (s : Str) : Str := s.map asciiLowerChar

def upperStr (s : Str) : Str := s.map asciiUpperChar

/-- Decimal digit characters. -/
def isDigitChar (c : Char) : Bool := '0' ≤ c ∧ c ≤ '9'

def digitChar (d : Nat) : Char := Char.ofNat (48 + d)

/-- Decimal rendering of a natural number (JS template interpolation).
Fuel-indexed so that it reduces by evaluation; `natToStr` supplies
enough fuel for any input. -/
def natToStrCore : Nat → Nat → Str → Str
  | 0, _, acc => acc
  | fuel + 1, n, acc =>
    let d := digitChar (n % 10)
    let q := n / 10
    if q = 0 then d :: acc else natToStrCore fuel q (d :: acc)

def natToStr (n : Nat) : Str := natToStrCore (n + 1) n []

/-- Value of a string of decimal digits (JS `parseInt(s, 10)` on an
all-digit string). -/
def parseNatDigits (s : Str) : Nat :=
  s.foldl (fun a c => a * 10 + (c.toNat - 48)) 0

/-- `s.startsWith p` on the model. -/
def strStartsWith (s p : Str) : Bool := s.take p.length = p

/-- Substring test: JS `a.includes(b)` is `strIncludes a b`. -/
def strIncludes : Str → Str → Bool
  | [], b => b.isEmpty
  | c :: t, b => strStartsWith (c :: t) b || strIncludes t b

/-- Case-insensitive `startsWith` against an already-lowercase pattern. -/
def strStartsWithCI (s p : Str) : Bool := (lowerStr s).take p.length = p

/-- JS `s.lastIndexOf(c)`. -/
def lastIndexOfChar (c : Char) (s : Str) : Option Nat :=
  match s with
  | [] => none
  | x :: xs =>
    match lastIndexOfChar c xs with
    | some i => some (i + 1)
    | none => if x = c then some 0 else none

section SanityChecks

example : jsTrim (S "  a b  ") = S "a b" := by decide
example : splitChar ',' (S "a,,b") = [S "a", S "", S "b"] := by decide
example : splitChar ',' (S "") = [S ""] := by decide
example : joinChar ',' [S "a", S "", S "b"] = S "a,,b" := by decide
example : natToStr 450 = S "450" := by decide
example : parseNatDigits (S "450") = 450 := by decide
example : lastIndexOfChar ',' (S "a,b,c") = some 3 := by decide
example : strIncludes (S "abcd") (S "bc") = true := by decide
example : lowerStr (S "MrS. X") = S "mrs. x" := by decide

end SanityChecks

/-! ## The org data model (`src/types/org.ts`) -/

inductive Location where
  | onshore | nearshore | offshore
  deriving DecidableEq, Repr

inductive EmployeeType where
  | employee | contractor
  deriving DecidableEq, Repr

inductive Role where
  | engineer | senior_engineer | staff_engineer
  | engineering_manager | head_of_engineering | principal_engineer
  deriving DecidableEq, Repr

open Location EmployeeType Role

/-- `ROLE_LABELS` from `org.ts`. -/
def ROLE_LABELS : Role → Str
  | engineer => S "Engineer"
  | senior_engineer => S "Senior Engineer"
  | staff_engineer => S "Staff Engineer"
  | engineering_manager => S "Engineering Manager"
  | head_of_engineering => S "Head of Engineering"
  | principal_engineer => S "Principal Engineer"

/-- The TS union value of a `Location` (the string the code interpolates). -/
def locationStr : Location → Str
  | onshore => S "onshore"
  | nearshore => S "nearshore"
  | offshore => S "offshore"

/-- The TS union value of a `Role` (used in template literals). -/
def roleKeyStr : Role → Str
  | engineer => S "engineer"
  | senior_engineer => S "senior_engineer"
  | staff_engineer => S "staff_engineer"
  | engineering_manager => S "engineering_manager"
  | head_of_engineering => S "head_of_engineering"
  | principal_engineer => S "principal_engineer"

/-- The TS union value of an `EmployeeType`. -/
def employeeTypeStr : EmployeeType → Str
  | employee => S "employee"
  | contractor => S "contractor"

/-- `Person` from `org.ts` (`id` present, `name`/`vendor`/`location`
optional as in the TS interface). -/
structure PersonI where
  id : Str
  name : Option Str := none
  role : Role
  type : EmployeeType
  vendor : Option Str := none
  location : Option Location := none
  deriving DecidableEq, Repr

structure TeamI where
  id : Str
  name : Str
  members : List PersonI
  deriving DecidableEq, Repr

structure GroupI where
  id : Str
  name : Str
  manager : Option PersonI := none
  managedBy : Option Str := none
  staffEngineers : List PersonI
  teams : List TeamI
  deriving DecidableEq, Repr

structure DivisionI where
  id : Str
  name : Str
  groups : List GroupI
  deriving DecidableEq, Repr

structure PortfolioI where
  id : Str
  name : Str
  headOfEngineering : Option PersonI := none
  principalEngineers : List PersonI
  divisions : Option (List DivisionI) := none
  groups : List GroupI
  onshoreTargetPercentage : Option Nat := none
  deriving DecidableEq, Repr

/-! ## CSV import engine (`src/utils/csvImport.ts`) -/

structure CsvRow where
  portfolio : Str
  csvGroup : Str
  teamName : Str
  role : Str
  location : Str
  vendor : Str
  name : Str
  lineNumber : Nat
  deriving DecidableEq, Repr

structure MatchedTeam where
  csvGroup : Str
  csvTeam : Str
  appDivision : Option Str := none
  appGroup : Str
  appTeam : Str
  matchReason : Str
  managerConfirmed : Bool
  deriving DecidableEq, Repr

structure PersonChange where
  name : Str
  role : Str
  location : Str
  vendor : Str
  type : EmployeeType
  deriving DecidableEq, Repr

structure TeamChange where
  match' : MatchedTeam
  added : List PersonChange
  removed : List PersonChange
  deriving DecidableEq, Repr

structure SkippedRow where
  row : CsvRow
  reason : Str
  deriving DecidableEq, Repr

structure UnmatchedTeam where
  csvGroup : Str
  csvTeam : Str
  rowCount : Nat
  reason : Str
  deriving DecidableEq, Repr

structure ImportSummary where
  teamsMatched : Nat
  teamsUnmatched : Nat
  membersAdded : Nat
  membersRemoved : Nat
  rowsSkipped : Nat
  deriving DecidableEq, Repr

structure ImportReport where
  teamChanges : List TeamChange
  skippedRows : List SkippedRow
  unmatchedTeams : List UnmatchedTeam
  summary : ImportSummary
  deriving DecidableEq, Repr

structure TeamMemberReplacement where
  portfolioId : Str
  divisionId : Option Str := none
  groupId : Str
  teamId : Str
  newMembers : List PersonI
  deriving DecidableEq, Repr

/-- One iteration of the `parseCsv` loop: trim the line, require at
least 7 comma-separated fields, fix the first two and last four fields
and rejoin the middle as the team name  (`csvImport.ts` lines 92-120). -/
def parseCsvLine (i : Nat) (rawLine : Str) : Option CsvRow :=
  let line := jsTrim rawLine
  if line.isEmpty then none
  else
    let parts := splitChar ',' line
    if parts.length < 7 then none
    else
      some {
        portfolio := jsTrim (parts.getD 0 [])
        csvGroup := jsTrim (parts.getD 1 [])
        name := jsTrim (parts.getD (parts.length - 1) [])
        vendor := jsTrim (parts.getD (parts.length - 2) [])
        location := jsTrim (parts.getD (parts.length - 3) [])
        role := jsTrim (parts.getD (parts.length - 4) [])
        teamName := jsTrim (joinChar ',' ((parts.drop 2).take (parts.length - 4 - 2)))
        lineNumber := i + 1
      }

/-- `parseCsv` (`csvImport.ts` lines 88-123). -/
def parseCsv (csvText : Str) : List CsvRow :=
  let lines := (splitChar '\n' (jsTrim csvText)).filter (fun l => !(jsTrim l).isEmpty)
  lines.enum.filterMap (fun p => parseCsvLine p.1 p.2)

/-- `normalise` (`csvImport.ts` lines 128-134): lowercase, keep only
`[a-z0-9\s&-]`, collapse whitespace runs, trim. -/
def normaliseKeep (c : Char) : Bool :=
  ('a' ≤ c ∧ c ≤ 'z') || ('0' ≤ c ∧ c ≤ '9') || jsWhitespace c || c = '&' || c = '-'

/-- `s.replace(/\s+/g, ' ')`: collapse every whitespace run to one space. -/
def collapseWsAux : Bool → Str → Str
  | _, [] => []
  | prevWs, c :: cs =>
    if jsWhitespace c then
      if prevWs then collapseWsAux true cs else ' ' :: collapseWsAux true cs
    else c :: collapseWsAux false cs

def collapseWs (s : Str) : Str := collapseWsAux false s

def normalise (s : Str) : Str :=
  jsTrim (collapseWs ((lowerStr s).filter normaliseKeep))

/-- The ordered alternatives of the honorific-prefix regex
`/^(mr\.?|ms\.?|mrs\.?|miss\.?|dr\.?)\s*/i`.  JS alternation is ordered:
the first alternative matching at position 0 wins (so `mr` fires on
`Mrs.` before `mrs` is tried, stripping only `mr`). -/
def honorifics : List Str := [S "mr", S "ms", S "mrs", S "miss", S "dr"]

/-- `normaliseName` (`csvImport.ts` lines 137-142). -/
def normaliseName (name : Str) : Str :=
  let stripped :=
    match honorifics.find? (fun h => strStartsWithCI name h) with
    | some h =>
      let rest := name.drop h.length
      let rest := match rest with
        | '.' :: r => r
        | r => r
      rest.dropWhile jsWhitespace
    | none => name
  jsTrim (collapseWs stripped)

/-- First-occurrence deduplication (JS `Set` construction; only sizes
and membership of the resulting sets are consumed). -/
def listUniq : List Str → List Str
  | [] => []
  | x :: xs => x :: (listUniq xs).filter (fun y => y ≠ x)

/-- Separator class of the token split `/[\s&-]+/`. -/
def tokenSep (c : Char) : Bool := jsWhitespace c || c = '&' || c = '-'

/-- Exact rational scores (JS float arithmetic modelled exactly).
Stored as an unreduced fraction `num / den` with positive denominator
so that every operation reduces in the kernel; `Score.toRat` is the
value. -/
structure Score where
  num : Int
  den : Nat
  deriving DecidableEq, Repr

def Score.ofNat (n : Nat) : Score := ⟨n, 1⟩

def Score.frac (p : Int) (q : Nat) : Score := ⟨p, q⟩

def Score.add (a b : Score) : Score := ⟨a.num * b.den + b.num * a.den, a.den * b.den⟩

def Score.mul (a b : Score) : Score := ⟨a.num * b.num, a.den * b.den⟩

/-- Strict `<` on score values (cross multiplication; denominators are
positive for every score the engine builds). -/
def Score.blt (a b : Score) : Bool := a.num * b.den < b.num * a.den

/-- `≤` on score values. -/
def Score.ble (a b : Score) : Bool := a.num * b.den ≤ b.num * a.den

/-- `Math.max` on score values. -/
def Score.maxS (a b : Score) : Score := if Score.ble b a then a else b

/-- The rational value of a score. -/
def Score.toRat (a : Score) : ℚ := (a.num : ℚ) / (a.den : ℚ)

/-- `split(/[\s&-]+/)`: split on maximal separator runs (a run of
separator characters counts as a single delimiter). -/
def splitRunsFold (p : Char → Bool) : Str → List Str
  | [] => [[]]
  | c :: cs =>
    let r := splitRunsFold p cs
    if p c then
      match cs with
      | d :: _ => if p d then r else [] :: r
      | [] => [] :: r
    else
      match r with
      | h :: t => (c :: h) :: t
      | [] => [[c]]

/-- The token list of `similarityScore`: `split(/[\s&-]+/)` followed by
`.filter(Boolean)`. -/
def tokensOf (s : Str) : List Str :=
  (splitRunsFold tokenSep s).filter (fun w => w ≠ [])

/-- `similarityScore` (`csvImport.ts` lines 149-174), with JS floats
modelled as exact rationals. -/
def similarityScore (a b : Str) : Score :=
  let na := normalise a
  let nb := normalise b
  if na = nb then Score.ofNat 1
  else if strIncludes na nb || strIncludes nb na then
    let shorter := if na.length < nb.length then na else nb
    let longer := if na.length < nb.length then nb else na
    Score.add (Score.frac 7 10)
      (Score.mul (Score.frac 3 10) (Score.frac shorter.length longer.length))
  else
    let tokensA := listUniq (tokensOf na)
    let tokensB := listUniq (tokensOf nb)
    if tokensA.length = 0 ∨ tokensB.length = 0 then Score.ofNat 0
    else
      let inter := (tokensA.filter (fun t => tokensB.contains t)).length
      let union := (listUniq (tokensA ++ tokensB)).length
      Score.frac inter union

/-- `namesMatch` (`csvImport.ts` lines 180-200). -/
def namesMatch (csvName : Str) (appName : Option Str) : Bool :=
  match appName with
  | none => false
  | some app =>
    let a := lowerStr (normaliseName csvName)
    let b := lowerStr (normaliseName app)
    if a = b then true
    else if strIncludes a b || strIncludes b a then true
    else
      let aLast := (splitChar ' ' a).getLastD []
      let bLast := (splitChar ' ' b).getLastD []
      if aLast.length > 2 ∧ aLast = bLast then
        let aFirst := (splitChar ' ' a).getD 0 []
        let bFirst := (splitChar ' ' b).getD 0 []
        aFirst.head? = bFirst.head?
      else false

/-- `mapRole` (`csvImport.ts` lines 204-213). -/
def mapRole (csvRole : Str) : Option Role :=
  let r := jsTrim (lowerStr csvRole)
  if r = S "engineer" then some engineer
  else if r = S "senior engineer" then some senior_engineer
  else if r = S "staff engineer" then some staff_engineer
  else if r = S "engineering manager" then some engineering_manager
  else if r = S "head of engineering" then some head_of_engineering
  else if r = S "principal engineer" then some principal_engineer
  else none

/-- `mapLocation` (`csvImport.ts` lines 215-220). -/
def mapLocation (csvLocation : Str) : Location :=
  let l := jsTrim (lowerStr csvLocation)
  if l = S "offshore" then offshore
  else if l = S "nearshore" then nearshore
  else onshore

/-- `mapTypeAndVendor` (`csvImport.ts` lines 222-227). -/
def mapTypeAndVendor (vendor : Str) : EmployeeType × Option Str :=
  if upperStr vendor = S "M&S" then (employee, none)
  else (contractor, some vendor)

/-- JS truthiness of an optional string field. -/
def truthy : Option Str → Bool
  | some v => !v.isEmpty
  | none => false

structure AppTeamLocation where
  divisionId : Option Str := none
  divisionName : Option Str := none
  groupId : Str
  groupName : Str
  teamId : Str
  teamName : Str
  managerName : Option Str := none
  deriving DecidableEq, Repr

/-- The `processGroup` closure of `enumerateTeams`. -/
def processGroupTeams (g : GroupI) (divisionId divisionName : Option Str) :
    List AppTeamLocation :=
  g.teams.map (fun t =>
    { divisionId := divisionId
      divisionName := divisionName
      groupId := g.id
      groupName := g.name
      teamId := t.id
      teamName := t.name
      managerName := g.manager.bind (fun m => m.name) })

/-- `enumerateTeams` (`csvImport.ts` lines 242-272). -/
def enumerateTeams (portfolio : PortfolioI) : List AppTeamLocation :=
  (((portfolio.divisions.getD []).map (fun d =>
      (d.groups.map (fun g => processGroupTeams g (some d.id) (some d.name))).flatten)).flatten)
  ++ (portfolio.groups.map (fun g => processGroupTeams g none none)).flatten

structure CsvTeamGroup where
  csvGroup : Str
  csvTeam : Str
  rows : List CsvRow
  managers : List CsvRow
  engineers : List CsvRow
  deriving DecidableEq, Repr

/-- The `Map` key `` `${row.csvGroup}|||${row.teamName}` ``. -/
def rowKey (csvGroup teamName : Str) : Str :=
  csvGroup ++ S "|||" ++ teamName

/-- Push one row into its team group's buckets (`groupCsvRows` body). -/
def pushRow (g : CsvTeamGroup) (row : CsvRow) : CsvTeamGroup :=
  let g := { g with rows := g.rows ++ [row] }
  match mapRole row.role with
  | some Role.engineering_manager => { g with managers := g.managers ++ [row] }
  | some Role.engineer => { g with engineers := g.engineers ++ [row] }
  | some Role.senior_engineer => { g with engineers := g.engineers ++ [row] }
  | _ => g

/-- Update the first element satisfying `p` (JS `Map` holds one entry
per key; insertion order is preserved). -/
def updateFirst (p : α → Bool) (f : α → α) : List α → List α
  | [] => []
  | x :: xs => if p x then f x :: xs else x :: updateFirst p f xs

/-- `groupCsvRows` (`csvImport.ts` lines 283-308): group rows by
`(csvGroup, teamName)` key preserving first-appearance order. -/
def groupCsvRows (rows : List CsvRow) : List CsvTeamGroup :=
  rows.foldl
    (fun gs row =>
      let key := rowKey row.csvGroup row.teamName
      if gs.any (fun g => decide (rowKey g.csvGroup g.csvTeam = key)) then
        updateFirst (fun g => decide (rowKey g.csvGroup g.csvTeam = key)) (fun g => pushRow g row) gs
      else
        gs ++ [pushRow
          { csvGroup := row.csvGroup, csvTeam := row.teamName
            rows := [], managers := [], engineers := [] } row])
    []

/-- JS `Number.prototype.toFixed(0)` for the non-negative scores the
engine formats: round to the nearest integer, ties up
(`⌊q + 1/2⌋ = (2·num + den) / (2·den)` for non-negative values). -/
def toFixed0 (q : Score) : Str :=
  natToStr ((2 * q.num.toNat + q.den) / (2 * q.den))

def joinSep (sep : Str) : List Str → Str
  | [] => []
  | [x] => x
  | x :: y :: xs => x ++ sep ++ joinSep sep (y :: xs)

structure ScoreResult where
  score : Score
  reason : Str
  managerConfirmed : Bool
  deriving DecidableEq, Repr

/-- `MATCH_THRESHOLD` (`csvImport.ts` line 365). -/
def MATCH_THRESHOLD : Score := Score.frac 45 100

/-- `scoreMatch` (`csvImport.ts` lines 314-361). -/
def scoreMatch (csvTeamGroup : CsvTeamGroup) (appTeam : AppTeamLocation) : ScoreResult :=
  let teamScore := similarityScore csvTeamGroup.csvTeam appTeam.teamName
  let ctx : Score × Str :=
    if truthy appTeam.divisionName then
      let dn := appTeam.divisionName.getD []
      let divScore := similarityScore csvTeamGroup.csvGroup dn
      let grpScore := similarityScore csvTeamGroup.csvGroup appTeam.groupName
      (Score.maxS divScore grpScore,
        if Score.ble grpScore divScore then S "division \"" ++ dn ++ S "\""
        else S "group \"" ++ appTeam.groupName ++ S "\"")
    else
      (similarityScore csvTeamGroup.csvGroup appTeam.groupName,
        S "group \"" ++ appTeam.groupName ++ S "\"")
  let managerConfirmed :=
    csvTeamGroup.managers.any (fun mgr => namesMatch mgr.name appTeam.managerName)
  let managerBonus : Score := if managerConfirmed then Score.frac 15 100 else Score.ofNat 0
  let totalScore :=
    Score.add (Score.add (Score.mul teamScore (Score.frac 55 100))
      (Score.mul ctx.1 (Score.frac 30 100))) managerBonus
  let reasons :=
    [S "team name \"" ++ csvTeamGroup.csvTeam ++ S "\" → \"" ++ appTeam.teamName
        ++ S "\" (" ++ toFixed0 (Score.mul teamScore (Score.ofNat 100)) ++ S "%)",
     S "context match to " ++ ctx.2 ++ S " (" ++ toFixed0 (Score.mul ctx.1 (Score.ofNat 100)) ++ S "%)"]
    ++ (if managerConfirmed then [S "manager confirmed"] else [])
  { score := totalScore
    reason := joinSep (S "; ") reasons
    managerConfirmed := managerConfirmed }

/-- `findTeamInPortfolio` (`csvImport.ts` lines 534-548). -/
def findTeamInPortfolio (portfolio : PortfolioI) (teamId : Str) : Option TeamI :=
  ((((portfolio.divisions.getD []).map (fun d => d.groups.map (fun g => g.teams))).flatten).flatten
    ++ (portfolio.groups.map (fun g => g.teams)).flatten).find?
    (fun t => decide (t.id = teamId))

/-- The best-candidate scan of the `analyseImport` loop
(`csvImport.ts` lines 389-399): skip claimed teams, keep the first
strict-maximum. -/
def pickBest (claimed : List Str) (appTeams : List AppTeamLocation) (g : CsvTeamGroup) :
    Option (AppTeamLocation × ScoreResult) :=
  appTeams.foldl
    (fun best appTeam =>
      if claimed.any (fun c => decide (c = appTeam.teamId)) then best
      else
        let result := scoreMatch g appTeam
        match best with
        | none => some (appTeam, result)
        | some (bt, br) => if Score.blt br.score result.score then some (appTeam, result) else some (bt, br))
    none

/-- `mapTypeAndVendor` + location forcing + `normaliseName`
(`csvImport.ts` lines 456-467): the `Person` constructed for an
imported engineer row, with id minted from the supply. -/
def mkImportedPerson (supply : Nat → Str) (k : Nat) (row : CsvRow) (role : Role) : PersonI :=
  let tv := mapTypeAndVendor row.vendor
  let location : Location := if tv.1 = employee then onshore else mapLocation row.location
  let cleanName := normaliseName row.name
  { id := supply k
    name := some cleanName
    role := role
    type := tv.1
    vendor := match tv.2 with
      | some v => if v.isEmpty then none else some v
      | none => none
    location := some location }

/-- The `addedChanges.push` record for an imported engineer row. -/
def mkAddedChange (row : CsvRow) : PersonChange :=
  { name := normaliseName row.name
    role := row.role
    location := row.location
    vendor := row.vendor
    type := (mapTypeAndVendor row.vendor).1 }

structure RowAcc where
  skipped : List SkippedRow
  newPersons : List PersonI
  added : List PersonChange
  ctr : Nat
  deriving Repr

/-- One iteration of the matched-group row loop
(`csvImport.ts` lines 435-477). -/
def processMatchedRow (supply : Nat → Str) (acc : RowAcc) (row : CsvRow) : RowAcc :=
  match mapRole row.role with
  | none =>
    { acc with skipped := acc.skipped
        ++ [{ row := row, reason := S "Unknown role: \"" ++ row.role ++ S "\"" }] }
  | some Role.engineering_manager =>
    { acc with skipped := acc.skipped
        ++ [{ row := row, reason := S "Engineering Manager — used for matching only, not imported" }] }
  | some Role.staff_engineer =>
    { acc with skipped := acc.skipped
        ++ [{ row := row, reason := S "Staff Engineer — management layer, not imported" }] }
  | some Role.principal_engineer =>
    { acc with skipped := acc.skipped
        ++ [{ row := row, reason := row.role ++ S " — leadership layer, not imported" }] }
  | some Role.head_of_engineering =>
    { acc with skipped := acc.skipped
        ++ [{ row := row, reason := row.role ++ S " — leadership layer, not imported" }] }
  | some role =>
    { acc with
        newPersons := acc.newPersons ++ [mkImportedPerson supply acc.ctr row role]
        added := acc.added ++ [mkAddedChange row]
        ctr := acc.ctr + 1 }

/-- The removed-changes record for an existing engineer member
(`csvImport.ts` lines 485-497). -/
def mkRemovedChange (member : PersonI) : PersonChange :=
  { name := match member.name with
      | some n => if n.isEmpty then S "Unnamed" else n
      | none => S "Unnamed"
    role := if member.role = engineer then S "Engineer" else S "Senior Engineer"
    location := match member.location with
      | some l => locationStr l
      | none => S "onshore"
    vendor := (member.vendor.getD [])
    type := member.type }

structure ImportState where
  claimed : List Str
  teamChanges : List TeamChange
  skippedRows : List SkippedRow
  unmatchedTeams : List UnmatchedTeam
  replacements : List TeamMemberReplacement
  ctr : Nat
  deriving Repr

/-- One iteration of the main `analyseImport` loop over CSV team
groups (`csvImport.ts` lines 387-515). -/
def importStep (supply : Nat → Str) (portfolio : PortfolioI)
    (appTeams : List AppTeamLocation) (st : ImportState) (csvGroup : CsvTeamGroup) :
    ImportState :=
  match pickBest st.claimed appTeams csvGroup with
  | none =>
    { st with
        unmatchedTeams := st.unmatchedTeams
          ++ [{ csvGroup := csvGroup.csvGroup, csvTeam := csvGroup.csvTeam
                rowCount := csvGroup.rows.length
                reason := S "No candidate teams found in portfolio" }]
        skippedRows := st.skippedRows ++ csvGroup.rows.map (fun row =>
          { row := row
            reason := S "No matching team found for \"" ++ csvGroup.csvTeam
              ++ S "\" in group \"" ++ csvGroup.csvGroup ++ S "\"" }) }
  | some (bestMatch, bestResult) =>
    if Score.blt bestResult.score MATCH_THRESHOLD then
      { st with
          unmatchedTeams := st.unmatchedTeams
            ++ [{ csvGroup := csvGroup.csvGroup, csvTeam := csvGroup.csvTeam
                  rowCount := csvGroup.rows.length
                  reason := S "Best candidate: \"" ++ bestMatch.teamName ++ S "\" in "
                    ++ (if truthy bestMatch.divisionName then
                          S "division \"" ++ bestMatch.divisionName.getD [] ++ S "\", "
                        else [])
                    ++ S "group \"" ++ bestMatch.groupName ++ S "\" — score "
                    ++ toFixed0 (Score.mul bestResult.score (Score.ofNat 100))
                    ++ S "% (below " ++ toFixed0 (Score.mul MATCH_THRESHOLD (Score.ofNat 100)) ++ S "% threshold)" }]
          skippedRows := st.skippedRows ++ csvGroup.rows.map (fun row =>
            { row := row
              reason := S "No matching team found for \"" ++ csvGroup.csvTeam
                ++ S "\" in group \"" ++ csvGroup.csvGroup ++ S "\"" }) }
    else
      let matchRec : MatchedTeam :=
        { csvGroup := csvGroup.csvGroup
          csvTeam := csvGroup.csvTeam
          appDivision := bestMatch.divisionName
          appGroup := bestMatch.groupName
          appTeam := bestMatch.teamName
          matchReason := bestResult.reason
          managerConfirmed := bestResult.managerConfirmed }
      let acc := csvGroup.rows.foldl (processMatchedRow supply)
        { skipped := [], newPersons := [], added := [], ctr := st.ctr }
      let existingTeam := findTeamInPortfolio portfolio bestMatch.teamId
      let removedKept : List PersonChange × List PersonI :=
        match existingTeam with
        | some team =>
          team.members.foldl
            (fun rk member =>
              if member.role = engineer ∨ member.role = senior_engineer then
                (rk.1 ++ [mkRemovedChange member], rk.2)
              else (rk.1, rk.2 ++ [member]))
            ([], [])
        | none => ([], [])
      { st with
          claimed := st.claimed ++ [bestMatch.teamId]
          skippedRows := st.skippedRows ++ acc.skipped
          teamChanges := st.teamChanges
            ++ [{ match' := matchRec, added := acc.added, removed := removedKept.1 }]
          replacements := st.replacements
            ++ [{ portfolioId := portfolio.id
                  divisionId := bestMatch.divisionId
                  groupId := bestMatch.groupId
                  teamId := bestMatch.teamId
                  newMembers := removedKept.2 ++ acc.newPersons }]
          ctr := acc.ctr }

def initImportState : ImportState :=
  { claimed := [], teamChanges := [], skippedRows := [], unmatchedTeams := []
    replacements := [], ctr := 0 }

/-- `analyseImport` (`csvImport.ts` lines 371-531), with identifier
minting modelled by the id supply. -/
def analyseImport (supply : Nat → Str) (csvText : Str) (portfolio : PortfolioI) :
    ImportReport × List TeamMemberReplacement :=
  let rows := parseCsv csvText
  let csvGroups := groupCsvRows rows
  let appTeams := enumerateTeams portfolio
  let st := csvGroups.foldl (importStep supply portfolio appTeams) initImportState
  ({ teamChanges := st.teamChanges
     skippedRows := st.skippedRows
     unmatchedTeams := st.unmatchedTeams
     summary :=
       { teamsMatched := st.teamChanges.length
         teamsUnmatched := st.unmatchedTeams.length
         membersAdded := (st.teamChanges.map (fun tc => tc.added.length)).sum
         membersRemoved := (st.teamChanges.map (fun tc => tc.removed.length)).sum
         rowsSkipped := st.skippedRows.length } },
   st.replacements)

/-! ## CSV parsing claims (C8, C10) -/

/-- The non-blank line list `parseCsv` iterates over. -/
def nonblankLines (csvText : Str) : List Str :=
  (splitChar '\n' (jsTrim csvText)).filter (fun l => !(jsTrim l).isEmpty)

theorem parseCsv_eq_filterMap (csvText : Str) :
    parseCsv csvText
      = (nonblankLines csvText).enum.filterMap (fun p => parseCsvLine p.1 p.2) := rfl

/-- The row shape the specification assigns to a line with at least 7
comma-separated fields: portfolio and group are the first two fields,
role / location / vendor / name the last four, every field in between
rejoined with commas the team name (fields extracted trimmed); a line
with fewer than 7 fields yields nothing. -/
def specFixedEndsRow (i : Nat) (line : Str) : Option CsvRow :=
  let parts := splitChar ',' (jsTrim line)
  if 7 ≤ parts.length then
    some { portfolio := jsTrim (parts.getD 0 [])
           csvGroup := jsTrim (parts.getD 1 [])
           teamName := jsTrim (joinChar ',' ((parts.drop 2).take (parts.length - 6)))
           role := jsTrim (parts.getD (parts.length - 4) [])
           location := jsTrim (parts.getD (parts.length - 3) [])
           vendor := jsTrim (parts.getD (parts.length - 2) [])
           name := jsTrim (parts.getD (parts.length - 1) [])
           lineNumber := i + 1 }
  else none

theorem parseCsvLine_eq_spec (i : Nat) (line : Str) (h : jsTrim line ≠ []) :
    parseCsvLine i line = specFixedEndsRow i line := by
  have h' : ((jsTrim line).isEmpty = true) = False := by
    simp [List.isEmpty_iff, h]
  unfold parseCsvLine specFixedEndsRow
  simp only [h', if_false]
  by_cases h7 : (splitChar ',' (jsTrim line)).length < 7
  · rw [if_pos h7, if_neg (by omega)]
  · rw [if_neg h7, if_pos (by omega)]
    have h62 : (splitChar ',' (jsTrim line)).length - 4 - 2
        = (splitChar ',' (jsTrim line)).length - 6 := by omega
    rw [h62]

/-- C8 — CSV fixed-ends parsing: `parseCsv` turns exactly the
non-blank lines with at least 7 comma-separated fields into rows whose
portfolio and csvGroup are the first two fields, whose role, location,
vendor and name are the last four fields, and whose teamName is every
field in between rejoined with commas; lines with fewer than 7 fields
produce no row and no diagnostic (the result type carries none). -/
theorem claim_C8_parseCsv_fixed_ends (csvText : Str) :
    parseCsv csvText
      = (nonblankLines csvText).enum.filterMap (fun p => specFixedEndsRow p.1 p.2) := by
  rw [parseCsv_eq_filterMap]
  refine List.filterMap_congr (fun x hx => ?_)
  obtain ⟨i, l⟩ := x
  have hget : (nonblankLines csvText)[i]? = some l :=
    (List.mk_mem_enum_iff_getElem?).mp hx
  have hmem : l ∈ nonblankLines csvText := by
    rw [List.getElem?_eq_some_iff] at hget
    obtain ⟨hlt, rfl⟩ := hget
    exact List.getElem_mem hlt
  have hne : jsTrim l ≠ [] := by
    have := List.of_mem_filter hmem
    simpa [List.isEmpty_iff] using this
  exact parseCsvLine_eq_spec i l hne

/-- A document whose fourth physical line is the second non-blank line. -/
def c10text : Str := S "A,B,C,D,E,F,G\n\n  \nH,I,J,K,L,M,N"

/-- The row `parseCsv` produces from the fourth physical line of
`c10text`. -/
def c10row : CsvRow :=
  { portfolio := S "H", csvGroup := S "I", teamName := S "J"
    role := S "K", location := S "L", vendor := S "M", name := S "N"
    lineNumber := 2 }

/-- C10 — CSV lineNumber counts non-blank lines only: every returned
row's `lineNumber` is one more than its index in the non-blank-line
list of the trimmed input, and in `c10text` the row from the fourth
physical line carries `lineNumber` 2. -/
theorem claim_C10_lineNumber_nonblank :
    (∀ csvText r, r ∈ parseCsv csvText →
      ∃ i l, (nonblankLines csvText)[i]? = some l
        ∧ parseCsvLine i l = some r ∧ r.lineNumber = i + 1)
    ∧ ((parseCsv c10text).map (fun r => r.lineNumber) = [1, 2]
        ∧ c10row ∈ parseCsv c10text
        ∧ (splitChar '\n' c10text)[3]? = some (S "H,I,J,K,L,M,N")) := by
  constructor
  · intro csvText r hr
    rw [parseCsv_eq_filterMap] at hr
    obtain ⟨⟨i, l⟩, hmem, hp⟩ := List.mem_filterMap.mp hr
    have hget : (nonblankLines csvText)[i]? = some l :=
      (List.mk_mem_enum_iff_getElem?).mp hmem
    refine ⟨i, l, hget, hp, ?_⟩
    simp only [parseCsvLine] at hp
    split at hp
    · exact absurd hp (by simp)
    · split at hp
      · exact absurd hp (by simp)
      · cases hp; rfl
  · exact ⟨by decide, by decide, by decide⟩

/-- Witness for C10 at the concrete document `c10text`. -/
theorem claim_C10_lineNumber_nonblank_witness :
    ∃ i l, (nonblankLines c10text)[i]? = some l
      ∧ parseCsvLine i l = some c10row ∧ c10row.lineNumber = i + 1 :=
  claim_C10_lineNumber_nonblank.1 c10text c10row (by decide)

/-! ## namesMatch surname fallback (C7) -/

/-- C7 as stated is falsified by the pair "Al Li" / "Ann Li": neither
exact equality nor containment holds after normalisation, the last
tokens agree and the first characters of the first tokens agree, yet
`namesMatch` returns false — the code additionally requires the shared
surname to be longer than 2 characters. -/
theorem claim_C7_counterexample :
    namesMatch (S "Al Li") (some (S "Ann Li")) = false
    ∧ lowerStr (normaliseName (S "Al Li")) ≠ lowerStr (normaliseName (S "Ann Li"))
    ∧ strIncludes (lowerStr (normaliseName (S "Al Li")))
        (lowerStr (normaliseName (S "Ann Li"))) = false
    ∧ strIncludes (lowerStr (normaliseName (S "Ann Li")))
        (lowerStr (normaliseName (S "Al Li"))) = false
    ∧ (splitChar ' ' (lowerStr (normaliseName (S "Al Li")))).getLastD []
        = (splitChar ' ' (lowerStr (normaliseName (S "Ann Li")))).getLastD []
    ∧ ((splitChar ' ' (lowerStr (normaliseName (S "Al Li")))).getD 0 []).head?
        = ((splitChar ' ' (lowerStr (normaliseName (S "Ann Li")))).getD 0 []).head? := by
  decide

/-- C7 (amended) — namesMatch surname fallback: when neither exact
equality nor containment holds after honorific stripping, whitespace
collapsing and lower-casing, `namesMatch` returns true exactly when the
two last whitespace-delimited tokens are equal AND longer than two
characters AND the first characters of the first tokens agree. -/
theorem claim_C7_namesMatch_fallback (a b : Str)
    (hne : lowerStr (normaliseName a) ≠ lowerStr (normaliseName b))
    (hab : strIncludes (lowerStr (normaliseName a)) (lowerStr (normaliseName b)) = false)
    (hba : strIncludes (lowerStr (normaliseName b)) (lowerStr (normaliseName a)) = false) :
    namesMatch a (some b) = true ↔
      ((splitChar ' ' (lowerStr (normaliseName a))).getLastD []
          = (splitChar ' ' (lowerStr (normaliseName b))).getLastD []
        ∧ 2 < ((splitChar ' ' (lowerStr (normaliseName a))).getLastD []).length
        ∧ ((splitChar ' ' (lowerStr (normaliseName a))).getD 0 []).head?
            = ((splitChar ' ' (lowerStr (normaliseName b))).getD 0 []).head?) := by
  simp only [namesMatch]
  rw [if_neg hne, if_neg (by simp [hab, hba])]
  by_cases hguard :
      ((splitChar ' ' (lowerStr (normaliseName a))).getLastD []).length > 2
      ∧ (splitChar ' ' (lowerStr (normaliseName a))).getLastD []
          = (splitChar ' ' (lowerStr (normaliseName b))).getLastD []
  · rw [if_pos hguard]
    simp only [decide_eq_true_eq]
    exact ⟨fun h => ⟨hguard.2, hguard.1, h⟩, fun h => h.2.2⟩
  · rw [if_neg hguard]
    simp only [Bool.false_eq_true, false_iff]
    exact fun h => hguard ⟨h.2.1, h.1⟩

/-- Witness for the amended C7 at "Jon Smith" / "Jim Smith". -/
theorem claim_C7_namesMatch_fallback_witness :
    namesMatch (S "Jon Smith") (some (S "Jim Smith")) = true ↔
      ((splitChar ' ' (lowerStr (normaliseName (S "Jon Smith")))).getLastD []
          = (splitChar ' ' (lowerStr (normaliseName (S "Jim Smith")))).getLastD []
        ∧ 2 < ((splitChar ' ' (lowerStr (normaliseName (S "Jon Smith")))).getLastD []).length
        ∧ ((splitChar ' ' (lowerStr (normaliseName (S "Jon Smith")))).getD 0 []).head?
            = ((splitChar ' ' (lowerStr (normaliseName (S "Jim Smith")))).getD 0 []).head?) :=
  claim_C7_namesMatch_fallback (S "Jon Smith") (S "Jim Smith")
    (by decide) (by decide) (by decide)

/-! ## Threshold boundary (C4) -/

/-- The candidates a CSV team group can still match: app teams not yet
claimed by an earlier group of the same run. -/
def unclaimedTeams (claimed : List Str) (appTeams : List AppTeamLocation) :
    List AppTeamLocation :=
  appTeams.filter (fun t => !(claimed.any (fun c => decide (c = t.teamId))))

/-- The candidate-scan step with the claimed-set test already applied. -/
def pickStep (g : CsvTeamGroup) (best : Option (AppTeamLocation × ScoreResult))
    (appTeam : AppTeamLocation) : Option (AppTeamLocation × ScoreResult) :=
  let result := scoreMatch g appTeam
  match best with
  | none => some (appTeam, result)
  | some (bt, br) =>
    if Score.blt br.score result.score then some (appTeam, result) else some (bt, br)

theorem pickBest_eq_foldl (claimed : List Str) (appTeams : List AppTeamLocation)
    (g : CsvTeamGroup) :
    pickBest claimed appTeams g
      = (unclaimedTeams claimed appTeams).foldl (pickStep g) none := by
  unfold pickBest unclaimedTeams
  generalize none = acc
  induction appTeams generalizing acc with
  | nil => rfl
  | cons t ts ih =>
    simp only [List.foldl_cons, List.filter_cons]
    by_cases hc : claimed.any (fun c => decide (c = t.teamId))
    · simpa [hc] using ih _
    · simpa [hc, pickStep] using ih _

theorem pickFold_some_ne_none (g : CsvTeamGroup) :
    ∀ (l : List AppTeamLocation) p, l.foldl (pickStep g) (some p) ≠ none := by
  intro l
  induction l with
  | nil => intro p h; exact Option.noConfusion h
  | cons t ts ih =>
    intro p
    obtain ⟨bt, br⟩ := p
    simp only [List.foldl_cons, pickStep]
    by_cases hb : Score.blt br.score (scoreMatch g t).score <;> simp [hb, ih]

theorem pickFold_none_iff (g : CsvTeamGroup) (l : List AppTeamLocation) :
    l.foldl (pickStep g) none = none ↔ l = [] := by
  cases l with
  | nil => simp
  | cons t ts =>
    simp only [List.foldl_cons, pickStep]
    exact ⟨fun h => absurd h (pickFold_some_ne_none g ts _), fun h => List.noConfusion h⟩

theorem pickFold_some_mem (g : CsvTeamGroup) :
    ∀ (l : List AppTeamLocation) t0 r0 t r,
      l.foldl (pickStep g) (some (t0, r0)) = some (t, r) →
      r = r0 ∨ ∃ t' ∈ l, r = scoreMatch g t' := by
  intro l
  induction l with
  | nil =>
    intro t0 r0 t r h
    cases h
    exact Or.inl rfl
  | cons t1 ts ih =>
    intro t0 r0 t r h
    simp only [List.foldl_cons, pickStep] at h
    by_cases hb : Score.blt r0.score (scoreMatch g t1).score
    · rw [if_pos hb] at h
      rcases ih _ _ _ _ h with h' | ⟨t', ht', h'⟩
      · exact Or.inr ⟨t1, List.mem_cons_self _ _, h'⟩
      · exact Or.inr ⟨t', List.mem_cons_of_mem _ ht', h'⟩
    · rw [if_neg hb] at h
      rcases ih _ _ _ _ h with h' | ⟨t', ht', h'⟩
      · exact Or.inl h'
      · exact Or.inr ⟨t', List.mem_cons_of_mem _ ht', h'⟩

theorem Score.blt_iff_toRat {a b : Score} (ha : 0 < a.den) (hb : 0 < b.den) :
    Score.blt a b = true ↔ a.toRat < b.toRat := by
  unfold Score.blt Score.toRat
  rw [div_lt_div_iff₀ (by exact_mod_cast ha) (by exact_mod_cast hb),
    decide_eq_true_eq]
  constructor <;> intro h <;> exact_mod_cast h

theorem listUniq_ne_nil (x : Str) (xs : List Str) : listUniq (x :: xs) ≠ [] := by
  simp [listUniq]

theorem similarityScore_den_pos (a b : Str) : 0 < (similarityScore a b).den := by
  unfold similarityScore
  by_cases h1 : normalise a = normalise b
  · simp [h1, Score.ofNat]
  rw [if_neg h1]
  by_cases h2 : (strIncludes (normalise a) (normalise b)
      || strIncludes (normalise b) (normalise a)) = true
  · rw [if_pos h2]
    simp only [Score.add, Score.mul, Score.frac]
    have hlong : 0 < (if (normalise a).length < (normalise b).length
        then normalise b else normalise a).length := by
      by_cases hl : (normalise a).length < (normalise b).length
      · simp only [hl, if_true]
        omega
      · simp only [hl, if_false]
        rcases Nat.eq_zero_or_pos (normalise a).length with hz | hp
        · exfalso
          have hna : normalise a = [] := List.length_eq_zero.mp hz
          have hnbz : (normalise b).length = 0 := by omega
          have hnb : normalise b = [] := List.length_eq_zero.mp hnbz
          exact h1 (hna.trans hnb.symm)
        · exact hp
    positivity
  · rw [if_neg h2]
    by_cases h3 : (listUniq (tokensOf (normalise a))).length = 0
        ∨ (listUniq (tokensOf (normalise b))).length = 0
    · rw [if_pos h3]
      simp [Score.ofNat]
    · rw [if_neg h3]
      simp only [Score.frac]
      push_neg at h3
      have hA : listUniq (tokensOf (normalise a)) ≠ [] := by
        intro hx
        exact h3.1 (by simp [hx])
      have happ : listUniq (tokensOf (normalise a)) ++ listUniq (tokensOf (normalise b)) ≠ [] :=
        fun hx => hA (List.append_eq_nil.mp hx).1
      cases hu : listUniq (tokensOf (normalise a)) ++ listUniq (tokensOf (normalise b)) with
      | nil => exact absurd hu happ
      | cons y ys =>
        simp [listUniq]

theorem Score.add_den_pos {a b : Score} (ha : 0 < a.den) (hb : 0 < b.den) :
    0 < (Score.add a b).den := Nat.mul_pos ha hb

theorem Score.mul_den_pos {a b : Score} (ha : 0 < a.den) (hb : 0 < b.den) :
    0 < (Score.mul a b).den := Nat.mul_pos ha hb

theorem Score.maxS_den_pos {a b : Score} (ha : 0 < a.den) (hb : 0 < b.den) :
    0 < (Score.maxS a b).den := by
  unfold Score.maxS
  by_cases h : Score.ble b a <;> simp [h, ha, hb]

theorem scoreMatch_den_pos (g : CsvTeamGroup) (t : AppTeamLocation) :
    0 < (scoreMatch g t).score.den := by
  unfold scoreMatch
  refine Score.add_den_pos
    (Score.add_den_pos
      (Score.mul_den_pos (similarityScore_den_pos _ _) (by decide)) (Score.mul_den_pos ?_ (by decide)))
    ?_
  · by_cases hd : truthy t.divisionName
    · simp only [hd, if_true]
      exact Score.maxS_den_pos (similarityScore_den_pos _ _) (similarityScore_den_pos _ _)
    · simp only [hd, Bool.false_eq_true, if_false]
      exact similarityScore_den_pos _ _
  · by_cases hm : g.managers.any (fun mgr => namesMatch mgr.name t.managerName)
      <;> simp [hm, Score.frac, Score.ofNat]

theorem pickStep_none (g : CsvTeamGroup) (t : AppTeamLocation) :
    pickStep g none t = some (t, scoreMatch g t) := rfl

theorem pickFold_some_bound (g : CsvTeamGroup) :
    ∀ (l : List AppTeamLocation) t0 r0 t r,
      0 < r0.score.den →
      l.foldl (pickStep g) (some (t0, r0)) = some (t, r) →
      r0.score.toRat ≤ r.score.toRat
        ∧ ∀ t' ∈ l, (scoreMatch g t').score.toRat ≤ r.score.toRat := by
  intro l
  induction l with
  | nil =>
    intro t0 r0 t r h0 h
    cases h
    exact ⟨le_refl _, by simp⟩
  | cons t1 ts ih =>
    intro t0 r0 t r h0 h
    rw [List.foldl_cons] at h
    simp only [pickStep] at h
    by_cases hb : Score.blt r0.score (scoreMatch g t1).score
    · rw [if_pos hb] at h
      have hlt : r0.score.toRat < (scoreMatch g t1).score.toRat :=
        (Score.blt_iff_toRat h0 (scoreMatch_den_pos g t1)).mp hb
      obtain ⟨h1, h2⟩ := ih t1 (scoreMatch g t1) t r (scoreMatch_den_pos g t1) h
      refine ⟨le_of_lt (lt_of_lt_of_le hlt h1), ?_⟩
      intro t' ht'
      rcases List.mem_cons.mp ht' with rfl | ht'
      · exact h1
      · exact h2 t' ht'
    · rw [if_neg hb] at h
      have hle : (scoreMatch g t1).score.toRat ≤ r0.score.toRat := by
        by_contra hcon
        exact hb ((Score.blt_iff_toRat h0 (scoreMatch_den_pos g t1)).mpr (lt_of_not_le hcon))
      obtain ⟨h1, h2⟩ := ih t0 r0 t r h0 h
      refine ⟨h1, ?_⟩
      intro t' ht'
      rcases List.mem_cons.mp ht' with rfl | ht'
      · exact le_trans hle h1
      · exact h2 t' ht'

theorem pickBest_none_iff (claimed : List Str) (appTeams : List AppTeamLocation)
    (g : CsvTeamGroup) :
    pickBest claimed appTeams g = none ↔ unclaimedTeams claimed appTeams = [] := by
  rw [pickBest_eq_foldl]
  exact pickFold_none_iff g _

theorem pickBest_some_spec (claimed : List Str) (appTeams : List AppTeamLocation)
    (g : CsvTeamGroup) (t : AppTeamLocation) (r : ScoreResult)
    (h : pickBest claimed appTeams g = some (t, r)) :
    (∃ t' ∈ unclaimedTeams claimed appTeams, r = scoreMatch g t')
    ∧ ∀ t' ∈ unclaimedTeams claimed appTeams,
        (scoreMatch g t').score.toRat ≤ r.score.toRat := by
  rw [pickBest_eq_foldl] at h
  cases hu : unclaimedTeams claimed appTeams with
  | nil =>
    rw [hu] at h
    cases h
  | cons t1 ts =>
    rw [hu, List.foldl_cons, pickStep_none] at h
    have hmem := pickFold_some_mem g ts t1 (scoreMatch g t1) t r h
    obtain ⟨h1, h2⟩ :=
      pickFold_some_bound g ts t1 (scoreMatch g t1) t r (scoreMatch_den_pos g t1) h
    constructor
    · rcases hmem with h' | ⟨t', ht', h'⟩
      · exact ⟨t1, List.mem_cons_self _ _, h'⟩
      · exact ⟨t', List.mem_cons_of_mem _ ht', h'⟩
    · intro t' ht'
      rcases List.mem_cons.mp ht' with rfl | ht'
      · exact h1
      · exact h2 t' ht'

/-- The score of a `pickBest` result has positive denominator. -/
theorem pickBest_score_den_pos (claimed : List Str) (appTeams : List AppTeamLocation)
    (g : CsvTeamGroup) (t : AppTeamLocation) (r : ScoreResult)
    (h : pickBest claimed appTeams g = some (t, r)) : 0 < r.score.den := by
  obtain ⟨⟨t', _, hr⟩, _⟩ := pickBest_some_spec claimed appTeams g t r h
  rw [hr]
  exact scoreMatch_den_pos g t'

/-- The skip reason attached to every row of an unmatched team group. -/
def unmatchedSkipReason (g : CsvTeamGroup) : Str :=
  S "No matching team found for \"" ++ g.csvTeam ++ S "\" in group \"" ++ g.csvGroup ++ S "\""

def c4portfolio : PortfolioI :=
  { id := S "p", name := S "Acme", principalEngineers := []
    groups := [
      { id := S "g1", name := S "G1"
        manager := some { id := S "m1", name := some (S "Jane Smith")
                          role := engineering_manager, type := employee
                          location := some onshore }
        staffEngineers := []
        teams := [{ id := S "t1", name := S "AAA", members := [] }] }] }

def c4supply : Nat → Str := fun n => natToStr n

/-- Team name entirely dissimilar (score 0), exact group match (0.30),
manager confirmed (+0.15): total exactly 0.45. -/
def c4csvAt45 : Str := S "P,G1,BBB,Engineering Manager,Onshore,M&S,Jane Smith"

/-- Same but without the manager row: total 0.30 < 0.45. -/
def c4csvBelow : Str := S "P,G1,BBB,Engineer,Onshore,TCS,Bob"

/-- C4 — Threshold boundary: a CSV team group is recorded as unmatched
(one unmatched entry, every constituent row skipped, no replacement)
exactly when it has no unclaimed candidate teams or every candidate's
score is strictly below `MATCH_THRESHOLD` (0.45, i.e. the best score is
strictly below the threshold); concretely, a group whose best score is
exactly 0.45 is matched while a best score strictly below 0.45 is
unmatched. -/
theorem claim_C4_threshold_boundary :
    (∀ supply portfolio appTeams st g,
      ((∃ ureason,
          (importStep supply portfolio appTeams st g).unmatchedTeams
            = st.unmatchedTeams
              ++ [{ csvGroup := g.csvGroup, csvTeam := g.csvTeam
                    rowCount := g.rows.length, reason := ureason }]
          ∧ (importStep supply portfolio appTeams st g).skippedRows
            = st.skippedRows
              ++ g.rows.map (fun row => { row := row, reason := unmatchedSkipReason g })
          ∧ (importStep supply portfolio appTeams st g).replacements = st.replacements)
        ↔ (unclaimedTeams st.claimed appTeams = []
            ∨ ∀ t ∈ unclaimedTeams st.claimed appTeams,
                Score.blt (scoreMatch g t).score MATCH_THRESHOLD = true)))
    ∧ ((analyseImport c4supply c4csvAt45 c4portfolio).1.summary.teamsMatched = 1
        ∧ (analyseImport c4supply c4csvAt45 c4portfolio).1.summary.teamsUnmatched = 0
        ∧ (groupCsvRows (parseCsv c4csvAt45)).map (fun g =>
            (enumerateTeams c4portfolio).map (fun t =>
              Score.ble (scoreMatch g t).score MATCH_THRESHOLD
                && Score.ble MATCH_THRESHOLD (scoreMatch g t).score)) = [[true]])
    ∧ ((analyseImport c4supply c4csvBelow c4portfolio).1.summary.teamsMatched = 0
        ∧ (analyseImport c4supply c4csvBelow c4portfolio).1.summary.teamsUnmatched = 1
        ∧ (groupCsvRows (parseCsv c4csvBelow)).map (fun g =>
            (enumerateTeams c4portfolio).map (fun t =>
              Score.blt (scoreMatch g t).score MATCH_THRESHOLD)) = [[true]]) := by
  refine ⟨?_, ⟨by decide, by decide, by decide⟩, ⟨by decide, by decide, by decide⟩⟩
  intro supply portfolio appTeams st g
  cases hpick : pickBest st.claimed appTeams g with
  | none =>
    have hnil : unclaimedTeams st.claimed appTeams = [] :=
      (pickBest_none_iff _ _ _).mp hpick
    simp only [importStep, hpick]
    exact ⟨fun _ => Or.inl hnil,
      fun _ => ⟨S "No candidate teams found in portfolio", rfl, by simp [unmatchedSkipReason], by simp⟩⟩
  | some pr =>
    obtain ⟨bt, br⟩ := pr
    obtain ⟨⟨tw, htw, hbr⟩, hbound⟩ := pickBest_some_spec _ _ _ _ _ hpick
    have hden : 0 < br.score.den := by
      rw [hbr]; exact scoreMatch_den_pos g tw
    by_cases hth : Score.blt br.score MATCH_THRESHOLD
    · have hlt : br.score.toRat < MATCH_THRESHOLD.toRat :=
        (Score.blt_iff_toRat hden (by decide)).mp hth
      simp only [importStep, hpick, hth, if_true]
      refine ⟨fun _ => Or.inr (fun t ht => ?_), fun _ => ⟨_, rfl, by simp [unmatchedSkipReason], by simp⟩⟩
      exact (Score.blt_iff_toRat (scoreMatch_den_pos g t) (by decide)).mpr
        (lt_of_le_of_lt (hbound t ht) hlt)
    · simp only [importStep, hpick, hth, Bool.false_eq_true, if_false]
      constructor
      · rintro ⟨ureason, hum, _, _⟩
        exfalso
        have := congrArg List.length hum
        simp at this
      · rintro (hnil | hall)
        · rw [hnil] at htw
          cases htw
        · exfalso
          have := hall tw htw
          rw [← hbr] at this
          exact hth this

def c4groupBelow : CsvTeamGroup :=
  (groupCsvRows (parseCsv c4csvBelow)).headD
    { csvGroup := [], csvTeam := [], rows := [], managers := [], engineers := [] }

/-- Witness for C4: the sub-threshold fixture group is recorded as
unmatched with all rows skipped and no replacement. -/
theorem claim_C4_threshold_boundary_witness :
    ∃ ureason,
      (importStep c4supply c4portfolio (enumerateTeams c4portfolio)
          initImportState c4groupBelow).unmatchedTeams
        = initImportState.unmatchedTeams
          ++ [{ csvGroup := c4groupBelow.csvGroup, csvTeam := c4groupBelow.csvTeam
                rowCount := c4groupBelow.rows.length, reason := ureason }]
      ∧ (importStep c4supply c4portfolio (enumerateTeams c4portfolio)
          initImportState c4groupBelow).skippedRows
        = initImportState.skippedRows
          ++ c4groupBelow.rows.map (fun row =>
              { row := row, reason := unmatchedSkipReason c4groupBelow })
      ∧ (importStep c4supply c4portfolio (enumerateTeams c4portfolio)
          initImportState c4groupBelow).replacements = initImportState.replacements :=
  (claim_C4_threshold_boundary.1 c4supply c4portfolio (enumerateTeams c4portfolio)
    initImportState c4groupBelow).mpr (by decide)

/-! ## Claim exclusivity (C5) -/

theorem foldlInvariant {α β : Type} {P : β → Prop} (f : β → α → β) (l : List α)
    (init : β) (h0 : P init) (hstep : ∀ b a, P b → P (f b a)) : P (l.foldl f init) := by
  induction l generalizing init with
  | nil => exact h0
  | cons x xs ih => exact ih (f init x) (hstep init x h0)

theorem pickFold_some_pair_mem (g : CsvTeamGroup) :
    ∀ (l : List AppTeamLocation) t0 r0 t r,
      l.foldl (pickStep g) (some (t0, r0)) = some (t, r) →
      (t = t0 ∧ r = r0) ∨ ∃ t' ∈ l, t = t' ∧ r = scoreMatch g t' := by
  intro l
  induction l with
  | nil =>
    intro t0 r0 t r h
    cases h
    exact Or.inl ⟨rfl, rfl⟩
  | cons t1 ts ih =>
    intro t0 r0 t r h
    rw [List.foldl_cons] at h
    simp only [pickStep] at h
    by_cases hb : Score.blt r0.score (scoreMatch g t1).score
    · rw [if_pos hb] at h
      rcases ih _ _ _ _ h with ⟨h1, h2⟩ | ⟨t', ht', h'⟩
      · exact Or.inr ⟨t1, List.mem_cons_self _ _, h1, h2⟩
      · exact Or.inr ⟨t', List.mem_cons_of_mem _ ht', h'⟩
    · rw [if_neg hb] at h
      rcases ih _ _ _ _ h with h' | ⟨t', ht', h'⟩
      · exact Or.inl h'
      · exact Or.inr ⟨t', List.mem_cons_of_mem _ ht', h'⟩

/-- A successful `pickBest` returns a team that is not yet claimed. -/
theorem pickBest_team_unclaimed (claimed : List Str) (appTeams : List AppTeamLocation)
    (g : CsvTeamGroup) (t : AppTeamLocation) (r : ScoreResult)
    (h : pickBest claimed appTeams g = some (t, r)) : t.teamId ∉ claimed := by
  rw [pickBest_eq_foldl] at h
  cases hu : unclaimedTeams claimed appTeams with
  | nil =>
    rw [hu] at h
    cases h
  | cons t1 ts =>
    rw [hu, List.foldl_cons, pickStep_none] at h
    have hmem : t ∈ unclaimedTeams claimed appTeams := by
      rcases pickFold_some_pair_mem g ts t1 (scoreMatch g t1) t r h with ⟨h1, _⟩ | ⟨t', ht', h1, _⟩
      · rw [hu, h1]
        exact List.mem_cons_self _ _
      · rw [hu, h1]
        exact List.mem_cons_of_mem _ ht'
    have hfilt := List.of_mem_filter hmem
    intro hc
    simp only [Bool.not_eq_true'] at hfilt
    rw [List.any_eq_false] at hfilt
    exact (hfilt t.teamId hc) (by simp)

/-- The cross-step invariant for claim exclusivity. -/
def ReplInv (st : ImportState) : Prop :=
  (∀ r ∈ st.replacements, r.teamId ∈ st.claimed)
  ∧ st.replacements.Pairwise (fun r1 r2 => r1.teamId ≠ r2.teamId)

theorem importStep_replInv (supply : Nat → Str) (portfolio : PortfolioI)
    (appTeams : List AppTeamLocation) (st : ImportState) (g : CsvTeamGroup)
    (h : ReplInv st) : ReplInv (importStep supply portfolio appTeams st g) := by
  obtain ⟨hmem, hpw⟩ := h
  cases hpick : pickBest st.claimed appTeams g with
  | none => simpa [importStep, hpick, ReplInv] using ⟨hmem, hpw⟩
  | some pr =>
    obtain ⟨bt, br⟩ := pr
    have hnew : bt.teamId ∉ st.claimed := pickBest_team_unclaimed _ _ _ _ _ hpick
    by_cases hth : Score.blt br.score MATCH_THRESHOLD
    · simpa [importStep, hpick, hth, ReplInv] using ⟨hmem, hpw⟩
    · simp only [importStep, hpick, hth, Bool.false_eq_true, if_false]
      constructor
      · intro r hr
        simp only [List.mem_append, List.mem_singleton] at hr
        rcases hr with hr | rfl
        · exact List.mem_append_left _ (hmem r hr)
        · simp
      · rw [List.pairwise_append]
        refine ⟨hpw, List.pairwise_singleton _ _, ?_⟩
        intro r1 hr1 r2 hr2
        simp only [List.mem_singleton] at hr2
        subst hr2
        intro hEq
        have hEq' : r1.teamId = bt.teamId := hEq
        exact hnew (hEq' ▸ hmem r1 hr1)

def c5portfolio : PortfolioI :=
  { id := S "p", name := S "Acme", principalEngineers := []
    groups := [
      { id := S "g1", name := S "Zed"
        staffEngineers := []
        teams := [{ id := S "t1", name := S "Alpha", members := [] },
                  { id := S "t2", name := S "Alpha Two", members := [] }] }] }

/-- Two CSV team groups whose best candidate is the same team `t1`:
the first (input order) claims it, the second falls back to `t2`. -/
def c5csv : Str :=
  S "P,X1,Alpha,Engineer,Onshore,TCS,A\nP,X2,Alpha,Engineer,Onshore,TCS,B"

/-- C5 — Claim exclusivity: in every run of `analyseImport` the
replacement list never names the same `teamId` twice, and in the
concrete contention fixture the first CSV group (in input order) claims
the commonly-preferred team `t1` while the second claims its next-best
team `t2`. -/
theorem claim_C5_claim_exclusivity :
    (∀ (supply : Nat → Str) (csvText : Str) (portfolio : PortfolioI),
      (analyseImport supply csvText portfolio).2.Pairwise
        (fun r1 r2 => r1.teamId ≠ r2.teamId))
    ∧ (analyseImport c4supply c5csv c5portfolio).2.map (fun r => r.teamId)
        = [S "t1", S "t2"] := by
  constructor
  · intro supply csvText portfolio
    have h := foldlInvariant (P := ReplInv)
      (importStep supply portfolio (enumerateTeams portfolio))
      (groupCsvRows (parseCsv csvText)) initImportState
      (by constructor <;> simp [initImportState])
      (fun st g hst => importStep_replInv supply portfolio (enumerateTeams portfolio) st g hst)
    exact h.2
  · decide

/-! ## Matching determinism (C6) -/

/-- Erase a person's minted identifier. -/
def stripPersonId (p : PersonI) : PersonI := { p with id := [] }

/-- Erase the person identifiers inside a replacement plan. -/
def stripReplacementIds (rs : List TeamMemberReplacement) : List TeamMemberReplacement :=
  rs.map (fun r => { r with newMembers := r.newMembers.map stripPersonId })

theorem stripPersonId_mkImportedPerson (sup1 sup2 : Nat → Str) (k1 k2 : Nat)
    (row : CsvRow) (role : Role) :
    stripPersonId (mkImportedPerson sup1 k1 row role)
      = stripPersonId (mkImportedPerson sup2 k2 row role) := rfl

/-- Pairwise fold simulation. -/
theorem foldlSim {α β : Type} {R : β → β → Prop} (f1 f2 : β → α → β) (l : List α)
    (b1 b2 : β) (h0 : R b1 b2) (hstep : ∀ x1 x2 a, R x1 x2 → R (f1 x1 a) (f2 x2 a)) :
    R (l.foldl f1 b1) (l.foldl f2 b2) := by
  induction l generalizing b1 b2 with
  | nil => exact h0
  | cons x xs ih => exact ih _ _ (hstep b1 b2 x h0)

/-- Row-accumulator simulation: everything but the minted ids agrees. -/
def RowSim (a1 a2 : RowAcc) : Prop :=
  a1.skipped = a2.skipped ∧ a1.added = a2.added ∧ a1.ctr = a2.ctr
  ∧ a1.newPersons.map stripPersonId = a2.newPersons.map stripPersonId

theorem processMatchedRow_sim (sup1 sup2 : Nat → Str) :
    ∀ a1 a2 row, RowSim a1 a2 →
      RowSim (processMatchedRow sup1 a1 row) (processMatchedRow sup2 a2 row) := by
  intro a1 a2 row h
  obtain ⟨hs, ha, hc, hn⟩ := h
  unfold processMatchedRow
  cases hr : mapRole row.role with
  | none => exact ⟨by rw [hs], ha, hc, hn⟩
  | some role =>
    cases role with
    | engineering_manager => exact ⟨by rw [hs], ha, hc, hn⟩
    | staff_engineer => exact ⟨by rw [hs], ha, hc, hn⟩
    | principal_engineer => exact ⟨by rw [hs], ha, hc, hn⟩
    | head_of_engineering => exact ⟨by rw [hs], ha, hc, hn⟩
    | engineer =>
      refine ⟨hs, by rw [ha], by rw [hc], ?_⟩
      rw [List.map_append, List.map_append, hn]
      simp only [List.map_cons, List.map_nil]
      rw [stripPersonId_mkImportedPerson sup1 sup2 a1.ctr a2.ctr]
    | senior_engineer =>
      refine ⟨hs, by rw [ha], by rw [hc], ?_⟩
      rw [List.map_append, List.map_append, hn]
      simp only [List.map_cons, List.map_nil]
      rw [stripPersonId_mkImportedPerson sup1 sup2 a1.ctr a2.ctr]

/-- Import-state simulation: everything but the minted ids agrees. -/
def StateSim (st1 st2 : ImportState) : Prop :=
  st1.claimed = st2.claimed ∧ st1.teamChanges = st2.teamChanges
  ∧ st1.skippedRows = st2.skippedRows ∧ st1.unmatchedTeams = st2.unmatchedTeams
  ∧ stripReplacementIds st1.replacements = stripReplacementIds st2.replacements
  ∧ st1.ctr = st2.ctr

theorem importStep_sim (sup1 sup2 : Nat → Str) (portfolio : PortfolioI)
    (appTeams : List AppTeamLocation) :
    ∀ st1 st2 g, StateSim st1 st2 →
      StateSim (importStep sup1 portfolio appTeams st1 g)
        (importStep sup2 portfolio appTeams st2 g) := by
  intro st1 st2 g h
  obtain ⟨hcl, htc, hsk, hum, hrp, hct⟩ := h
  unfold importStep
  rw [← hcl]
  cases hpick : pickBest st1.claimed appTeams g with
  | none =>
    dsimp only
    refine ⟨?_, ?_, ?_, ?_, ?_, ?_⟩
    · rfl
    · exact htc
    · rw [hsk]
    · rw [hum]
    · exact hrp
    · exact hct
  | some pr =>
    obtain ⟨bt, br⟩ := pr
    dsimp only
    by_cases hth : Score.blt br.score MATCH_THRESHOLD
    · rw [if_pos hth, if_pos hth]
      refine ⟨?_, ?_, ?_, ?_, ?_, ?_⟩
      · rfl
      · exact htc
      · rw [hsk]
      · rw [hum]
      · exact hrp
      · exact hct
    · rw [if_neg hth, if_neg hth]
      have hrow := foldlSim (R := RowSim) (processMatchedRow sup1) (processMatchedRow sup2)
        g.rows { skipped := [], newPersons := [], added := [], ctr := st1.ctr }
        { skipped := [], newPersons := [], added := [], ctr := st2.ctr }
        ⟨rfl, rfl, hct, rfl⟩ (processMatchedRow_sim sup1 sup2)
      obtain ⟨hs, ha, hc, hn⟩ := hrow
      refine ⟨rfl, by rw [htc, ha], by rw [hsk, hs], hum, ?_, hc⟩
      unfold stripReplacementIds
      rw [List.map_append, List.map_append]
      unfold stripReplacementIds at hrp
      rw [hrp]
      simp only [List.map_cons, List.map_nil]
      congr 2
      rw [List.map_append, List.map_append, hn]

/-- The supplies only differ in the minted identifier text. -/
def c6sup1 : Nat → Str := fun n => 'a' :: natToStr n

def c6sup2 : Nat → Str := fun n => 'b' :: natToStr n

def c6csv : Str := S "P,G1,AAA,Engineer,Onshore,TCS,Bob"

/-- C6 as stated is falsified by the id minting: `crypto.randomUUID`
(modelled as the id supply) flows into the `id` of every newly
constructed member, so two runs drawing different uuids return
different replacement lists on the same inputs. -/
theorem claim_C6_counterexample :
    (analyseImport c6sup1 c6csv c4portfolio).2
      ≠ (analyseImport c6sup2 c6csv c4portfolio).2 := by decide

/-- C6 (amended) — Matching determinism up to minted ids: on identical
CSV text and portfolio, two runs of `analyseImport` (with arbitrary id
supplies) produce identical reports and identical replacements up to
the minted person identifiers — same member lists in the same order
after erasing the ids. -/
theorem claim_C6_determinism (sup1 sup2 : Nat → Str) (csvText : Str)
    (portfolio : PortfolioI) :
    (analyseImport sup1 csvText portfolio).1 = (analyseImport sup2 csvText portfolio).1
    ∧ stripReplacementIds (analyseImport sup1 csvText portfolio).2
        = stripReplacementIds (analyseImport sup2 csvText portfolio).2 := by
  have h := foldlSim (R := StateSim)
    (importStep sup1 portfolio (enumerateTeams portfolio))
    (importStep sup2 portfolio (enumerateTeams portfolio))
    (groupCsvRows (parseCsv csvText)) initImportState initImportState
    ⟨rfl, rfl, rfl, rfl, rfl, rfl⟩
    (importStep_sim sup1 sup2 portfolio (enumerateTeams portfolio))
  obtain ⟨hcl, htc, hsk, hum, hrp, hct⟩ := h
  constructor
  · unfold analyseImport
    simp only [htc, hsk, hum]
  · exact hrp

/-! ## Markdown codec (`src/components/MarkdownView.tsx`) -/

/-- `personProps` (`MarkdownView.tsx` lines 14-20). -/
def personProps (p : PersonI) : Str :=
  if p.type = employee then []
  else
    let parts := [S "contractor"]
    let parts := match p.location with
      | some l => if l ≠ onshore then parts ++ [locationStr l] else parts
      | none => parts
    let parts := match p.vendor with
      | some v => if !v.isEmpty then parts ++ [v] else parts
      | none => parts
    S " [" ++ joinSep (S ", ") parts ++ S "]"

/-- JS `p.name || 'Unnamed'`. -/
def nameOrUnnamed (name : Option Str) : Str :=
  match name with
  | some n => if n.isEmpty then S "Unnamed" else n
  | none => S "Unnamed"

/-- `namedPersonLine` (lines 23-26). -/
def namedPersonLine (p : PersonI) : Str :=
  nameOrUnnamed p.name ++ S ", " ++ ROLE_LABELS p.role ++ personProps p

/-- `leaderPersonLine` (lines 29-32). -/
def leaderPersonLine (p : PersonI) : Str :=
  nameOrUnnamed p.name ++ personProps p

/-- `groupingKey` (lines 35-37). -/
def groupingKey (p : PersonI) : Str :=
  roleKeyStr p.role ++ S "|" ++ employeeTypeStr p.type ++ S "|"
    ++ (match p.location with | some l => locationStr l | none => locationStr onshore)
    ++ S "|" ++ p.vendor.getD []

/-- The unnamed-members map of `formatTeamMembers`: entries are
`(groupingKey, first person, count)` in insertion order. -/
def addUnnamedMember (unnamed : List (Str × PersonI × Nat)) (m : PersonI) :
    List (Str × PersonI × Nat) :=
  let key := groupingKey m
  if unnamed.any (fun e => decide (e.1 = key)) then
    updateFirst (fun e => decide (e.1 = key)) (fun e => (e.1, e.2.1, e.2.2 + 1)) unnamed
  else unnamed ++ [(key, m, 1)]

/-- `formatTeamMembers` (lines 40-72). -/
def formatTeamMembers (members : List PersonI) : List Str :=
  let acc := members.foldl
    (fun (acc : List PersonI × List (Str × PersonI × Nat)) m =>
      if truthy m.name then (acc.1 ++ [m], acc.2)
      else (acc.1, addUnnamedMember acc.2 m))
    ([], [])
  (acc.2.map (fun e =>
    S "- " ++ (if e.2.2 > 1 then natToStr e.2.2 ++ S "x " else [])
      ++ ROLE_LABELS e.2.1.role ++ personProps e.2.1))
  ++ acc.1.map (fun p => S "- " ++ namedPersonLine p)

/-- `generateGroupMarkdown` (lines 74-97), flattened to its lines (the
source builds the same string by joining these lines with newlines). -/
def generateGroupLines (group : GroupI) (depth : Nat) : List Str :=
  [List.replicate depth '#' ++ S " " ++ group.name]
  ++ (match group.manager with
      | some m => [S "Manager: " ++ leaderPersonLine m]
      | none => match group.managedBy with
        | some mb => if !mb.isEmpty then [S "Managed by: " ++ mb] else []
        | none => [])
  ++ group.staffEngineers.map (fun se => S "Staff: " ++ leaderPersonLine se)
  ++ (group.teams.map (fun team =>
        [[], List.replicate (depth + 1) '#' ++ S " " ++ team.name]
        ++ formatTeamMembers team.members)).flatten

/-- `generateDivisionMarkdown` (lines 99-109), flattened to lines. -/
def generateDivisionLines (division : DivisionI) : List Str :=
  [S "## Division: " ++ division.name, []]
  ++ (division.groups.enum.map (fun p =>
      (if p.1 > 0 then [[]] else []) ++ generateGroupLines p.2 3)).flatten

/-- `generateMarkdown` (lines 111-140), flattened to lines; the
emitted text is these lines joined with newlines plus a final
newline. -/
def generateLines (portfolio : PortfolioI) : List Str :=
  [S "# " ++ portfolio.name ++ S " ("
      ++ natToStr (portfolio.onshoreTargetPercentage.getD 50) ++ S "% onshore target)", []]
  ++ (match portfolio.headOfEngineering with
      | some h => [S "Head of Engineering: " ++ leaderPersonLine h]
      | none => [])
  ++ portfolio.principalEngineers.map (fun pe => S "Principal Engineer: " ++ leaderPersonLine pe)
  ++ (match portfolio.divisions with
      | some ds =>
        if ds.length > 0 then (ds.map (fun d => [] :: generateDivisionLines d)).flatten else []
      | none => [])
  ++ (portfolio.groups.map (fun g => [] :: generateGroupLines g 2)).flatten

def generateMarkdown (portfolio : PortfolioI) : Str :=
  joinChar '\n' (generateLines portfolio) ++ S "\n"

/-- `ROLE_FROM_LABEL` (lines 144-147): lowercased label to role. -/
def roleFromLabel (s : Str) : Option Role :=
  if s = S "engineer" then some engineer
  else if s = S "senior engineer" then some senior_engineer
  else if s = S "staff engineer" then some staff_engineer
  else if s = S "engineering manager" then some engineering_manager
  else if s = S "head of engineering" then some head_of_engineering
  else if s = S "principal engineer" then some principal_engineer
  else none

/-- `Omit<Person, 'id'>`: the person value a parse produces before an
id is minted. -/
structure PersonV where
  name : Option Str := none
  role : Role
  type : EmployeeType
  vendor : Option Str := none
  location : Option Location := none
  deriving DecidableEq, Repr

/-- `/^#{n}\s+(.+)$/` applied to an already-trimmed line. -/
def matchHashHeading (n : Nat) (s : Str) : Option Str :=
  if s.take n = List.replicate n '#' then
    match s.drop n with
    | [] => none
    | c :: cs =>
      if jsWhitespace c then
        let rest := cs.dropWhile jsWhitespace
        if rest.isEmpty then none else some rest
      else none
  else none

/-- `/\((\d+)%\s*onshore\s*target\)\s*$/i` anchored at the current
position and reaching the end of the string. -/
def matchParenTargetHere (s : Str) : Option Nat :=
  match s with
  | '(' :: rest =>
    let ds := rest.takeWhile isDigitChar
    if ds.isEmpty then none
    else
      match rest.drop ds.length with
      | '%' :: r1 =>
        let r2 := r1.dropWhile jsWhitespace
        if strStartsWithCI r2 (S "onshore") then
          let r3 := (r2.drop 7).dropWhile jsWhitespace
          if strStartsWithCI r3 (S "target") then
            match r3.drop 6 with
            | ')' :: r4 =>
              if (r4.dropWhile jsWhitespace).isEmpty then some (parseNatDigits ds) else none
            | _ => none
          else none
        else none
      | _ => none
  | _ => none

/-- Leftmost match of the onshore-target suffix: match index and
captured percentage. -/
def findTargetSuffix : Str → Option (Nat × Nat)
  | [] => none
  | c :: cs =>
    match matchParenTargetHere (c :: cs) with
    | some t => some (0, t)
    | none =>
      match findTargetSuffix cs with
      | some (i, t) => some (i + 1, t)
      | none => none

/-- Leftmost match of `/\[([^\]]*)\]\s*$/` on a trimmed string: the
text before the bracket and the bracket's inner text. -/
def bracketSplit : Str → Option (Str × Str)
  | [] => none
  | c :: cs =>
    if c = '[' then
      let inner := cs.takeWhile (fun d => d ≠ ']')
      match cs.drop inner.length with
      | ']' :: tail =>
        if tail.all jsWhitespace then some ([], inner)
        else
          match bracketSplit cs with
          | some (b, i) => some (c :: b, i)
          | none => none
      | _ =>
        match bracketSplit cs with
        | some (b, i) => some (c :: b, i)
        | none => none
    else
      match bracketSplit cs with
      | some (b, i) => some (c :: b, i)
      | none => none

/-- `parseProps` (lines 160-189). -/
def parseProps (bracketStr : Str) : EmployeeType × Location × Option Str :=
  let inner := jsTrim ((bracketStr.drop 1).dropLast)
  let parts := ((splitChar ',' inner).map jsTrim).filter (fun p => !p.isEmpty)
  let res := parts.foldl
    (fun (acc : EmployeeType × Location × Option Str) part =>
      let lower := lowerStr part
      if lower = S "contractor" then (contractor, acc.2.1, acc.2.2)
      else if lower = S "employee" then (employee, acc.2.1, acc.2.2)
      else if lower = S "onshore" then (acc.1, onshore, acc.2.2)
      else if lower = S "nearshore" then (acc.1, nearshore, acc.2.2)
      else if lower = S "offshore" then (acc.1, offshore, acc.2.2)
      else (acc.1, acc.2.1, some part))
    (employee, onshore, none)
  if res.1 = employee then (employee, onshore, none) else res

/-- `/^(\d+)x\s+(.+)$/i` on a trimmed string. -/
def quantityMatch (s : Str) : Option (Nat × Str) :=
  let ds := s.takeWhile isDigitChar
  if ds.isEmpty then none
  else
    match s.drop ds.length with
    | x :: rest =>
      if x = 'x' ∨ x = 'X' then
        let ws := rest.takeWhile jsWhitespace
        if ws.isEmpty then none
        else
          let cap := rest.drop ws.length
          if cap.isEmpty then none else some (parseNatDigits ds, cap)
      else none
    | [] => none

structure PersonsResult where
  persons : List PersonV
  error : Option Str := none
  deriving DecidableEq, Repr

/-- The bracket-properties extraction shared by `parsePersonLine` and
the `parseLeadershipLine` fallback (lines 199-205 and 256-262): the
main part with the bracket suffix removed, and the parsed properties
(defaulting to employee/onshore/no-vendor when no bracket matches). -/
def extractProps (trimmed : Str) : Str × (EmployeeType × Location × Option Str) :=
  match bracketSplit trimmed with
  | some (before, inner) => (jsTrim before, parseProps ('[' :: inner ++ [']']))
  | none => (trimmed, (employee, onshore, none))

/-- `parsePersonLine` (lines 192-241). -/
def parsePersonLine (text : Str) : PersonsResult :=
  let trimmed := jsTrim text
  if trimmed.isEmpty then { persons := [], error := some (S "Empty person line") }
  else
    let mainPart := (extractProps trimmed).1
    let props := (extractProps trimmed).2
    match quantityMatch mainPart with
    | some (count, roleNameRaw) =>
      let roleName := jsTrim roleNameRaw
      match roleFromLabel (lowerStr roleName) with
      | none => { persons := [], error := some (S "Unknown role \"" ++ roleName ++ S "\"") }
      | some role =>
        { persons := List.replicate count
            { role := role, type := props.1, location := some props.2.1, vendor := props.2.2 } }
    | none =>
      match lastIndexOfChar ',' mainPart with
      | some commaIdx =>
        let name := jsTrim (mainPart.take commaIdx)
        let roleName := jsTrim (mainPart.drop (commaIdx + 1))
        match roleFromLabel (lowerStr roleName) with
        | none => { persons := [], error := some (S "Unknown role \"" ++ roleName ++ S "\"") }
        | some role =>
          { persons := [{ name := some name, role := role, type := props.1,
                          location := some props.2.1, vendor := props.2.2 }] }
      | none =>
        match roleFromLabel (lowerStr mainPart) with
        | none => { persons := [], error := some (S "Unknown role \"" ++ mainPart ++ S "\"") }
        | some role =>
          { persons := [{ role := role, type := props.1, location := some props.2.1,
                          vendor := props.2.2 }] }

/-- `replace(/,\s*$/, '')` on a trimmed string. -/
def stripTrailingComma (s : Str) : Str :=
  match s.reverse with
  | ',' :: rest => rest.reverse
  | _ => s

structure LeaderResult where
  person : Option PersonV := none
  error : Option Str := none
  deriving DecidableEq, Repr

/-- `parseLeadershipLine` (lines 244-279). -/
def parseLeadershipLine (text : Str) (pre : Str) (expectedRole : Role) : LeaderResult :=
  let after := jsTrim (text.drop pre.length)
  if after.isEmpty then
    { error := some (S "Missing person details after \"" ++ pre ++ S "\"") }
  else
    let result := parsePersonLine after
    match result.error with
    | some _ =>
      let mainPart := jsTrim (stripTrailingComma (extractProps after).1)
      { person := some
          { name := if mainPart.isEmpty then none else some mainPart
            role := expectedRole, type := (extractProps after).2.1
            location := some (extractProps after).2.2.1
            vendor := (extractProps after).2.2.2 } }
    | none =>
      if result.persons.length ≠ 1 then
        { error := some (S "Expected exactly one person for \"" ++ pre ++ S "\"") }
      else
        { person := result.persons.head? }

/-- `/^Prefix:\s*(.+)$/i` for a lowercase prefix pattern on a trimmed
line: the captured remainder. -/
def matchPrefixCI (pre : Str) (s : Str) : Option Str :=
  if strStartsWithCI s pre then
    let rest := (s.drop pre.length).dropWhile jsWhitespace
    if rest.isEmpty then none else some rest
  else none

/-- `/^-\s+(.+)$/` on a trimmed line. -/
def matchListItem (s : Str) : Option Str :=
  match s with
  | '-' :: rest =>
    match rest with
    | c :: _ =>
      if jsWhitespace c then
        let cap := rest.dropWhile jsWhitespace
        if cap.isEmpty then none else some cap
      else none
    | [] => none
  | _ => none

structure MdError where
  line : Nat
  message : Str
  deriving DecidableEq, Repr

/-- The `Partial<Omit<Portfolio, 'id'>>` update `parseMarkdown`
returns. -/
structure ParsedPortfolio where
  name : Str
  onshoreTargetPercentage : Nat
  headOfEngineering : Option PersonI := none
  principalEngineers : List PersonI
  divisions : Option (List DivisionI) := none
  groups : List GroupI
  deriving DecidableEq, Repr

structure ParseResult where
  portfolio : Option ParsedPortfolio
  errors : List MdError
  deriving DecidableEq, Repr

/-- The scan state of `parseMarkdown` (lines 285-328). -/
structure MdState where
  portfolioName : Option Str := none
  onshoreTarget : Nat := 50
  hoe : Option PersonI := none
  pes : List PersonI := []
  divisions : List DivisionI := []
  directGroups : List GroupI := []
  curDivision : Option DivisionI := none
  curGroup : Option GroupI := none
  curTeam : Option TeamI := none
  groupInDivision : Bool := false
  errors : List MdError := []
  ctr : Nat := 0
  deriving Repr

/-- Mint an id for a parsed person value. -/
def attachId (supply : Nat → Str) (k : Nat) (p : PersonV) : PersonI :=
  { id := supply k, name := p.name, role := p.role, type := p.type,
    vendor := p.vendor, location := p.location }

def pushError (st : MdState) (lineNum : Nat) (msg : Str) : MdState :=
  { st with errors := st.errors ++ [{ line := lineNum, message := msg }] }

/-- `finishTeam` (lines 303-308). -/
def finishTeam (st : MdState) : MdState :=
  match st.curTeam, st.curGroup with
  | some t, some g =>
    { st with curGroup := some { g with teams := g.teams ++ [t] }, curTeam := none }
  | _, _ => st

/-- `finishGroup` (lines 310-320). -/
def finishGroup (st : MdState) : MdState :=
  let st := finishTeam st
  match st.curGroup with
  | none => st
  | some g =>
    match st.groupInDivision, st.curDivision with
    | true, some d =>
      { st with curDivision := some { d with groups := d.groups ++ [g] }, curGroup := none }
    | _, _ => { st with directGroups := st.directGroups ++ [g], curGroup := none }

/-- `finishDivision` (lines 322-328). -/
def finishDivision (st : MdState) : MdState :=
  let st := finishGroup st
  match st.curDivision with
  | some d => { st with divisions := st.divisions ++ [d], curDivision := none }
  | none => st

/-- One iteration of the `parseMarkdown` line loop (lines 330-501). -/
def processLine (supply : Nat → Str) (st : MdState) (lineNum : Nat) (line : Str) : MdState :=
  let trimmed := jsTrim line
  if trimmed.isEmpty then st
  else if (matchHashHeading 1 trimmed).isSome ∧ ¬ strStartsWith trimmed (S "##") then
    let headingText := jsTrim ((matchHashHeading 1 trimmed).getD [])
    match findTargetSuffix headingText with
    | some (idx, t) =>
      { st with onshoreTarget := t, portfolioName := some (jsTrim (headingText.take idx)) }
    | none => { st with portfolioName := some headingText }
  else
    match matchHashHeading 4 trimmed with
    | some capture =>
      match st.curGroup with
      | none => pushError st lineNum (S "Team heading (####) found outside of a group")
      | some _ =>
        let st := finishTeam st
        { st with
            curTeam := some { id := supply st.ctr, name := jsTrim capture, members := [] }
            ctr := st.ctr + 1 }
    | none =>
    match matchHashHeading 3 trimmed with
    | some capture =>
      match st.curDivision with
      | some _ =>
        let st := finishGroup st
        { st with
            curGroup := some { id := supply st.ctr, name := jsTrim capture
                               staffEngineers := [], teams := [] }
            groupInDivision := true
            ctr := st.ctr + 1 }
      | none =>
        match st.curGroup with
        | some _ =>
          let st := finishTeam st
          { st with
              curTeam := some { id := supply st.ctr, name := jsTrim capture, members := [] }
              ctr := st.ctr + 1 }
        | none =>
          pushError st lineNum
            (S "Heading ### found outside expected context (no division or group)")
    | none =>
    match matchHashHeading 2 trimmed with
    | some capture =>
      let headingText := jsTrim capture
      match matchPrefixCI (S "division:") headingText with
      | some divName =>
        let st := finishDivision st
        { st with
            curDivision := some { id := supply st.ctr, name := jsTrim divName, groups := [] }
            groupInDivision := false
            ctr := st.ctr + 1 }
      | none =>
        let st := finishDivision st
        { st with
            curGroup := some { id := supply st.ctr, name := headingText
                               staffEngineers := [], teams := [] }
            groupInDivision := false
            ctr := st.ctr + 1 }
    | none =>
    match
      (if st.curDivision.isNone ∧ st.curGroup.isNone then
        match matchPrefixCI (S "head of engineering:") trimmed with
        | some _ =>
          let result :=
            parseLeadershipLine trimmed (S "Head of Engineering:") head_of_engineering
          some (match result.error with
            | some e => pushError st lineNum e
            | none => match result.person with
              | some p => { st with hoe := some (attachId supply st.ctr p), ctr := st.ctr + 1 }
              | none => st)
        | none =>
          match matchPrefixCI (S "principal engineer:") trimmed with
          | some _ =>
            let result :=
              parseLeadershipLine trimmed (S "Principal Engineer:") principal_engineer
            some (match result.error with
              | some e => pushError st lineNum e
              | none => match result.person with
                | some p =>
                  { st with pes := st.pes ++ [attachId supply st.ctr p], ctr := st.ctr + 1 }
                | none => st)
          | none => none
      else none : Option MdState)
    with
    | some st' => st'
    | none =>
    match matchPrefixCI (S "manager:") trimmed with
    | some _ =>
      match st.curGroup with
      | none => pushError st lineNum (S "Manager line found outside of a group")
      | some g =>
        let result := parseLeadershipLine trimmed (S "Manager:") engineering_manager
        match result.error with
        | some e => pushError st lineNum e
        | none => match result.person with
          | some p =>
            { st with curGroup := some { g with manager := some (attachId supply st.ctr p) }
                      ctr := st.ctr + 1 }
          | none => st
    | none =>
    match matchPrefixCI (S "managed by:") trimmed with
    | some capture =>
      match st.curGroup with
      | none => pushError st lineNum (S "Managed by line found outside of a group")
      | some g => { st with curGroup := some { g with managedBy := some (jsTrim capture) } }
    | none =>
    match matchPrefixCI (S "staff:") trimmed with
    | some _ =>
      match st.curGroup with
      | none => pushError st lineNum (S "Staff line found outside of a group")
      | some g =>
        let result := parseLeadershipLine trimmed (S "Staff:") staff_engineer
        match result.error with
        | some e => pushError st lineNum e
        | none => match result.person with
          | some p =>
            { st with
                curGroup := some { g with staffEngineers := g.staffEngineers ++ [attachId supply st.ctr p] }
                ctr := st.ctr + 1 }
          | none => st
    | none =>
    match matchListItem trimmed with
    | some itemText =>
      match st.curTeam with
      | none =>
        pushError st lineNum
          (S "List item found outside of a team. Place it under a team heading.")
      | some team =>
        let result := parsePersonLine itemText
        match result.error with
        | some e => pushError st lineNum e
        | none =>
          { st with
              curTeam := some { team with
                members := team.members
                  ++ (result.persons.enum.map (fun q => attachId supply (st.ctr + q.1) q.2)) }
              ctr := st.ctr + result.persons.length }
    | none =>
      if ¬ strStartsWith trimmed (S ">") ∧ ¬ strStartsWith trimmed (S "---")
          ∧ ¬ strStartsWith trimmed (S "<!--") then
        pushError st lineNum (S "Unrecognized line: \"" ++ trimmed ++ S "\"")
      else st

/-- The line loop with 1-based line numbers. -/
def mdRun (supply : Nat → Str) : MdState → Nat → List Str → MdState
  | st, _, [] => st
  | st, n, l :: ls => mdRun supply (processLine supply st n l) (n + 1) ls

/-- `parseMarkdown` (lines 281-528). -/
def parseMarkdown (supply : Nat → Str) (text : Str) : ParseResult :=
  let st := mdRun supply {} 1 (splitChar '\n' text)
  let st := finishDivision st
  let st := finishGroup st
  match st.portfolioName with
  | none =>
    { portfolio := none
      errors := st.errors
        ++ [{ line := 1, message := S "Missing portfolio heading (# Portfolio Name)" }] }
  | some pname =>
    if st.errors.length > 0 then { portfolio := none, errors := st.errors }
    else
      { portfolio := some
          { name := pname
            onshoreTargetPercentage := st.onshoreTarget
            headOfEngineering := st.hoe
            principalEngineers := st.pes
            divisions := if st.divisions.length > 0 then some st.divisions else none
            groups := st.directGroups }
        errors := [] }

/-! ## All-or-nothing decode (C2) -/

def c2supply : Nat → Str := fun n => natToStr n

/-- One valid team plus one line with an unknown role on line 7. -/
def c2doc : Str :=
  S "# P\n\n## G\n\n### T\n- Engineer\n- Bob, Wizard\n"

/-- C2 — All-or-nothing decode: whenever the collected error list is
non-empty after the scan, `parseMarkdown` returns no portfolio; the
concrete document with one valid team and one unknown-role line yields
no portfolio (hence zero teams) and exactly one error carrying the
offending 1-based line number. -/
theorem claim_C2_all_or_nothing :
    (∀ (supply : Nat → Str) (text : Str),
      (parseMarkdown supply text).errors ≠ [] →
        (parseMarkdown supply text).portfolio = none)
    ∧ (parseMarkdown c2supply c2doc).portfolio = none
    ∧ (parseMarkdown c2supply c2doc).errors
        = [{ line := 7, message := S "Unknown role \"Wizard\"" }] := by
  refine ⟨?_, by decide, by decide⟩
  intro supply text herr
  unfold parseMarkdown at herr ⊢
  cases hp : (finishGroup (finishDivision (mdRun supply {} 1 (splitChar '\n' text)))).portfolioName with
  | none => simp [hp]
  | some pname =>
    simp only [hp] at herr ⊢
    by_cases he :
        (finishGroup (finishDivision (mdRun supply {} 1 (splitChar '\n' text)))).errors.length > 0
    · simp [he]
    · exfalso
      apply herr
      simp only [he, if_false]

/-- Witness for C2 at the concrete document. -/
theorem claim_C2_all_or_nothing_witness :
    (parseMarkdown c2supply c2doc).portfolio = none :=
  claim_C2_all_or_nothing.1 c2supply c2doc (by decide)


/-! ## Employee invariant at construction (C3) -/

theorem parseProps_employee (b : Str) (h : (parseProps b).1 = employee) :
    parseProps b = (employee, onshore, none) := by
  unfold parseProps at h ⊢
  by_cases hc :
      ((((splitChar ',' (jsTrim ((b.drop 1).dropLast))).map jsTrim).filter
          (fun p => !p.isEmpty)).foldl
        (fun (acc : EmployeeType × Location × Option Str) part =>
          let lower := lowerStr part
          if lower = S "contractor" then (contractor, acc.2.1, acc.2.2)
          else if lower = S "employee" then (employee, acc.2.1, acc.2.2)
          else if lower = S "onshore" then (acc.1, onshore, acc.2.2)
          else if lower = S "nearshore" then (acc.1, nearshore, acc.2.2)
          else if lower = S "offshore" then (acc.1, offshore, acc.2.2)
          else (acc.1, acc.2.1, some part))
        (employee, onshore, none)).1 = employee
  · simp only [hc, if_true]
  · simp only [hc, if_false] at h ⊢

theorem extractProps_employee (s : Str) (h : (extractProps s).2.1 = employee) :
    (extractProps s).2 = (employee, onshore, none) := by
  rcases hbr : bracketSplit s with _ | ⟨before, inner⟩
  · simp only [extractProps, hbr]
  · simp only [extractProps, hbr] at h ⊢
    exact parseProps_employee ('[' :: inner ++ [']']) h

theorem parsePersonLine_mem_fields (text : Str) (p : PersonV)
    (hp : p ∈ (parsePersonLine text).persons) :
    p.type = (extractProps (jsTrim text)).2.1
    ∧ p.location = some (extractProps (jsTrim text)).2.2.1
    ∧ p.vendor = (extractProps (jsTrim text)).2.2.2 := by
  unfold parsePersonLine at hp
  by_cases he : (jsTrim text).isEmpty
  · rw [if_pos he] at hp
    simp at hp
  · rw [if_neg he] at hp
    dsimp only at hp
    rcases hq : quantityMatch (extractProps (jsTrim text)).1 with _ | ⟨count, roleRaw⟩
    · rw [hq] at hp
      dsimp only at hp
      rcases hc : lastIndexOfChar ',' (extractProps (jsTrim text)).1 with _ | idx
      · rw [hc] at hp
        dsimp only at hp
        rcases hr : roleFromLabel (lowerStr (extractProps (jsTrim text)).1) with _ | role
        · rw [hr] at hp
          simp at hp
        · rw [hr] at hp
          simp only [List.mem_singleton] at hp
          subst hp
          exact ⟨rfl, rfl, rfl⟩
      · rw [hc] at hp
        dsimp only at hp
        rcases hr : roleFromLabel
            (lowerStr (jsTrim ((extractProps (jsTrim text)).1.drop (idx + 1)))) with _ | role
        · rw [hr] at hp
          simp at hp
        · rw [hr] at hp
          simp only [List.mem_singleton] at hp
          subst hp
          exact ⟨rfl, rfl, rfl⟩
    · rw [hq] at hp
      dsimp only at hp
      rcases hr : roleFromLabel (lowerStr (jsTrim roleRaw)) with _ | role
      · rw [hr] at hp
        simp at hp
      · rw [hr] at hp
        dsimp only at hp
        have := List.eq_of_mem_replicate hp
        subst this
        exact ⟨rfl, rfl, rfl⟩

/-- C3 — Employee invariant at construction: `parseProps` forces
onshore/no-vendor whenever the resolved type is employee; every person
`parsePersonLine` constructs with type employee has location onshore
and no vendor; and `analyseImport`'s person construction maps a
case-insensitive "M&S" vendor to an employee with no vendor and
location forced onshore, overriding the CSV location column. -/
theorem claim_C3_employee_invariant :
    (∀ b : Str, (parseProps b).1 = employee →
      (parseProps b).2.1 = onshore ∧ (parseProps b).2.2 = none)
    ∧ (∀ (text : Str) (p : PersonV), p ∈ (parsePersonLine text).persons →
        p.type = employee → p.location = some onshore ∧ p.vendor = none)
    ∧ (∀ (supply : Nat → Str) (k : Nat) (row : CsvRow) (role : Role),
        upperStr row.vendor = S "M&S" →
        (mkImportedPerson supply k row role).type = employee
        ∧ (mkImportedPerson supply k row role).vendor = none
        ∧ (mkImportedPerson supply k row role).location = some onshore) := by
  refine ⟨?_, ?_, ?_⟩
  · intro b h
    rw [parseProps_employee b h]
    exact ⟨rfl, rfl⟩
  · intro text p hp htype
    obtain ⟨ht, hl, hv⟩ := parsePersonLine_mem_fields text p hp
    have he : (extractProps (jsTrim text)).2.1 = employee := by rw [← ht, htype]
    have := extractProps_employee _ he
    rw [hl, hv, this]
    exact ⟨rfl, rfl⟩
  · intro supply k row role h
    unfold mkImportedPerson mapTypeAndVendor
    simp [h]

/-- A CSV row whose vendor field is "m&s". -/
def c3row : CsvRow :=
  { portfolio := S "P", csvGroup := S "G", teamName := S "T", role := S "Engineer"
    location := S "Offshore", vendor := S "m&s", name := S "Bob", lineNumber := 1 }

/-- Witness for C3: a bracket with contradictory tokens resolving to
employee, and a concrete "m&s" row. -/
theorem claim_C3_employee_invariant_witness :
    ((parseProps (S "[employee, offshore, TCS]")).2.1 = onshore
      ∧ (parseProps (S "[employee, offshore, TCS]")).2.2 = none)
    ∧ ((mkImportedPerson c2supply 0 c3row engineer).type = employee
        ∧ (mkImportedPerson c2supply 0 c3row engineer).vendor = none
        ∧ (mkImportedPerson c2supply 0 c3row engineer).location = some onshore) :=
  ⟨claim_C3_employee_invariant.1 (S "[employee, offshore, TCS]") (by decide),
   claim_C3_employee_invariant.2.2 c2supply 0 c3row engineer (by decide)⟩

/-! ## Encoder member reordering (C9) -/

/-- The coalesced unnamed-member groups of a member list: the fold of
the unnamed-map update over the members without a truthy name. -/
def unnamedGroupsOf (members : List PersonI) : List (Str × PersonI × Nat) :=
  (members.filter (fun m => !truthy m.name)).foldl addUnnamedMember []

theorem formatAcc_spec (ms : List PersonI) :
    ∀ acc : List PersonI × List (Str × PersonI × Nat),
      ms.foldl
        (fun (acc : List PersonI × List (Str × PersonI × Nat)) m =>
          if truthy m.name then (acc.1 ++ [m], acc.2)
          else (acc.1, addUnnamedMember acc.2 m)) acc
      = (acc.1 ++ ms.filter (fun m => truthy m.name),
         (ms.filter (fun m => !truthy m.name)).foldl addUnnamedMember acc.2) := by
  induction ms with
  | nil => intro acc; simp
  | cons m ms ih =>
    intro acc
    by_cases h : truthy m.name <;> simp [h, ih]

/-- C9 — Encoder member reordering: `formatTeamMembers` always emits
the coalesced unnamed-member lines (built from the unnamed members in
first-appearance group order) first, followed by one line per named
member in input order — so every unnamed-member line precedes every
named-member line regardless of how members were interleaved. -/
theorem claim_C9_member_reordering (members : List PersonI) :
    formatTeamMembers members
      = (unnamedGroupsOf members).map (fun e =>
          S "- " ++ (if e.2.2 > 1 then natToStr e.2.2 ++ S "x " else [])
            ++ ROLE_LABELS e.2.1.role ++ personProps e.2.1)
        ++ (members.filter (fun m => truthy m.name)).map
            (fun p => S "- " ++ namedPersonLine p) := by
  unfold formatTeamMembers unnamedGroupsOf
  rw [formatAcc_spec]
  simp

/-! ## Round-trip (C1): serializability, erasures -/

/-- A person name the grammar can carry losslessly: trimmed, non-empty,
free of newline and of the grammar's delimiters, not a quantity prefix
and not a role label. -/
def goodPersonName (s : Str) : Prop :=
  jsTrim s = s ∧ s ≠ [] ∧ '\n' ∉ s ∧ ',' ∉ s ∧ '[' ∉ s ∧ ']' ∉ s
  ∧ quantityMatch s = none ∧ roleFromLabel (lowerStr s) = none

instance (s : Str) : Decidable (goodPersonName s) := by
  unfold goodPersonName
  infer_instance

/-- A vendor the bracket syntax can carry losslessly: trimmed,
non-empty, free of newline, comma and closing bracket, and not one of
the property keywords. -/
def goodVendor (s : Str) : Prop :=
  jsTrim s = s ∧ s ≠ [] ∧ '\n' ∉ s ∧ ',' ∉ s ∧ ']' ∉ s
  ∧ lowerStr s ≠ S "contractor" ∧ lowerStr s ≠ S "employee"
  ∧ lowerStr s ≠ S "onshore" ∧ lowerStr s ≠ S "nearshore" ∧ lowerStr s ≠ S "offshore"

instance (s : Str) : Decidable (goodVendor s) := by
  unfold goodVendor
  infer_instance

/-- Heading-level names (portfolio / division / group / team) and
free-text labels: trimmed, non-empty, newline-free. -/
def goodLabel (s : Str) : Prop := jsTrim s = s ∧ s ≠ [] ∧ '\n' ∉ s

instance (s : Str) : Decidable (goodLabel s) := by
  unfold goodLabel
  infer_instance

/-- A person value both engines can round-trip, including the §3
invariant (employees onshore, no vendor; location present). -/
def goodPerson (p : PersonI) : Prop :=
  (∀ n, p.name = some n → goodPersonName n)
  ∧ (∀ v, p.vendor = some v → goodVendor v)
  ∧ p.location.isSome
  ∧ (p.type = employee → p.location = some onshore ∧ p.vendor = none)

instance (p : PersonI) : Decidable (goodPerson p) := by
  unfold goodPerson
  infer_instance

/-- A leadership person: a good person with the §3-mandated role and a
name (the encoder writes `Unnamed` for nameless leaders). -/
def goodLeader (p : PersonI) (r : Role) : Prop :=
  goodPerson p ∧ p.role = r ∧ p.name.isSome

instance (p : PersonI) (r : Role) : Decidable (goodLeader p r) := by
  unfold goodLeader
  infer_instance

def goodManagedBy (mb : Str) : Prop := mb = [] ∨ (jsTrim mb = mb ∧ mb ≠ [] ∧ '\n' ∉ mb)

instance (mb : Str) : Decidable (goodManagedBy mb) := by
  unfold goodManagedBy
  infer_instance

def goodTeam (t : TeamI) : Prop :=
  goodLabel t.name ∧ ∀ m ∈ t.members, goodPerson m

instance (t : TeamI) : Decidable (goodTeam t) := by
  unfold goodTeam
  infer_instance

def goodGroup (g : GroupI) : Prop :=
  goodLabel g.name ∧ matchPrefixCI (S "division:") g.name = none
  ∧ (∀ m, g.manager = some m → goodLeader m engineering_manager)
  ∧ (∀ mb, g.managedBy = some mb → goodManagedBy mb)
  ∧ (∀ se ∈ g.staffEngineers, goodLeader se staff_engineer)
  ∧ ∀ t ∈ g.teams, goodTeam t

instance (g : GroupI) : Decidable (goodGroup g) := by
  unfold goodGroup
  infer_instance

def goodDivision (d : DivisionI) : Prop :=
  goodLabel d.name ∧ ∀ g ∈ d.groups, goodGroup g

instance (d : DivisionI) : Decidable (goodDivision d) := by
  unfold goodDivision
  infer_instance

/-- The serializable portfolios: §3 invariants plus grammar-safe
names, vendors and labels. -/
def Serializable (p : PortfolioI) : Prop :=
  goodLabel p.name
  ∧ (∀ h, p.headOfEngineering = some h → goodLeader h head_of_engineering)
  ∧ (∀ pe ∈ p.principalEngineers, goodLeader pe principal_engineer)
  ∧ (∀ d ∈ p.divisions.getD [], goodDivision d)
  ∧ ∀ g ∈ p.groups, goodGroup g

instance (p : PortfolioI) : Decidable (Serializable p) := by
  unfold Serializable
  infer_instance

/-- Id-erased person value. -/
def erasePerson (p : PersonI) : PersonV :=
  { name := p.name, role := p.role, type := p.type, vendor := p.vendor
    location := p.location }

structure TeamV where
  name : Str
  members : Multiset PersonV
  deriving DecidableEq

structure GroupV where
  name : Str
  manager : Option PersonV
  staffEngineers : List PersonV
  teams : List TeamV
  deriving DecidableEq

structure DivisionV where
  name : Str
  groups : List GroupV
  deriving DecidableEq

structure PortfolioV where
  name : Str
  headOfEngineering : Option PersonV
  principalEngineers : List PersonV
  divisions : List DivisionV
  groups : List GroupV
  deriving DecidableEq

def eraseTeam (t : TeamI) : TeamV :=
  { name := t.name, members := (t.members.map erasePerson : List PersonV) }

def eraseGroup (g : GroupI) : GroupV :=
  { name := g.name, manager := g.manager.map erasePerson
    staffEngineers := g.staffEngineers.map erasePerson
    teams := g.teams.map eraseTeam }

def eraseDivision (d : DivisionI) : DivisionV :=
  { name := d.name, groups := d.groups.map eraseGroup }

/-- The claimed equivalence view of a source portfolio: all names,
roles, types, locations, vendors and the division/group/team nesting
(identifiers, the onshore target and the external-manager label are
not part of the claim's matching list; team members are compared as
multisets since §3 declares them order-irrelevant). -/
def erasePortfolio (p : PortfolioI) : PortfolioV :=
  { name := p.name
    headOfEngineering := p.headOfEngineering.map erasePerson
    principalEngineers := p.principalEngineers.map erasePerson
    divisions := (p.divisions.getD []).map eraseDivision
    groups := p.groups.map eraseGroup }

/-- The same view of a parse result. -/
def eraseParsed (q : ParsedPortfolio) : PortfolioV :=
  { name := q.name
    headOfEngineering := q.headOfEngineering.map erasePerson
    principalEngineers := q.principalEngineers.map erasePerson
    divisions := (q.divisions.getD []).map eraseDivision
    groups := q.groups.map eraseGroup }

/-! ### String toolkit for the round-trip proof -/

/-- No leading JS whitespace. -/
def headNotWs (s : Str) : Prop := s.dropWhile jsWhitespace = s

/-- No trailing JS whitespace. -/
def lastNotWs (s : Str) : Prop := s.reverse.dropWhile jsWhitespace = s.reverse

/-- Non-empty and free of surrounding whitespace. -/
def TrimmedNE (s : Str) : Prop := headNotWs s ∧ lastNotWs s ∧ s ≠ []

theorem dropWhile_cons_false {p : Char → Bool} {c : Char} {t : Str} (h : p c = false) :
    List.dropWhile p (c :: t) = c :: t := by
  simp [List.dropWhile_cons, h]

theorem headNotWs_cons {c : Char} {t : Str} (h : jsWhitespace c = false) :
    headNotWs (c :: t) := dropWhile_cons_false h

theorem headNotWs_cons_iff {c : Char} {t : Str} :
    headNotWs (c :: t) ↔ jsWhitespace c = false := by
  constructor
  · intro h
    by_contra hc
    have hw : jsWhitespace c = true := by
      cases hcc : jsWhitespace c
      · exact absurd hcc hc
      · rfl
    unfold headNotWs at h
    rw [List.dropWhile_cons, hw] at h
    simp only [if_true] at h
    have := congrArg List.length h
    have hle := (List.dropWhile_suffix jsWhitespace (l := t)).length_le
    simp at this
    omega
  · exact headNotWs_cons

theorem jsTrim_eq_self {s : Str} (h1 : headNotWs s) (h2 : lastNotWs s) : jsTrim s = s := by
  unfold jsTrim
  unfold headNotWs at h1
  unfold lastNotWs at h2
  rw [h1, h2, List.reverse_reverse]

theorem trimmedNE_of_jsTrim {s : Str} (h : jsTrim s = s) (hne : s ≠ []) : TrimmedNE s := by
  have h1 : headNotWs s := by
    unfold headNotWs
    by_contra hc
    have hsuf := List.dropWhile_suffix (l := s) jsWhitespace
    have hlt : (s.dropWhile jsWhitespace).length < s.length := by
      rcases Nat.lt_or_ge (s.dropWhile jsWhitespace).length s.length with h' | h'
      · exact h'
      · exact absurd (hsuf.eq_of_length (Nat.le_antisymm hsuf.length_le h')) hc
    have hlen : (jsTrim s).length ≤ (s.dropWhile jsWhitespace).length := by
      unfold jsTrim
      rw [List.length_reverse]
      calc ((s.dropWhile jsWhitespace).reverse.dropWhile jsWhitespace).length
          ≤ (s.dropWhile jsWhitespace).reverse.length :=
            (List.dropWhile_suffix jsWhitespace).length_le
        _ = (s.dropWhile jsWhitespace).length := List.length_reverse _
    rw [h] at hlen
    omega
  refine ⟨h1, ?_, hne⟩
  unfold headNotWs at h1
  unfold jsTrim at h
  rw [h1] at h
  unfold lastNotWs
  have := congrArg List.reverse h
  rw [List.reverse_reverse] at this
  exact this

theorem trimmedNE_of_goodLabel {s : Str} (h : goodLabel s) : TrimmedNE s :=
  trimmedNE_of_jsTrim h.1 h.2.1

theorem jsTrim_of_trimmedNE {s : Str} (h : TrimmedNE s) : jsTrim s = s :=
  jsTrim_eq_self h.1 h.2.1

theorem headNotWs_append {a b : Str} (h : headNotWs a) (ha : a ≠ []) :
    headNotWs (a ++ b) := by
  cases a with
  | nil => exact absurd rfl ha
  | cons c t =>
    have := headNotWs_cons_iff.mp h
    exact headNotWs_cons (c := c) (t := t ++ b) this

theorem lastNotWs_append {a b : Str} (h : lastNotWs b) (hb : b ≠ []) :
    lastNotWs (a ++ b) := by
  unfold lastNotWs at h ⊢
  rw [List.reverse_append]
  have hbr : b.reverse ≠ [] := by
    intro hc
    exact hb (by simpa using congrArg List.reverse hc)
  exact headNotWs_append (a := b.reverse) (b := a.reverse) h hbr

theorem trimmedNE_append {a b : Str} (h1 : headNotWs a) (h2 : a ≠ [])
    (h3 : lastNotWs b) (h4 : b ≠ []) : TrimmedNE (a ++ b) :=
  ⟨headNotWs_append h1 h2, lastNotWs_append h3 h4, by simp [h2]⟩

theorem trimmedNE_append_full {a b : Str} (ha : TrimmedNE a) (hb : TrimmedNE b) :
    TrimmedNE (a ++ b) := trimmedNE_append ha.1 ha.2.2 hb.2.1 hb.2.2

theorem dropWhile_append_of_all {p : Char → Bool} {w s : Str}
    (h : ∀ c ∈ w, p c = true) : List.dropWhile p (w ++ s) = List.dropWhile p s := by
  induction w with
  | nil => rfl
  | cons c t ih =>
    rw [List.cons_append, List.dropWhile_cons, h c (by simp)]
    simp only [if_true]
    exact ih (fun d hd => h d (by simp [hd]))

theorem jsTrim_ws_append {w a : Str} (hw : ∀ c ∈ w, jsWhitespace c = true)
    (h : TrimmedNE a) : jsTrim (w ++ a) = a := by
  unfold jsTrim
  rw [dropWhile_append_of_all hw, h.1, h.2.1, List.reverse_reverse]

theorem jsTrim_append_ws {a w : Str} (h : TrimmedNE a)
    (hw : ∀ c ∈ w, jsWhitespace c = true) : jsTrim (a ++ w) = a := by
  unfold jsTrim
  rw [(headNotWs_append h.1 h.2.2 : (a ++ w).dropWhile jsWhitespace = a ++ w)]
  rw [List.reverse_append]
  rw [dropWhile_append_of_all (by intro c hc; exact hw c (by simpa using hc))]
  rw [h.2.1, List.reverse_reverse]

theorem takeWhile_append_stop {p : Char → Bool} {a b : Str} {c : Char}
    (h : ∀ d ∈ a, p d = true) (hc : p c = false) :
    List.takeWhile p (a ++ c :: b) = a := by
  induction a with
  | nil => simp [List.takeWhile_cons, hc]
  | cons x t ih =>
    rw [List.cons_append, List.takeWhile_cons, h x (by simp)]
    simp only [if_true]
    rw [ih (fun d hd => h d (by simp [hd]))]

theorem dropWhile_append_stop {p : Char → Bool} {a b : Str} {c : Char}
    (h : ∀ d ∈ a, p d = true) (hc : p c = false) :
    List.dropWhile p (a ++ c :: b) = c :: b := by
  rw [dropWhile_append_of_all h, List.dropWhile_cons, hc]
  simp

theorem splitCharAux_not_mem {sep : Char} {s : Str} (h : sep ∉ s) :
    splitCharAux sep s = (s, []) := by
  induction s with
  | nil => rfl
  | cons c t ih =>
    unfold splitCharAux
    rw [ih (fun hc => h (by simp [hc]))]
    have : c ≠ sep := fun hc => h (by simp [hc])
    simp [this]

theorem splitChar_not_mem {sep : Char} {s : Str} (h : sep ∉ s) :
    splitChar sep s = [s] := by
  unfold splitChar
  rw [splitCharAux_not_mem h]

theorem splitCharAux_append_sep {sep : Char} {a b : Str} (h : sep ∉ a) :
    splitCharAux sep (a ++ sep :: b) = (a, splitChar sep b) := by
  induction a with
  | nil =>
    unfold splitCharAux
    simp [splitChar]
  | cons c t ih =>
    unfold splitCharAux
    rw [List.cons_append]
    show (let r := splitCharAux sep (t ++ sep :: b);
      if c = sep then ([], r.1 :: r.2) else (c :: r.1, r.2)) = _
    rw [ih (fun hc => h (by simp [hc]))]
    have : c ≠ sep := fun hc => h (by simp [hc])
    simp [this]

theorem splitChar_append_sep {sep : Char} {a b : Str} (h : sep ∉ a) :
    splitChar sep (a ++ sep :: b) = a :: splitChar sep b := by
  unfold splitChar
  rw [show (splitCharAux sep (a ++ sep :: b)).1 :: (splitCharAux sep (a ++ sep :: b)).2
      = a :: splitChar sep b by rw [splitCharAux_append_sep h]]
  rfl

theorem joinChar_cons {sep : Char} {a : Str} {L : List Str} (h : L ≠ []) :
    joinChar sep (a :: L) = a ++ sep :: joinChar sep L := by
  cases L with
  | nil => exact absurd rfl h
  | cons y t => rfl

theorem splitChar_joinChar {sep : Char} {L : List Str}
    (h : ∀ x ∈ L, sep ∉ x) (hL : L ≠ []) :
    splitChar sep (joinChar sep L) = L := by
  induction L with
  | nil => exact absurd rfl hL
  | cons x t ih =>
    cases t with
    | nil => exact splitChar_not_mem (h x (by simp))
    | cons y u =>
      rw [joinChar_cons (by simp)]
      rw [splitChar_append_sep (h x (by simp))]
      rw [ih (fun z hz => h z (by simp [hz])) (by simp)]

theorem joinChar_append_nilpiece {sep : Char} {L : List Str} (h : L ≠ []) :
    joinChar sep (L ++ [[]]) = joinChar sep L ++ [sep] := by
  induction L with
  | nil => exact absurd rfl h
  | cons x t ih =>
    cases t with
    | nil => rfl
    | cons y u =>
      rw [List.cons_append, joinChar_cons (by simp), joinChar_cons (by simp)]
      rw [ih (by simp)]
      simp

theorem lastIndexOfChar_not_mem {c : Char} {s : Str} (h : c ∉ s) :
    lastIndexOfChar c s = none := by
  induction s with
  | nil => rfl
  | cons x t ih =>
    unfold lastIndexOfChar
    rw [ih (fun hc => h (by simp [hc]))]
    have : x ≠ c := fun hc => h (by simp [hc])
    simp [this]

theorem lastIndexOfChar_append {c : Char} {a b : Str} (ha : c ∉ a) (hb : c ∉ b) :
    lastIndexOfChar c (a ++ c :: b) = some a.length := by
  induction a with
  | nil =>
    show lastIndexOfChar c (c :: b) = some 0
    unfold lastIndexOfChar
    rw [lastIndexOfChar_not_mem hb]
    simp
  | cons x t ih =>
    show lastIndexOfChar c (x :: (t ++ c :: b)) = some (t.length + 1)
    unfold lastIndexOfChar
    rw [ih (fun hc => ha (by simp [hc]))]

/-! Decimal rendering facts. -/

theorem digitChar_isDigit {d : Nat} (h : d < 10) : isDigitChar (digitChar d) = true := by
  interval_cases d <;> decide

theorem natToStrCore_all_digits : ∀ (fuel n : Nat) (acc : Str),
    (∀ c ∈ acc, isDigitChar c = true) → ∀ c ∈ natToStrCore fuel n acc, isDigitChar c = true := by
  intro fuel
  induction fuel with
  | zero => intro n acc hacc; exact hacc
  | succ f ih =>
    intro n acc hacc c hc
    unfold natToStrCore at hc
    by_cases hq : n / 10 = 0
    · simp only [hq, if_true] at hc
      rcases List.mem_cons.mp hc with h | h
      · subst h; exact digitChar_isDigit (Nat.mod_lt _ (by omega))
      · exact hacc c h
    · simp only [hq, if_false] at hc
      refine ih (n / 10) (digitChar (n % 10) :: acc) ?_ c hc
      intro d hd
      rcases List.mem_cons.mp hd with h | h
      · subst h; exact digitChar_isDigit (Nat.mod_lt _ (by omega))
      · exact hacc d h

theorem natToStr_all_digits (n : Nat) : ∀ c ∈ natToStr n, isDigitChar c = true :=
  natToStrCore_all_digits (n + 1) n [] (by intro c hc; cases hc)

theorem natToStrCore_fuel_stable : ∀ (n f1 f2 : Nat) (acc : Str), n ≤ f1 → n ≤ f2 →
    natToStrCore (f1 + 1) n acc = natToStrCore (f2 + 1) n acc := by
  intro n
  induction n using Nat.strong_induction_on with
  | _ n ih =>
    intro f1 f2 acc h1 h2
    unfold natToStrCore
    by_cases hq : n / 10 = 0
    · simp [hq]
    · simp only [hq, if_false]
      have hn : 0 < n := by
        rcases Nat.eq_zero_or_pos n with h | h
        · subst h; simp at hq
        · exact h
      have hqlt : n / 10 < n := Nat.div_lt_self hn (by omega)
      have hf1 : n / 10 + 1 ≤ f1 := by omega
      have hf2 : n / 10 + 1 ≤ f2 := by omega
      calc natToStrCore f1 (n / 10) (digitChar (n % 10) :: acc)
          = natToStrCore ((f1 - 1) + 1) (n / 10) (digitChar (n % 10) :: acc) := by
            congr 1; omega
        _ = natToStrCore ((f2 - 1) + 1) (n / 10) (digitChar (n % 10) :: acc) :=
            ih (n / 10) hqlt (f1 - 1) (f2 - 1) _ (by omega) (by omega)
        _ = natToStrCore f2 (n / 10) (digitChar (n % 10) :: acc) := by
            congr 1; omega

theorem digitChar_val {n : Nat} : (digitChar (n % 10)).toNat - 48 = n % 10 := by
  have h : n % 10 < 10 := Nat.mod_lt _ (by omega)
  set r := n % 10 with hr
  interval_cases r <;> decide

theorem parseNatDigits_core : ∀ (n : Nat) (acc : Str),
    List.foldl (fun a c => a * 10 + (c.toNat - 48)) 0 (natToStrCore (n + 1) n acc)
      = List.foldl (fun a c => a * 10 + (c.toNat - 48)) n acc := by
  intro n
  induction n using Nat.strong_induction_on with
  | _ n ih =>
    intro acc
    unfold natToStrCore
    by_cases hq : n / 10 = 0
    · simp only [hq, if_true]
      rw [List.foldl_cons]
      have : n % 10 = n := by omega
      rw [digitChar_val, this]
      norm_num
    · simp only [hq, if_false]
      have hn : 0 < n := by
        rcases Nat.eq_zero_or_pos n with h | h
        · subst h; simp at hq
        · exact h
      have hqlt : n / 10 < n := Nat.div_lt_self hn (by omega)
      have hstep : natToStrCore n (n / 10) (digitChar (n % 10) :: acc)
          = natToStrCore (n / 10 + 1) (n / 10) (digitChar (n % 10) :: acc) := by
        calc natToStrCore n (n / 10) (digitChar (n % 10) :: acc)
            = natToStrCore ((n - 1) + 1) (n / 10) (digitChar (n % 10) :: acc) := by
              congr 1; omega
          _ = _ := natToStrCore_fuel_stable (n / 10) (n - 1) (n / 10) _ (by omega) (by omega)
      rw [hstep, ih (n / 10) hqlt]
      rw [List.foldl_cons, digitChar_val]
      congr 1
      omega

theorem parseNatDigits_natToStr (n : Nat) : parseNatDigits (natToStr n) = n := by
  unfold parseNatDigits natToStr
  rw [parseNatDigits_core n []]
  rfl

theorem natToStrCore_length_mono : ∀ (fuel n : Nat) (acc : Str),
    acc.length ≤ (natToStrCore fuel n acc).length := by
  intro fuel
  induction fuel with
  | zero => intro n acc; exact Nat.le_refl _
  | succ f ih =>
    intro n acc
    unfold natToStrCore
    by_cases hq : n / 10 = 0
    · simp [hq]
    · simp only [hq, if_false]
      calc acc.length ≤ (digitChar (n % 10) :: acc).length := by simp
        _ ≤ _ := ih (n / 10) _

theorem natToStr_ne_nil (n : Nat) : natToStr n ≠ [] := by
  unfold natToStr natToStrCore
  by_cases hq : n / 10 = 0
  · simp [hq]
  · simp only [hq, if_false]
    intro hc
    have := natToStrCore_length_mono n (n / 10) [digitChar (n % 10)]
    rw [hc] at this
    simp at this

theorem natToStr_headNotWs (n : Nat) : headNotWs (natToStr n) := by
  cases h : natToStr n with
  | nil => exact absurd h (natToStr_ne_nil n)
  | cons c t =>
    refine headNotWs_cons ?_
    have hc : isDigitChar c = true := natToStr_all_digits n c (by rw [h]; simp)
    unfold isDigitChar at hc
    unfold jsWhitespace
    simp only [decide_eq_true_eq] at hc
    have h0 : ('0' : Char) ≤ c := hc.1
    have h9 : c ≤ '9' := hc.2
    have hv0 : ('0' : Char).val ≤ c.val := h0
    have hv9 : c.val ≤ ('9' : Char).val := h9
    simp only [Bool.or_eq_false_iff, decide_eq_false_iff_not]
    refine ⟨⟨⟨⟨⟨?_, ?_⟩, ?_⟩, ?_⟩, ?_⟩, ?_⟩ <;>
      · intro hcc
        subst hcc
        simp_all [Char.le_def]

theorem natToStr_trimmedNE (n : Nat) : TrimmedNE (natToStr n) := by
  refine ⟨natToStr_headNotWs n, ?_, natToStr_ne_nil n⟩
  cases h : (natToStr n).reverse with
  | nil =>
    exact absurd (by simpa using congrArg List.reverse h) (natToStr_ne_nil n)
  | cons c t =>
    have hc : isDigitChar c = true := by
      refine natToStr_all_digits n c ?_
      have : c ∈ (natToStr n).reverse := by rw [h]; simp
      simpa using this
    have hw : jsWhitespace c = false := by
      unfold isDigitChar at hc
      unfold jsWhitespace
      simp only [decide_eq_true_eq] at hc
      have hv0 : ('0' : Char).val ≤ c.val := hc.1
      have hv9 : c.val ≤ ('9' : Char).val := hc.2
      simp only [Bool.or_eq_false_iff, decide_eq_false_iff_not]
      refine ⟨⟨⟨⟨⟨?_, ?_⟩, ?_⟩, ?_⟩, ?_⟩, ?_⟩ <;>
        · intro hcc
          subst hcc
          simp_all [Char.le_def]
    unfold lastNotWs
    rw [h]
    exact headNotWs_cons hw

/-! ### Matcher lemmas -/

theorem isEmpty_false_of_ne {l : Str} (h : l ≠ []) : l.isEmpty = false := by
  simp [List.isEmpty_iff, h]

theorem takeWhile_nil_of_headNotWs {s : Str} (h : headNotWs s) :
    s.takeWhile jsWhitespace = [] := by
  cases s with
  | nil => rfl
  | cons c t =>
    have := headNotWs_cons_iff.mp h
    simp [List.takeWhile_cons, this]

theorem matchHashHeading_none_head {n : Nat} {s : Str} (hn : n ≠ 0)
    (h : ∀ c t, s = c :: t → c ≠ '#') : matchHashHeading n s = none := by
  unfold matchHashHeading
  have : s.take n ≠ List.replicate n '#' := by
    cases s with
    | nil =>
      intro hc
      have := congrArg List.length hc
      simp at this
      omega
    | cons c t =>
      cases n with
      | zero => exact absurd rfl hn
      | succ m =>
        intro hc
        rw [List.take_succ_cons, List.replicate_succ] at hc
        exact h c t rfl (List.cons.inj hc).1
  simp [this]

theorem matchHashHeading_generated {n k : Nat} {name : Str} (hn : 1 ≤ n) (hk : 1 ≤ k)
    (hname : TrimmedNE name) :
    matchHashHeading n (List.replicate k '#' ++ ' ' :: name)
      = if n = k then some name else none := by
  unfold matchHashHeading
  rcases Nat.lt_trichotomy n k with hlt | heq | hgt
  · have htake : (List.replicate k '#' ++ ' ' :: name).take n = List.replicate n '#' := by
      rw [List.take_append_of_le_length (by simp; omega), List.take_replicate]
      congr 1
      omega
    rw [htake, if_pos rfl]
    have hdrop : (List.replicate k '#' ++ ' ' :: name).drop n
        = List.replicate (k - n) '#' ++ ' ' :: name := by
      rw [List.drop_append_of_le_length (by simp; omega), List.drop_replicate]
    rw [hdrop]
    have hkn : k - n = (k - n - 1) + 1 := by omega
    rw [hkn, List.replicate_succ, List.cons_append]
    simp only [if_neg (by omega : ¬ n = k)]
    simp [jsWhitespace]
  · subst heq
    rw [if_pos rfl]
    have htake : (List.replicate n '#' ++ ' ' :: name).take n = List.replicate n '#' := by
      rw [List.take_append_of_le_length (by simp)]
      simp [List.take_replicate]
    rw [htake, if_pos rfl]
    have hdrop : (List.replicate n '#' ++ ' ' :: name).drop n = ' ' :: name := by
      rw [List.drop_append_of_le_length (by simp)]
      simp [List.drop_replicate]
    rw [hdrop]
    show (if jsWhitespace ' ' = true then
        let rest := List.dropWhile jsWhitespace name
        if rest.isEmpty = true then none else some rest
      else none) = some name
    simp only [show jsWhitespace ' ' = true by decide, if_true,
      show List.dropWhile jsWhitespace name = name from hname.1,
      isEmpty_false_of_ne hname.2.2]
    simp
  · have htake : (List.replicate k '#' ++ ' ' :: name).take n ≠ List.replicate n '#' := by
      intro hc
      have h1 : ((List.replicate k '#' ++ ' ' :: name).take n)[k]? = some ' ' := by
        rw [List.getElem?_take, if_pos (by omega : k < n)]
        rw [List.getElem?_append_right (by simp)]
        simp
      rw [hc] at h1
      rw [List.getElem?_replicate] at h1
      by_cases hkn : k < n
      · rw [if_pos hkn] at h1
        exact absurd (Option.some.inj h1) (by decide)
      · rw [if_neg hkn] at h1
        cases h1
    simp only [if_neg htake]
    rw [if_neg (by omega : ¬ n = k)]

theorem lowerStr_append (a b : Str) : lowerStr (a ++ b) = lowerStr a ++ lowerStr b := by
  simp [lowerStr]

theorem matchPrefixCI_literal_space {lit pre x : Str} (hlen : lit.length = pre.length)
    (hlit : lowerStr lit = pre) (hx : headNotWs x) (hxne : x ≠ []) :
    matchPrefixCI pre (lit ++ ' ' :: x) = some x := by
  unfold matchPrefixCI strStartsWithCI
  have htake : (lowerStr (lit ++ ' ' :: x)).take pre.length = pre := by
    rw [lowerStr_append, List.take_append_of_le_length (by simp [lowerStr, hlen])]
    rw [show pre.length = (lowerStr lit).length by simp [lowerStr, hlen]]
    rw [List.take_length, hlit]
  rw [htake]
  rw [if_pos (show decide (pre = pre) = true by simp)]
  have hdrop : (lit ++ ' ' :: x).drop pre.length = ' ' :: x := by
    rw [← hlen]
    have : lit.length = lit.length + 0 := rfl
    rw [this, List.drop_append 0]
    rfl
  have hdw : List.dropWhile jsWhitespace (' ' :: x) = x := by
    rw [List.dropWhile_cons]
    simp only [show jsWhitespace ' ' = true by decide, if_true]
    exact hx
  simp only [hdrop, hdw, isEmpty_false_of_ne hxne]
  simp

theorem matchPrefixCI_none_take {pre s : Str} (h : (lowerStr s).take pre.length ≠ pre) :
    matchPrefixCI pre s = none := by
  unfold matchPrefixCI strStartsWithCI
  simp [h]

theorem take_lower_append {lit rest : Str} {m : Nat} (h : m ≤ lit.length) :
    (lowerStr (lit ++ rest)).take m = (lowerStr lit).take m := by
  rw [lowerStr_append, List.take_append_of_le_length (by simp [lowerStr, h])]

theorem matchPrefixCI_none_head {pre s : Str} {p0 c : Char}
    (hpre : pre = p0 :: pre.tail) (hs : s = c :: s.tail) (h : asciiLowerChar c ≠ p0) :
    matchPrefixCI pre s = none := by
  refine matchPrefixCI_none_take ?_
  rw [hs]
  intro hc
  rw [show lowerStr (c :: s.tail) = asciiLowerChar c :: lowerStr s.tail from rfl] at hc
  rw [hpre] at hc
  rw [List.length_cons, List.take_succ_cons] at hc
  exact h (List.cons.inj hc).1

theorem matchListItem_dash {x : Str} (hx : headNotWs x) (hne : x ≠ []) :
    matchListItem ('-' :: ' ' :: x) = some x := by
  have hdw : List.dropWhile jsWhitespace (' ' :: x) = x := by
    rw [List.dropWhile_cons]
    simp only [show jsWhitespace ' ' = true by decide, if_true]
    exact hx
  show (if jsWhitespace ' ' = true then
      let cap := List.dropWhile jsWhitespace (' ' :: x)
      if cap.isEmpty = true then none else some cap
    else none) = some x
  simp only [show jsWhitespace ' ' = true by decide, if_true, hdw]
  simp [List.isEmpty_iff, hne]

theorem drop_takeWhile_length (p : Char → Bool) (l : Str) :
    l.drop (l.takeWhile p).length = l.dropWhile p := by
  induction l with
  | nil => rfl
  | cons a l ih =>
    rw [List.takeWhile_cons, List.dropWhile_cons]
    by_cases h : p a
    · simp only [h, if_true]
      rw [List.length_cons, List.drop_succ_cons]
      exact ih
    · simp [h]

theorem dropWhile_head_false {p : Char → Bool} {l : Str} {c : Char} {t : Str}
    (h : l.dropWhile p = c :: t) : p c = false := by
  have := List.head?_dropWhile_not p l
  rw [h] at this
  simpa using this

theorem not_lastNotWs_ws_suffix {a w : Str} (hw : w ≠ [])
    (hall : ∀ c ∈ w, jsWhitespace c = true) : ¬ lastNotWs (a ++ w) := by
  intro hlast
  unfold lastNotWs at hlast
  rw [List.reverse_append] at hlast
  cases hwr : w.reverse with
  | nil => exact hw (by simpa using congrArg List.reverse hwr)
  | cons c t =>
    rw [hwr] at hlast
    have hc : c ∈ w := by
      have : c ∈ w.reverse := by rw [hwr]; simp
      simpa using this
    have := headNotWs_cons_iff.mp (hlast : headNotWs (c :: (t ++ a.reverse)))
    rw [hall c hc] at this
    cases this

theorem bracketSplit_no_open {s : Str} (h : '[' ∉ s) : bracketSplit s = none := by
  induction s with
  | nil => rfl
  | cons c cs ih =>
    unfold bracketSplit
    have hc : ¬ c = '[' := fun hh => h (by simp [hh])
    rw [if_neg hc, ih (fun hm => h (by simp [hm]))]

theorem bracketSplit_append {a inner : Str} (ha : '[' ∉ a) (hi : ']' ∉ inner) :
    bracketSplit (a ++ '[' :: (inner ++ [']'])) = some (a, inner) := by
  induction a with
  | nil =>
    rw [List.nil_append]
    unfold bracketSplit
    rw [if_pos rfl]
    have htw : List.takeWhile (fun d => decide (d ≠ ']')) (inner ++ [']']) = inner := by
      refine takeWhile_append_stop ?_ (by decide)
      intro d hd
      simp only [decide_eq_true_eq]
      intro hc
      subst hc
      exact hi hd
    simp only [htw]
    rw [show (inner ++ [']']).drop inner.length = [']'] from List.drop_left inner [']']]
    simp
  | cons c a' ih =>
    rw [List.cons_append]
    unfold bracketSplit
    have hc : ¬ c = '[' := fun hh => ha (by simp [hh])
    rw [if_neg hc, ih (fun hm => ha (by simp [hm]))]

theorem quantityMatch_none_head {c : Char} {t : Str} (h : isDigitChar c = false) :
    quantityMatch (c :: t) = none := by
  unfold quantityMatch
  rw [List.takeWhile_cons, h]
  simp

theorem quantityMatch_roleLabel (r : Role) : quantityMatch (ROLE_LABELS r) = none := by
  cases r <;> decide

theorem quantityMatch_extend {name rest : Str} (hq : quantityMatch name = none)
    (hne : name ≠ []) (hlast : lastNotWs name) :
    quantityMatch (name ++ ',' :: rest) = none := by
  cases hdw : name.dropWhile isDigitChar with
  | nil =>
    have hall : ∀ c ∈ name, isDigitChar c = true := List.dropWhile_eq_nil_iff.mp hdw
    unfold quantityMatch
    rw [takeWhile_append_stop hall (by decide)]
    dsimp only
    rw [isEmpty_false_of_ne hne]
    simp only [Bool.false_eq_true, if_false]
    rw [List.drop_left]
    simp
  | cons c n' =>
    have hcd : isDigitChar c = false := dropWhile_head_false hdw
    have hname : name = name.takeWhile isDigitChar ++ c :: n' := by
      conv_lhs => rw [← List.takeWhile_append_dropWhile (p := isDigitChar) (l := name)]
      rw [hdw]
    set ds := name.takeWhile isDigitChar with hds
    by_cases hdse : ds = []
    · rw [hname, hdse, List.nil_append, List.cons_append]
      exact quantityMatch_none_head hcd
    · have hdall : ∀ d ∈ ds, isDigitChar d = true := fun d hd => List.mem_takeWhile_imp hd
      unfold quantityMatch
      have htw : (name ++ ',' :: rest).takeWhile isDigitChar = ds := by
        rw [hname, List.append_assoc, List.cons_append]
        exact takeWhile_append_stop hdall hcd
      rw [htw]
      dsimp only
      rw [isEmpty_false_of_ne hdse]
      simp only [Bool.false_eq_true, if_false]
      have hdrop : (name ++ ',' :: rest).drop ds.length = c :: (n' ++ ',' :: rest) := by
        rw [hname, List.append_assoc, List.cons_append]
        exact List.drop_left ds _
      rw [hdrop]
      dsimp only
      by_cases hcx : c = 'x' ∨ c = 'X'
      · cases hdw2 : n'.dropWhile jsWhitespace with
        | nil =>
          cases hn' : n' with
          | nil =>
            subst hn'
            simp only [List.nil_append]
            rw [if_pos hcx]
            rw [show List.takeWhile jsWhitespace (',' :: rest) = [] by
              rw [List.takeWhile_cons, show jsWhitespace ',' = false by decide]
              simp]
            simp
          | cons d n'' =>
            exfalso
            refine not_lastNotWs_ws_suffix (a := ds ++ [c]) (w := n') ?_ ?_ ?_
            · rw [hn']; simp
            · exact List.dropWhile_eq_nil_iff.mp hdw2
            · rw [show (ds ++ [c]) ++ n' = name by rw [hname]; simp]
              exact hlast
        | cons d n'' =>
          have hdws : jsWhitespace d = false := dropWhile_head_false hdw2
          have hn' : n' = n'.takeWhile jsWhitespace ++ d :: n'' := by
            conv_lhs => rw [← List.takeWhile_append_dropWhile (p := jsWhitespace) (l := n')]
            rw [hdw2]
          set w := n'.takeWhile jsWhitespace with hwdef
          by_cases hwe : w = []
          · rw [if_pos hcx]
            rw [show List.takeWhile jsWhitespace (n' ++ ',' :: rest)
                = [] by
              rw [hn', hwe, List.nil_append, List.cons_append, List.takeWhile_cons, hdws]
              simp]
            simp
          · exfalso
            have hwall : ∀ e ∈ w, jsWhitespace e = true := fun e he => List.mem_takeWhile_imp he
            have hqname : quantityMatch name ≠ none := by
              unfold quantityMatch
              rw [hname]
              rw [takeWhile_append_stop hdall hcd]
              dsimp only
              rw [isEmpty_false_of_ne hdse]
              simp only [Bool.false_eq_true, if_false]
              rw [show (ds ++ c :: n').drop ds.length = c :: n' from List.drop_left ds _]
              dsimp only
              rw [if_pos hcx]
              rw [show List.takeWhile jsWhitespace n' = w from rfl]
              rw [isEmpty_false_of_ne hwe]
              simp only [Bool.false_eq_true, if_false]
              rw [show n'.drop w.length = d :: n'' by
                rw [hwdef, drop_takeWhile_length, hdw2]]
              simp
            exact hqname hq
      · simp [hcx]

theorem stripTrailingComma_of_no_comma {s : Str} (h : ',' ∉ s) : stripTrailingComma s = s := by
  unfold stripTrailingComma
  split
  · exfalso
    rename_i rest hr
    apply h
    have : ',' ∈ s.reverse := by rw [hr]; simp
    simpa using this
  · rfl

theorem matchParenTargetHere_open (rest : Str) :
    matchParenTargetHere ('(' :: rest) =
      (let ds := rest.takeWhile isDigitChar
       if ds.isEmpty = true then none
       else
         match rest.drop ds.length with
         | '%' :: r1 =>
           let r2 := r1.dropWhile jsWhitespace
           if strStartsWithCI r2 (S "onshore") then
             let r3 := (r2.drop 7).dropWhile jsWhitespace
             if strStartsWithCI r3 (S "target") then
               match r3.drop 6 with
               | ')' :: r4 =>
                 if (r4.dropWhile jsWhitespace).isEmpty then some (parseNatDigits ds) else none
               | _ => none
             else none
           else none
         | _ => none) := rfl

theorem matchParenTargetHere_no_open {s : Str} {t : Nat}
    (h : matchParenTargetHere s = some t) : '(' ∉ s.drop 1 := by
  unfold matchParenTargetHere at h
  split at h
  · rename_i rest
    simp only [List.drop_succ_cons, List.drop_zero]
    try dsimp only at h
    split at h
    · cases h
    · rename_i hdse
      split at h
      · rename_i r1 heq
        try dsimp only at h
        split at h
        · rename_i honshore
          try dsimp only at h
          split at h
          · rename_i htarget
            split at h
            · rename_i r4 heq2
              split at h
              · rename_i hws
                -- assemble the decomposition and refute membership of '('
                intro hc
                have hsplit : rest = rest.takeWhile isDigitChar ++ '%' :: r1 := by
                  conv_lhs => rw [← List.takeWhile_append_dropWhile
                    (p := isDigitChar) (l := rest)]
                  rw [← drop_takeWhile_length isDigitChar rest, heq]
                have hsplit1 : r1 = r1.takeWhile jsWhitespace ++ r1.dropWhile jsWhitespace :=
                  (List.takeWhile_append_dropWhile (p := jsWhitespace) (l := r1)).symm
                set r2 := r1.dropWhile jsWhitespace with hr2
                have hsplit2 : r2 = r2.take 7 ++ r2.drop 7 := (List.take_append_drop 7 r2).symm
                set r3' := r2.drop 7 with hr3'
                have hsplit3 : r3' = r3'.takeWhile jsWhitespace ++ r3'.dropWhile jsWhitespace :=
                  (List.takeWhile_append_dropWhile (p := jsWhitespace) (l := r3')).symm
                set r3 := r3'.dropWhile jsWhitespace with hr3
                have hsplit4 : r3 = r3.take 6 ++ (')' :: r4) := by
                  conv_lhs => rw [← List.take_append_drop 6 r3]
                  rw [heq2]
                unfold strStartsWithCI at honshore htarget
                simp only [decide_eq_true_eq] at honshore htarget
                rw [hsplit] at hc
                rcases List.mem_append.mp hc with hin | hin
                · exact absurd (List.mem_takeWhile_imp hin) (by decide)
                · rcases List.mem_cons.mp hin with hx | hin
                  · exact absurd hx (by decide)
                  · rw [hsplit1] at hin
                    rcases List.mem_append.mp hin with hin | hin
                    · exact absurd (List.mem_takeWhile_imp hin) (by decide)
                    · rw [hsplit2] at hin
                      rcases List.mem_append.mp hin with hin | hin
                      · have hmem : asciiLowerChar '(' ∈ lowerStr (r2.take 7) :=
                          List.mem_map_of_mem _ hin
                        rw [show lowerStr (r2.take 7) = (lowerStr r2).take 7 from
                          List.map_take asciiLowerChar r2 7] at hmem
                        rw [show (S "onshore").length = 7 from rfl] at honshore
                        rw [honshore] at hmem
                        rw [show asciiLowerChar '(' = '(' from rfl] at hmem
                        exact absurd hmem (by decide)
                      · rw [hsplit3] at hin
                        rcases List.mem_append.mp hin with hin | hin
                        · exact absurd (List.mem_takeWhile_imp hin) (by decide)
                        · rw [hsplit4] at hin
                          rcases List.mem_append.mp hin with hin | hin
                          · have hmem : asciiLowerChar '(' ∈ lowerStr (r3.take 6) :=
                              List.mem_map_of_mem _ hin
                            rw [show lowerStr (r3.take 6) = (lowerStr r3).take 6 from
                              List.map_take asciiLowerChar r3 6] at hmem
                            rw [show (S "target").length = 6 from rfl] at htarget
                            rw [htarget] at hmem
                            rw [show asciiLowerChar '(' = '(' from rfl] at hmem
                            exact absurd hmem (by decide)
                          · rcases List.mem_cons.mp hin with hx | hin
                            · exact absurd hx (by decide)
                            · have hall : ∀ a ∈ r4, jsWhitespace a = true := by
                                refine List.dropWhile_eq_nil_iff.mp ?_
                                cases hdr4 : r4.dropWhile jsWhitespace with
                                | nil => rfl
                                | cons a u => rw [hdr4] at hws; cases hws
                              have := hall '(' hin
                              exact absurd this (by decide)
              · cases h
            · cases h
          · cases h
        · cases h
      · cases h
  · cases h

theorem matchParen_after_percent (ds : Str) :
    (match ('%' :: S " onshore target)" : Str) with
      | '%' :: r1 =>
        let r2 := r1.dropWhile jsWhitespace
        if strStartsWithCI r2 (S "onshore") then
          let r3 := (r2.drop 7).dropWhile jsWhitespace
          if strStartsWithCI r3 (S "target") then
            match r3.drop 6 with
            | ')' :: r4 =>
              if (r4.dropWhile jsWhitespace).isEmpty then some (parseNatDigits ds) else none
            | _ => none
          else none
        else none
      | _ => none) = some (parseNatDigits ds) := rfl

theorem matchParenTargetHere_digits {ds : Str} (hne : ds ≠ [])
    (hdig : ∀ c ∈ ds, isDigitChar c = true) :
    matchParenTargetHere ('(' :: (ds ++ S "% onshore target)")) = some (parseNatDigits ds) := by
  rw [matchParenTargetHere_open]
  have htw : (ds ++ S "% onshore target)").takeWhile isDigitChar = ds := by
    rw [show ds ++ S "% onshore target)" = ds ++ '%' :: S " onshore target)" from rfl]
    exact takeWhile_append_stop hdig (by decide)
  rw [htw]
  try dsimp only
  rw [isEmpty_false_of_ne hne]
  simp only [Bool.false_eq_true, if_false]
  rw [show ds ++ S "% onshore target)" = ds ++ '%' :: S " onshore target)" from rfl]
  rw [show (ds ++ '%' :: S " onshore target)").drop ds.length = '%' :: S " onshore target)"
    from List.drop_left ds _]
  exact matchParen_after_percent ds

theorem findTargetSuffix_before (pre : Str) {tgt : Str} {t : Nat}
    (h : matchParenTargetHere tgt = some t) (hopen : '(' ∈ tgt.drop 1 ∨ tgt ≠ []) :
    findTargetSuffix (pre ++ tgt) = some (pre.length, t) := by
  induction pre with
  | nil =>
    cases tgt with
    | nil => cases h
    | cons c cs =>
      rw [List.nil_append]
      unfold findTargetSuffix
      rw [h]
      simp
  | cons c pre' ih =>
    rw [List.cons_append]
    unfold findTargetSuffix
    have hopen' : '(' ∈ tgt := by
      cases htg : tgt with
      | nil => subst htg; cases h
      | cons d u =>
        have hd : d = '(' := by
          subst htg
          unfold matchParenTargetHere at h
          split at h
          · rename_i rest heqq
            exact (List.cons.inj heqq).1
          · cases h
        subst htg
        rw [hd]
        simp
    have hnone : matchParenTargetHere (c :: (pre' ++ tgt)) = none := by
      cases hm : matchParenTargetHere (c :: (pre' ++ tgt)) with
      | none => rfl
      | some t' =>
        exfalso
        have hno := matchParenTargetHere_no_open hm
        refine hno ?_
        simp only [List.drop_succ_cons, List.drop_zero]
        exact List.mem_append.mpr (Or.inr hopen')
    rw [hnone, ih]
    simp

/-! ### Properties-bracket round trip -/

/-- The parts list `personProps` joins for a contractor. -/
def propsParts (p : PersonI) : List Str :=
  let parts := [S "contractor"]
  let parts := match p.location with
    | some l => if l ≠ onshore then parts ++ [locationStr l] else parts
    | none => parts
  match p.vendor with
  | some v => if !v.isEmpty then parts ++ [v] else parts
  | none => parts

def propsInner (p : PersonI) : Str := joinSep (S ", ") (propsParts p)

theorem personProps_employee {p : PersonI} (h : p.type = employee) :
    personProps p = [] := by
  unfold personProps
  rw [if_pos h]

theorem personProps_contractor {p : PersonI} (h : p.type = contractor) :
    personProps p = S " [" ++ propsInner p ++ S "]" := by
  unfold personProps propsInner propsParts
  rw [if_neg (by rw [h]; decide)]

theorem parseProps_c1 : parseProps ('[' :: (S "contractor" ++ [']']))
    = (contractor, onshore, none) := by decide

theorem parseProps_c2 : parseProps ('[' :: (S "contractor, nearshore" ++ [']']))
    = (contractor, nearshore, none) := by decide

theorem parseProps_c3 : parseProps ('[' :: (S "contractor, offshore" ++ [']']))
    = (contractor, offshore, none) := by decide

theorem splitChar_comma_space_vendor {v : Str} (hv : goodVendor v) :
    splitChar ',' (' ' :: v) = [' ' :: v] := by
  refine splitChar_not_mem ?_
  intro hc
  rcases List.mem_cons.mp hc with h | h
  · exact absurd h (by decide)
  · exact hv.2.2.2.1 h

theorem jsTrim_space_vendor {v : Str} (hv : goodVendor v) : jsTrim (' ' :: v) = v := by
  have hvt : TrimmedNE v := trimmedNE_of_jsTrim hv.1 hv.2.1
  exact jsTrim_ws_append (w := [' ']) (by decide) hvt

/-- The accumulator step of `parseProps`, named for computation. -/
def parsePropsStep (acc : EmployeeType × Location × Option Str) (part : Str) :
    EmployeeType × Location × Option Str :=
  let lower := lowerStr part
  if lower = S "contractor" then (contractor, acc.2.1, acc.2.2)
  else if lower = S "employee" then (employee, acc.2.1, acc.2.2)
  else if lower = S "onshore" then (acc.1, onshore, acc.2.2)
  else if lower = S "nearshore" then (acc.1, nearshore, acc.2.2)
  else if lower = S "offshore" then (acc.1, offshore, acc.2.2)
  else (acc.1, acc.2.1, some part)

theorem parseProps_eq (b : Str) : parseProps b =
    (let inner := jsTrim ((b.drop 1).dropLast)
     let parts := ((splitChar ',' inner).map jsTrim).filter (fun p => !p.isEmpty)
     let res := parts.foldl parsePropsStep (employee, onshore, none)
     if res.1 = employee then (employee, onshore, none) else res) := rfl

theorem parsePropsStep_vendor {v : Str} (hv : goodVendor v)
    (acc : EmployeeType × Location × Option Str) :
    parsePropsStep acc v = (acc.1, acc.2.1, some v) := by
  obtain ⟨-, -, -, -, -, k1, k2, k3, k4, k5⟩ := hv
  unfold parsePropsStep
  rw [if_neg k1, if_neg k2, if_neg k3, if_neg k4, if_neg k5]

theorem parseProps_vendor_onshore {v : Str} (hv : goodVendor v) :
    parseProps ('[' :: (S "contractor, " ++ v ++ [']'])) = (contractor, onshore, some v) := by
  have hvt : TrimmedNE v := trimmedNE_of_jsTrim hv.1 hv.2.1
  rw [parseProps_eq]
  rw [show ('[' :: (S "contractor, " ++ v ++ [']'])).drop 1
    = S "contractor, " ++ v ++ [']'] from rfl]
  rw [show S "contractor, " ++ v ++ [']'] = (S "contractor, " ++ v) ++ [']'] by simp]
  rw [List.dropLast_concat]
  rw [show jsTrim (S "contractor, " ++ v) = S "contractor, " ++ v from
    jsTrim_of_trimmedNE (trimmedNE_append (headNotWs_cons (by decide)) (by decide)
      hvt.2.1 hvt.2.2)]
  rw [show S "contractor, " ++ v = S "contractor" ++ ',' :: (' ' :: v) from rfl]
  dsimp only
  rw [splitChar_append_sep (by decide), splitChar_comma_space_vendor hv]
  simp only [List.map_cons, List.map_nil]
  rw [show jsTrim (S "contractor") = S "contractor" by decide, jsTrim_space_vendor hv]
  rw [show List.filter (fun p => !List.isEmpty p) [S "contractor", v] = [S "contractor", v] by
    simp only [List.filter_cons, List.filter_nil, isEmpty_false_of_ne hv.2.1,
      Bool.not_false, if_true, show (S "contractor").isEmpty = false from rfl]]
  rw [List.foldl_cons]
  rw [show parsePropsStep (employee, onshore, none) (S "contractor")
    = (contractor, onshore, none) from by decide]
  rw [List.foldl_cons, List.foldl_nil]
  rw [parsePropsStep_vendor hv (contractor, onshore, none)]
  rfl

theorem parseProps_vendor_nearshore {v : Str} (hv : goodVendor v) :
    parseProps ('[' :: (S "contractor, nearshore, " ++ v ++ [']']))
      = (contractor, nearshore, some v) := by
  have hvt : TrimmedNE v := trimmedNE_of_jsTrim hv.1 hv.2.1
  rw [parseProps_eq]
  rw [show ('[' :: (S "contractor, nearshore, " ++ v ++ [']'])).drop 1
    = S "contractor, nearshore, " ++ v ++ [']'] from rfl]
  rw [show S "contractor, nearshore, " ++ v ++ [']']
    = (S "contractor, nearshore, " ++ v) ++ [']'] by simp]
  rw [List.dropLast_concat]
  rw [show jsTrim (S "contractor, nearshore, " ++ v) = S "contractor, nearshore, " ++ v from
    jsTrim_of_trimmedNE (trimmedNE_append (headNotWs_cons (by decide)) (by decide)
      hvt.2.1 hvt.2.2)]
  rw [show S "contractor, nearshore, " ++ v
    = S "contractor" ++ ',' :: (S " nearshore" ++ ',' :: (' ' :: v)) from rfl]
  dsimp only
  rw [splitChar_append_sep (by decide)]
  rw [splitChar_append_sep (by decide), splitChar_comma_space_vendor hv]
  simp only [List.map_cons, List.map_nil]
  rw [show jsTrim (S "contractor") = S "contractor" by decide]
  rw [show jsTrim (S " nearshore") = S "nearshore" by decide]
  rw [jsTrim_space_vendor hv]
  rw [show List.filter (fun p => !List.isEmpty p) [S "contractor", S "nearshore", v]
      = [S "contractor", S "nearshore", v] by
    simp only [List.filter_cons, List.filter_nil, isEmpty_false_of_ne hv.2.1,
      Bool.not_false, if_true, show (S "contractor").isEmpty = false from rfl,
      show (S "nearshore").isEmpty = false from rfl]]
  rw [List.foldl_cons]
  rw [show parsePropsStep (employee, onshore, none) (S "contractor")
    = (contractor, onshore, none) from by decide]
  rw [List.foldl_cons]
  rw [show parsePropsStep (contractor, onshore, none) (S "nearshore")
    = (contractor, nearshore, none) from by decide]
  rw [List.foldl_cons, List.foldl_nil]
  rw [parsePropsStep_vendor hv (contractor, nearshore, none)]
  rfl

theorem parseProps_vendor_offshore {v : Str} (hv : goodVendor v) :
    parseProps ('[' :: (S "contractor, offshore, " ++ v ++ [']']))
      = (contractor, offshore, some v) := by
  have hvt : TrimmedNE v := trimmedNE_of_jsTrim hv.1 hv.2.1
  rw [parseProps_eq]
  rw [show ('[' :: (S "contractor, offshore, " ++ v ++ [']'])).drop 1
    = S "contractor, offshore, " ++ v ++ [']'] from rfl]
  rw [show S "contractor, offshore, " ++ v ++ [']']
    = (S "contractor, offshore, " ++ v) ++ [']'] by simp]
  rw [List.dropLast_concat]
  rw [show jsTrim (S "contractor, offshore, " ++ v) = S "contractor, offshore, " ++ v from
    jsTrim_of_trimmedNE (trimmedNE_append (headNotWs_cons (by decide)) (by decide)
      hvt.2.1 hvt.2.2)]
  rw [show S "contractor, offshore, " ++ v
    = S "contractor" ++ ',' :: (S " offshore" ++ ',' :: (' ' :: v)) from rfl]
  dsimp only
  rw [splitChar_append_sep (by decide)]
  rw [splitChar_append_sep (by decide), splitChar_comma_space_vendor hv]
  simp only [List.map_cons, List.map_nil]
  rw [show jsTrim (S "contractor") = S "contractor" by decide]
  rw [show jsTrim (S " offshore") = S "offshore" by decide]
  rw [jsTrim_space_vendor hv]
  rw [show List.filter (fun p => !List.isEmpty p) [S "contractor", S "offshore", v]
      = [S "contractor", S "offshore", v] by
    simp only [List.filter_cons, List.filter_nil, isEmpty_false_of_ne hv.2.1,
      Bool.not_false, if_true, show (S "contractor").isEmpty = false from rfl,
      show (S "offshore").isEmpty = false from rfl]]
  rw [List.foldl_cons]
  rw [show parsePropsStep (employee, onshore, none) (S "contractor")
    = (contractor, onshore, none) from by decide]
  rw [List.foldl_cons]
  rw [show parsePropsStep (contractor, onshore, none) (S "offshore")
    = (contractor, offshore, none) from by decide]
  rw [List.foldl_cons, List.foldl_nil]
  rw [parsePropsStep_vendor hv (contractor, offshore, none)]
  rfl

theorem parseProps_propsInner {p : PersonI} (hg : goodPerson p) (ht : p.type = contractor)
    {l : Location} (hl : p.location = some l) :
    parseProps ('[' :: (propsInner p ++ [']'])) = (contractor, l, p.vendor) := by
  have hvgood : ∀ v, p.vendor = some v → goodVendor v := hg.2.1
  unfold propsInner propsParts
  rw [hl]
  dsimp only
  cases hpv : p.vendor with
  | none =>
    cases l with
    | onshore =>
      rw [if_neg (show ¬ onshore ≠ onshore by simp)]
      exact parseProps_c1
    | nearshore =>
      rw [if_pos (show nearshore ≠ onshore by simp)]
      exact parseProps_c2
    | offshore =>
      rw [if_pos (show offshore ≠ onshore by simp)]
      exact parseProps_c3
  | some v =>
    have hv := hvgood v hpv
    try dsimp only
    rw [if_pos (show (!v.isEmpty) = true by rw [isEmpty_false_of_ne hv.2.1]; rfl)]
    cases l with
    | onshore =>
      rw [if_neg (show ¬ onshore ≠ onshore by simp)]
      exact parseProps_vendor_onshore hv
    | nearshore =>
      rw [if_pos (show nearshore ≠ onshore by simp)]
      exact parseProps_vendor_nearshore hv
    | offshore =>
      rw [if_pos (show offshore ≠ onshore by simp)]
      exact parseProps_vendor_offshore hv

theorem propsInner_no_rb {p : PersonI} (hg : goodPerson p) {l : Location}
    (hl : p.location = some l) : ']' ∉ propsInner p := by
  have hvgood : ∀ v, p.vendor = some v → goodVendor v := hg.2.1
  unfold propsInner propsParts
  rw [hl]
  dsimp only
  cases hpv : p.vendor with
  | none =>
    cases l with
    | onshore =>
      rw [if_neg (show ¬ onshore ≠ onshore by simp)]
      decide
    | nearshore =>
      rw [if_pos (show nearshore ≠ onshore by simp)]
      decide
    | offshore =>
      rw [if_pos (show offshore ≠ onshore by simp)]
      decide
  | some v =>
    have hv := hvgood v hpv
    try dsimp only
    rw [if_pos (show (!v.isEmpty) = true by rw [isEmpty_false_of_ne hv.2.1]; rfl)]
    cases l with
    | onshore =>
      rw [if_neg (show ¬ onshore ≠ onshore by simp)]
      intro hc
      rw [show joinSep (S ", ") ([S "contractor"] ++ [v]) = S "contractor, " ++ v from rfl] at hc
      rcases List.mem_append.mp hc with h | h
      · exact absurd h (by decide)
      · exact hv.2.2.2.2.1 h
    | nearshore =>
      rw [if_pos (show nearshore ≠ onshore by simp)]
      intro hc
      rw [show joinSep (S ", ") ([S "contractor"] ++ [locationStr nearshore] ++ [v])
        = S "contractor, nearshore, " ++ v from rfl] at hc
      rcases List.mem_append.mp hc with h | h
      · exact absurd h (by decide)
      · exact hv.2.2.2.2.1 h
    | offshore =>
      rw [if_pos (show offshore ≠ onshore by simp)]
      intro hc
      rw [show joinSep (S ", ") ([S "contractor"] ++ [locationStr offshore] ++ [v])
        = S "contractor, offshore, " ++ v from rfl] at hc
      rcases List.mem_append.mp hc with h | h
      · exact absurd h (by decide)
      · exact hv.2.2.2.2.1 h

/-! ### Person-line round trips -/

theorem roleLabel_facts (r : Role) :
    jsTrim (ROLE_LABELS r) = ROLE_LABELS r ∧ ROLE_LABELS r ≠ []
    ∧ '[' ∉ ROLE_LABELS r ∧ ',' ∉ ROLE_LABELS r
    ∧ roleFromLabel (lowerStr (ROLE_LABELS r)) = some r := by
  cases r <;> exact ⟨by decide, by decide, by decide, by decide, by decide⟩

theorem roleLabel_trimmedNE (r : Role) : TrimmedNE (ROLE_LABELS r) :=
  trimmedNE_of_jsTrim (roleLabel_facts r).1 (roleLabel_facts r).2.1

theorem goodPersonName_trimmedNE {n : Str} (h : goodPersonName n) : TrimmedNE n :=
  trimmedNE_of_jsTrim h.1 h.2.1

/-- `extractProps` on bracket-free text. -/
theorem extractProps_nobracket {s : Str} (h : '[' ∉ s) :
    extractProps s = (s, (employee, onshore, none)) := by
  unfold extractProps
  rw [bracketSplit_no_open h]

/-- `extractProps` on `main ++ personProps p` for a good contractor. -/
theorem extractProps_contractor {main : Str} {p : PersonI} (hmain : TrimmedNE main)
    (hnb : '[' ∉ main) (hg : goodPerson p) (ht : p.type = contractor)
    {l : Location} (hl : p.location = some l) :
    extractProps (main ++ personProps p) = (main, (contractor, l, p.vendor)) := by
  rw [personProps_contractor ht]
  unfold extractProps
  have hshape : main ++ (S " [" ++ propsInner p ++ S "]")
      = (main ++ [' ']) ++ '[' :: (propsInner p ++ [']']) := by
    rw [show S " [" = [' ', '['] from rfl, show S "]" = [']'] from rfl]
    simp
  rw [hshape]
  have hopen : '[' ∉ main ++ [' '] := by
    intro hc
    rcases List.mem_append.mp hc with h | h
    · exact hnb h
    · rw [List.mem_singleton] at h
      exact absurd h (by decide)
  rw [bracketSplit_append hopen (propsInner_no_rb hg hl)]
  have hws : ∀ c ∈ [' '], jsWhitespace c = true := by
    intro c hc
    rw [List.mem_singleton] at hc
    subst hc
    decide
  dsimp only
  rw [jsTrim_append_ws hmain hws]
  exact congrArg (fun z => (main, z)) (parseProps_propsInner hg ht hl)

/-- The extraction outcome on a generated member main part, both
employee and contractor cases: the main part survives and the
properties are the person's. -/
theorem extractProps_member {main : Str} {p : PersonI} (hmain : TrimmedNE main)
    (hnb : '[' ∉ main) (hg : goodPerson p) {l : Location} (hl : p.location = some l)
    (hemp : p.type = employee → l = onshore ∧ p.vendor = none) :
    extractProps (main ++ personProps p) = (main, (p.type, l, p.vendor)) := by
  cases htype : p.type with
  | employee =>
    rw [personProps_employee htype, List.append_nil]
    rw [extractProps_nobracket hnb]
    obtain ⟨honsh, hven⟩ := hemp htype
    rw [honsh, hven]
  | contractor =>
    rw [extractProps_contractor hmain hnb hg htype hl]

theorem personProps_ne_or_nil (p : PersonI) :
    personProps p = [] ∨
      (personProps p = S " [" ++ propsInner p ++ S "]" ∧ p.type = contractor) := by
  cases htype : p.type with
  | employee => exact Or.inl (personProps_employee htype)
  | contractor => exact Or.inr ⟨personProps_contractor htype, rfl⟩

theorem trimmedNE_main_props {main : Str} (p : PersonI) (hm : TrimmedNE main) :
    TrimmedNE (main ++ personProps p) := by
  cases htype : p.type with
  | employee =>
    rw [personProps_employee htype, List.append_nil]
    exact hm
  | contractor =>
    rw [personProps_contractor htype]
    refine ⟨headNotWs_append hm.1 hm.2.2, ?_, by simp [hm.2.2]⟩
    rw [show S "]" = [']'] from rfl]
    refine lastNotWs_append ?_ (by simp)
    refine lastNotWs_append (by unfold lastNotWs; decide) (by decide)

theorem namedMain_facts {n : Str} (hn : goodPersonName n) (r : Role) :
    quantityMatch (n ++ S ", " ++ ROLE_LABELS r) = none
    ∧ lastIndexOfChar ',' (n ++ S ", " ++ ROLE_LABELS r) = some n.length
    ∧ jsTrim ((n ++ S ", " ++ ROLE_LABELS r).take n.length) = n
    ∧ jsTrim ((n ++ S ", " ++ ROLE_LABELS r).drop (n.length + 1)) = ROLE_LABELS r := by
  obtain ⟨htr, hne, hnl, hcm, hob, hcb, hqm, hrl⟩ := hn
  have hnt := goodPersonName_trimmedNE ⟨htr, hne, hnl, hcm, hob, hcb, hqm, hrl⟩
  have hlf := roleLabel_facts r
  have hlt := roleLabel_trimmedNE r
  have hshape : n ++ S ", " ++ ROLE_LABELS r = n ++ ',' :: (' ' :: ROLE_LABELS r) := by
    rw [show S ", " = [',', ' '] from rfl]
    simp
  have hcl : ',' ∉ ' ' :: ROLE_LABELS r := by
    intro hc
    rcases List.mem_cons.mp hc with h | h
    · exact absurd h (by decide)
    · exact hlf.2.2.2.1 h
  refine ⟨?_, ?_, ?_, ?_⟩
  · rw [hshape]
    exact quantityMatch_extend hqm hne hnt.2.1
  · rw [hshape]
    exact lastIndexOfChar_append hcm hcl
  · rw [hshape]
    rw [show (n ++ ',' :: (' ' :: ROLE_LABELS r)).take n.length = n from List.take_left n _]
    exact htr
  · rw [hshape]
    rw [show (n ++ ',' :: (' ' :: ROLE_LABELS r)).drop (n.length + 1)
      = ' ' :: ROLE_LABELS r from List.drop_append 1]
    exact jsTrim_ws_append (w := [' ']) (by
      intro c hc
      rw [List.mem_singleton] at hc
      subst hc
      decide) hlt

theorem goodPerson_emp_loc {p : PersonI} (hg : goodPerson p) {l : Location}
    (hl : p.location = some l) :
    p.type = employee → l = onshore ∧ p.vendor = none := by
  intro ht
  obtain ⟨honsh, hven⟩ := hg.2.2.2 ht
  rw [hl] at honsh
  exact ⟨Option.some.inj honsh, hven⟩

theorem parsePersonLine_named {p : PersonI} (hg : goodPerson p) {n : Str}
    (hname : p.name = some n) {l : Location} (hl : p.location = some l) :
    parsePersonLine (namedPersonLine p)
      = { persons := [{ name := some n, role := p.role, type := p.type,
                        location := some l, vendor := p.vendor }], error := none } := by
  have hn := hg.1 n hname
  have hnt := goodPersonName_trimmedNE hn
  have hlf := roleLabel_facts p.role
  have hlt := roleLabel_trimmedNE p.role
  have hmf := namedMain_facts hn p.role
  have hcontent : namedPersonLine p = (n ++ S ", " ++ ROLE_LABELS p.role) ++ personProps p := by
    unfold namedPersonLine nameOrUnnamed
    rw [hname]
    dsimp only
    rw [isEmpty_false_of_ne hn.2.1]
    simp
  have hmt : TrimmedNE (n ++ S ", " ++ ROLE_LABELS p.role) := by
    refine ⟨?_, ?_, ?_⟩
    · exact headNotWs_append (headNotWs_append hnt.1 hnt.2.2) (by
        intro hc
        exact hnt.2.2 (List.append_eq_nil.mp hc).1)
    · exact lastNotWs_append hlt.2.1 hlf.2.1
    · intro hc
      exact hlf.2.1 (List.append_eq_nil.mp hc).2
  have hnb : '[' ∉ n ++ S ", " ++ ROLE_LABELS p.role := by
    intro hc
    rcases List.mem_append.mp hc with h | h
    · rcases List.mem_append.mp h with h2 | h2
      · exact hn.2.2.2.2.1 h2
      · exact absurd h2 (by decide)
    · exact hlf.2.2.1 h
  rw [hcontent]
  unfold parsePersonLine
  rw [jsTrim_of_trimmedNE (trimmedNE_main_props p hmt)]
  dsimp only
  rw [isEmpty_false_of_ne (trimmedNE_main_props p hmt).2.2]
  simp only [Bool.false_eq_true, if_false]
  rw [extractProps_member hmt hnb hg hl (goodPerson_emp_loc hg hl)]
  dsimp only
  rw [hmf.1]
  try dsimp only
  rw [hmf.2.1]
  try dsimp only
  rw [hmf.2.2.1, hmf.2.2.2]
  rw [hlf.2.2.2.2]

theorem parsePersonLine_unnamed {p : PersonI} (hg : goodPerson p) {l : Location}
    (hl : p.location = some l) :
    parsePersonLine (ROLE_LABELS p.role ++ personProps p)
      = { persons := [{ name := none, role := p.role, type := p.type,
                        location := some l, vendor := p.vendor }], error := none } := by
  have hlf := roleLabel_facts p.role
  have hlt := roleLabel_trimmedNE p.role
  unfold parsePersonLine
  rw [jsTrim_of_trimmedNE (trimmedNE_main_props p hlt)]
  dsimp only
  rw [isEmpty_false_of_ne (trimmedNE_main_props p hlt).2.2]
  simp only [Bool.false_eq_true, if_false]
  rw [extractProps_member hlt hlf.2.2.1 hg hl (goodPerson_emp_loc hg hl)]
  dsimp only
  rw [quantityMatch_roleLabel p.role]
  try dsimp only
  rw [lastIndexOfChar_not_mem hlf.2.2.2.1]
  try dsimp only
  rw [hlf.2.2.2.2]

theorem quantityMatch_generated {count : Nat} {label : Str} (hlab : TrimmedNE label) :
    quantityMatch ((natToStr count ++ S "x ") ++ label) = some (count, label) := by
  unfold quantityMatch
  have hshape : (natToStr count ++ S "x ") ++ label = natToStr count ++ 'x' :: (' ' :: label) := by
    rw [show S "x " = ['x', ' '] from rfl]
    simp
  rw [hshape]
  rw [takeWhile_append_stop (natToStr_all_digits count) (by decide)]
  dsimp only
  rw [isEmpty_false_of_ne (natToStr_ne_nil count)]
  simp only [Bool.false_eq_true, if_false]
  rw [List.drop_left]
  dsimp only
  rw [if_pos (Or.inl rfl : 'x' = 'x' ∨ 'x' = 'X')]
  rw [show List.takeWhile jsWhitespace (' ' :: label) = [' '] by
    rw [List.takeWhile_cons, show jsWhitespace ' ' = true from rfl]
    simp only [if_true]
    rw [takeWhile_nil_of_headNotWs hlab.1]]
  rw [show (([' '] : Str).isEmpty) = false from rfl]
  simp only [Bool.false_eq_true, if_false]
  rw [show (' ' :: label).drop ([' '] : Str).length = label from rfl]
  rw [isEmpty_false_of_ne hlab.2.2]
  simp only [Bool.false_eq_true, if_false]
  rw [parseNatDigits_natToStr]

theorem natToStrx_no_open (count : Nat) : '[' ∉ natToStr count ++ S "x " := by
  intro hc
  rcases List.mem_append.mp hc with h | h
  · exact absurd (natToStr_all_digits count '[' h) (by decide)
  · rcases List.mem_cons.mp h with h2 | h2
    · exact absurd h2 (by decide)
    · rcases List.mem_cons.mp h2 with h3 | h3
      · exact absurd h3 (by decide)
      · cases h3

theorem parsePersonLine_quantity {p : PersonI} (hg : goodPerson p) {l : Location}
    (hl : p.location = some l) (count : Nat) :
    parsePersonLine ((natToStr count ++ S "x ") ++ ROLE_LABELS p.role ++ personProps p)
      = { persons := List.replicate count
            { name := none, role := p.role, type := p.type,
              location := some l, vendor := p.vendor }, error := none } := by
  have hlf := roleLabel_facts p.role
  have hlt := roleLabel_trimmedNE p.role
  have hnt := natToStr_trimmedNE count
  have hmt : TrimmedNE ((natToStr count ++ S "x ") ++ ROLE_LABELS p.role) := by
    refine ⟨?_, ?_, ?_⟩
    · exact headNotWs_append (headNotWs_append hnt.1 hnt.2.2) (by
        intro hc
        exact hnt.2.2 (List.append_eq_nil.mp hc).1)
    · exact lastNotWs_append hlt.2.1 hlf.2.1
    · intro hc
      exact hlf.2.1 (List.append_eq_nil.mp hc).2
  have hnb : '[' ∉ (natToStr count ++ S "x ") ++ ROLE_LABELS p.role := by
    intro hc
    rcases List.mem_append.mp hc with h | h
    · exact natToStrx_no_open count h
    · exact hlf.2.2.1 h
  unfold parsePersonLine
  rw [show (natToStr count ++ S "x ") ++ ROLE_LABELS p.role ++ personProps p
    = ((natToStr count ++ S "x ") ++ ROLE_LABELS p.role) ++ personProps p by simp]
  rw [jsTrim_of_trimmedNE (trimmedNE_main_props p hmt)]
  dsimp only
  rw [isEmpty_false_of_ne (trimmedNE_main_props p hmt).2.2]
  simp only [Bool.false_eq_true, if_false]
  rw [extractProps_member hmt hnb hg hl (goodPerson_emp_loc hg hl)]
  dsimp only
  rw [quantityMatch_generated hlt]
  try dsimp only
  rw [hlf.1, hlf.2.2.2.2]

theorem parsePersonLine_leaderName {p : PersonI} (hg : goodPerson p) {n : Str}
    (hn : goodPersonName n) {l : Location} (hl : p.location = some l) :
    parsePersonLine (n ++ personProps p)
      = { persons := [], error := some (S "Unknown role \"" ++ n ++ S "\"") } := by
  have hnt := goodPersonName_trimmedNE hn
  unfold parsePersonLine
  rw [jsTrim_of_trimmedNE (trimmedNE_main_props p hnt)]
  dsimp only
  rw [isEmpty_false_of_ne (trimmedNE_main_props p hnt).2.2]
  simp only [Bool.false_eq_true, if_false]
  rw [extractProps_member hnt hn.2.2.2.2.1 hg hl (goodPerson_emp_loc hg hl)]
  dsimp only
  rw [hn.2.2.2.2.2.2.1]
  try dsimp only
  rw [lastIndexOfChar_not_mem hn.2.2.2.1]
  try dsimp only
  rw [hn.2.2.2.2.2.2.2]

theorem parseLeadershipLine_generated {p : PersonI} {r : Role} (hg : goodPerson p)
    {n : Str} (hname : p.name = some n) {l : Location} (hl : p.location = some l)
    (pre : Str) :
    parseLeadershipLine (pre ++ ' ' :: leaderPersonLine p) pre r
      = { person := some { name := some n, role := r, type := p.type,
                           location := some l, vendor := p.vendor }, error := none } := by
  have hn := hg.1 n hname
  have hnt := goodPersonName_trimmedNE hn
  have hrest : leaderPersonLine p = n ++ personProps p := by
    unfold leaderPersonLine nameOrUnnamed
    rw [hname]
    dsimp only
    rw [isEmpty_false_of_ne hn.2.1]
    simp
  unfold parseLeadershipLine
  rw [hrest]
  rw [show (pre ++ ' ' :: (n ++ personProps p)).drop pre.length = ' ' :: (n ++ personProps p)
    from List.drop_left pre _]
  rw [show jsTrim (' ' :: (n ++ personProps p)) = n ++ personProps p from
    jsTrim_ws_append (w := [' ']) (by
      intro c hc
      rw [List.mem_singleton] at hc
      subst hc
      decide) (trimmedNE_main_props p hnt)]
  dsimp only
  rw [isEmpty_false_of_ne (trimmedNE_main_props p hnt).2.2]
  simp only [Bool.false_eq_true, if_false]
  rw [parsePersonLine_leaderName hg hn hl]
  dsimp only
  rw [extractProps_member hnt hn.2.2.2.2.1 hg hl (goodPerson_emp_loc hg hl)]
  dsimp only
  rw [stripTrailingComma_of_no_comma hn.2.2.2.1]
  rw [jsTrim_of_trimmedNE hnt]
  rw [isEmpty_false_of_ne hn.2.1]
  simp

/-! ### Line dispatch -/

theorem processLine_blank (supply : Nat → Str) (st : MdState) (n : Nat) :
    processLine supply st n [] = st := rfl

/-- The generated portfolio heading sets the name and target. -/
theorem processLine_heading (supply : Nat → Str) (st : MdState) (n : Nat)
    {pname : Str} (hp : goodLabel pname) (t : Nat) :
    processLine supply st n
        (S "# " ++ (pname ++ S " (" ++ natToStr t ++ S "% onshore target)"))
      = { st with onshoreTarget := t, portfolioName := some pname } := by
  have hpt := trimmedNE_of_goodLabel hp
  have hX : TrimmedNE (pname ++ S " (" ++ natToStr t ++ S "% onshore target)") := by
    refine ⟨?_, ?_, ?_⟩
    · refine headNotWs_append (headNotWs_append (headNotWs_append hpt.1 hpt.2.2) ?_) ?_
      · intro hc
        exact hpt.2.2 (List.append_eq_nil.mp hc).1
      · intro hc
        exact hpt.2.2 (List.append_eq_nil.mp (List.append_eq_nil.mp hc).1).1
    · exact lastNotWs_append (by unfold lastNotWs; decide) (by decide)
    · intro hc
      exact absurd (List.append_eq_nil.mp hc).2 (by decide)
  have hline : S "# " ++ (pname ++ S " (" ++ natToStr t ++ S "% onshore target)")
      = List.replicate 1 '#' ++ ' ' :: (pname ++ S " (" ++ natToStr t
        ++ S "% onshore target)") := by
    rw [show S "# " = ['#', ' '] from rfl]
    simp
  have hh1 : matchHashHeading 1 (List.replicate 1 '#' ++ ' ' :: (pname ++ S " ("
      ++ natToStr t ++ S "% onshore target)"))
      = some (pname ++ S " (" ++ natToStr t ++ S "% onshore target)") := by
    rw [matchHashHeading_generated (by omega) (by omega) hX]
    simp
  have hlineT : TrimmedNE (List.replicate 1 '#' ++ ' ' :: (pname ++ S " ("
      ++ natToStr t ++ S "% onshore target)")) := by
    refine ⟨headNotWs_cons (by decide), ?_, by simp⟩
    refine lastNotWs_append (b := ' ' :: _) ?_ (by simp)
    rw [show (' ' :: (pname ++ S " (" ++ natToStr t ++ S "% onshore target)"))
      = [' '] ++ (pname ++ S " (" ++ natToStr t ++ S "% onshore target)") from rfl]
    exact lastNotWs_append hX.2.1 hX.2.2
  have hshape : pname ++ S " (" ++ natToStr t ++ S "% onshore target)"
      = (pname ++ [' ']) ++ ('(' :: (natToStr t ++ S "% onshore target)")) := by
    rw [show S " (" = [' ', '('] from rfl]
    simp
  have hfind : findTargetSuffix (pname ++ S " (" ++ natToStr t ++ S "% onshore target)")
      = some (pname.length + 1, t) := by
    rw [hshape]
    rw [findTargetSuffix_before (pname ++ [' '])
      (by rw [matchParenTargetHere_digits (natToStr_ne_nil t) (natToStr_all_digits t),
            parseNatDigits_natToStr])
      (Or.inr (by simp))]
    simp
  have htake : (pname ++ S " (" ++ natToStr t ++ S "% onshore target)").take
      (pname.length + 1) = pname ++ [' '] := by
    rw [hshape]
    rw [show pname.length + 1 = (pname ++ [' ']).length by simp]
    exact List.take_left _ _
  unfold processLine
  rw [hline]
  rw [jsTrim_of_trimmedNE hlineT]
  dsimp only
  rw [isEmpty_false_of_ne hlineT.2.2]
  simp only [Bool.false_eq_true, if_false]
  rw [hh1]
  rw [if_pos (show ((some (pname ++ S " (" ++ natToStr t
        ++ S "% onshore target)")).isSome = true)
      ∧ ¬ strStartsWith (List.replicate 1 '#' ++ ' ' :: (pname ++ S " ("
        ++ natToStr t ++ S "% onshore target)")) (S "##") = true from
    ⟨rfl, fun hc => Bool.false_ne_true hc⟩)]
  try dsimp only
  rw [Option.getD_some]
  rw [jsTrim_of_trimmedNE hX]
  rw [hfind]
  dsimp only
  rw [htake]
  rw [jsTrim_append_ws hpt (by
    intro c hc
    rw [List.mem_singleton] at hc
    subst hc
    decide)]

instance (s : Str) : Decidable (headNotWs s) := by
  unfold headNotWs
  infer_instance

instance (s : Str) : Decidable (lastNotWs s) := by
  unfold lastNotWs
  infer_instance

instance (s : Str) : Decidable (TrimmedNE s) := by
  unfold TrimmedNE
  infer_instance

theorem matchHashHeading_none_head' {n : Nat} {s : Str} {c : Char} (hn : n ≠ 0)
    (hs : s.head? = some c) (hc : c ≠ '#') : matchHashHeading n s = none := by
  refine matchHashHeading_none_head hn ?_
  intro d t hdt
  rw [hdt] at hs
  simp only [List.head?_cons, Option.some.injEq] at hs
  rw [hs]
  exact hc

theorem leaderPersonLine_named {p : PersonI} {n : Str} (hn : goodPersonName n)
    (hname : p.name = some n) : leaderPersonLine p = n ++ personProps p := by
  unfold leaderPersonLine nameOrUnnamed
  rw [hname]
  dsimp only
  rw [isEmpty_false_of_ne hn.2.1]
  simp

/-- A `Head of Engineering:` line in portfolio context. -/
theorem processLine_hoe (supply : Nat → Str) (st : MdState) (n : Nat)
    {p : PersonI} (hg : goodPerson p) {nm : Str} (hname : p.name = some nm)
    {l : Location} (hl : p.location = some l)
    (hdiv : st.curDivision = none) (hgr : st.curGroup = none) :
    processLine supply st n (S "Head of Engineering: " ++ leaderPersonLine p)
      = { st with
            hoe := some { id := supply st.ctr, name := some nm,
                          role := head_of_engineering, type := p.type,
                          vendor := p.vendor, location := some l }
            ctr := st.ctr + 1 } := by
  have hn := hg.1 nm hname
  have hnt := goodPersonName_trimmedNE hn
  have hrest := leaderPersonLine_named hn hname
  have hrt : TrimmedNE (leaderPersonLine p) := by
    rw [hrest]
    exact trimmedNE_main_props p hnt
  have hshape : S "Head of Engineering: " ++ leaderPersonLine p
      = S "Head of Engineering:" ++ ' ' :: leaderPersonLine p := by
    rw [show S "Head of Engineering: " = S "Head of Engineering:" ++ [' '] from rfl]
    simp
  have hlineT : TrimmedNE (S "Head of Engineering:" ++ ' ' :: leaderPersonLine p) := by
    refine ⟨headNotWs_append (by decide) (by decide), ?_, by simp⟩
    refine lastNotWs_append (b := ' ' :: leaderPersonLine p) ?_ (by simp)
    rw [show ' ' :: leaderPersonLine p = [' '] ++ leaderPersonLine p from rfl]
    exact lastNotWs_append hrt.2.1 hrt.2.2
  have hhead : (S "Head of Engineering:" ++ ' ' :: leaderPersonLine p).head? = some 'H' :=
    rfl
  rw [hshape]
  unfold processLine
  rw [jsTrim_of_trimmedNE hlineT]
  dsimp only
  rw [isEmpty_false_of_ne hlineT.2.2]
  simp only [Bool.false_eq_true, if_false]
  rw [matchHashHeading_none_head' (n := 1) (by omega) hhead (by decide)]
  rw [if_neg (fun hand => Bool.false_ne_true hand.1)]
  rw [matchHashHeading_none_head' (n := 4) (by omega) hhead (by decide)]
  try dsimp only
  rw [matchHashHeading_none_head' (n := 3) (by omega) hhead (by decide)]
  try dsimp only
  rw [matchHashHeading_none_head' (n := 2) (by omega) hhead (by decide)]
  try dsimp only
  rw [if_pos (show st.curDivision.isNone = true ∧ st.curGroup.isNone = true from
    ⟨by rw [hdiv]; rfl, by rw [hgr]; rfl⟩)]
  rw [matchPrefixCI_literal_space (by decide) (by decide) hrt.1 hrt.2.2]
  try dsimp only
  rw [parseLeadershipLine_generated hg hname hl (S "Head of Engineering:")]
  try dsimp only
  rfl

theorem matchPrefixCI_none_head' {pre s : Str} {p0 c : Char}
    (hpre : pre.head? = some p0) (hs : s.head? = some c) (h : asciiLowerChar c ≠ p0) :
    matchPrefixCI pre s = none := by
  refine matchPrefixCI_none_take ?_
  cases s with
  | nil => cases hs
  | cons a t =>
    cases pre with
    | nil => cases hpre
    | cons b q =>
      simp only [List.head?_cons, Option.some.injEq] at hs hpre
      intro hc
      rw [show lowerStr (a :: t) = asciiLowerChar a :: lowerStr t from rfl] at hc
      rw [List.length_cons, List.take_succ_cons] at hc
      rw [hs, hpre] at hc
      exact h (List.cons.inj hc).1

/-- A `Principal Engineer:` line in portfolio context. -/
theorem processLine_pe (supply : Nat → Str) (st : MdState) (n : Nat)
    {p : PersonI} (hg : goodPerson p) {nm : Str} (hname : p.name = some nm)
    {l : Location} (hl : p.location = some l)
    (hdiv : st.curDivision = none) (hgr : st.curGroup = none) :
    processLine supply st n (S "Principal Engineer: " ++ leaderPersonLine p)
      = { st with
            pes := st.pes ++ [{ id := supply st.ctr, name := some nm,
                                role := principal_engineer, type := p.type,
                                vendor := p.vendor, location := some l }]
            ctr := st.ctr + 1 } := by
  have hn := hg.1 nm hname
  have hnt := goodPersonName_trimmedNE hn
  have hrest := leaderPersonLine_named hn hname
  have hrt : TrimmedNE (leaderPersonLine p) := by
    rw [hrest]
    exact trimmedNE_main_props p hnt
  have hshape : S "Principal Engineer: " ++ leaderPersonLine p
      = S "Principal Engineer:" ++ ' ' :: leaderPersonLine p := by
    rw [show S "Principal Engineer: " = S "Principal Engineer:" ++ [' '] from rfl]
    simp
  have hlineT : TrimmedNE (S "Principal Engineer:" ++ ' ' :: leaderPersonLine p) := by
    refine ⟨headNotWs_append (by decide) (by decide), ?_, by simp⟩
    refine lastNotWs_append (b := ' ' :: leaderPersonLine p) ?_ (by simp)
    rw [show ' ' :: leaderPersonLine p = [' '] ++ leaderPersonLine p from rfl]
    exact lastNotWs_append hrt.2.1 hrt.2.2
  have hhead : (S "Principal Engineer:" ++ ' ' :: leaderPersonLine p).head? = some 'P' :=
    rfl
  rw [hshape]
  unfold processLine
  rw [jsTrim_of_trimmedNE hlineT]
  dsimp only
  rw [isEmpty_false_of_ne hlineT.2.2]
  simp only [Bool.false_eq_true, if_false]
  rw [matchHashHeading_none_head' (n := 1) (by omega) hhead (by decide)]
  rw [if_neg (fun hand => Bool.false_ne_true hand.1)]
  rw [matchHashHeading_none_head' (n := 4) (by omega) hhead (by decide)]
  try dsimp only
  rw [matchHashHeading_none_head' (n := 3) (by omega) hhead (by decide)]
  try dsimp only
  rw [matchHashHeading_none_head' (n := 2) (by omega) hhead (by decide)]
  try dsimp only
  rw [if_pos (show st.curDivision.isNone = true ∧ st.curGroup.isNone = true from
    ⟨by rw [hdiv]; rfl, by rw [hgr]; rfl⟩)]
  rw [@matchPrefixCI_none_head' (S "head of engineering:") _ 'h' 'P' rfl hhead (by decide)]
  try dsimp only
  rw [matchPrefixCI_literal_space (by decide) (by decide) hrt.1 hrt.2.2]
  try dsimp only
  rw [parseLeadershipLine_generated hg hname hl (S "Principal Engineer:")]
  try dsimp only
  rfl

/-- A `Manager:` line inside a group. -/
theorem processLine_manager (supply : Nat → Str) (st : MdState) (n : Nat)
    {p : PersonI} (hg : goodPerson p) {nm : Str} (hname : p.name = some nm)
    {l : Location} (hl : p.location = some l) {g : GroupI} (hgr : st.curGroup = some g) :
    processLine supply st n (S "Manager: " ++ leaderPersonLine p)
      = { st with
            curGroup := some { g with
              manager := some { id := supply st.ctr, name := some nm,
                                role := engineering_manager, type := p.type,
                                vendor := p.vendor, location := some l } }
            ctr := st.ctr + 1 } := by
  have hn := hg.1 nm hname
  have hnt := goodPersonName_trimmedNE hn
  have hrest := leaderPersonLine_named hn hname
  have hrt : TrimmedNE (leaderPersonLine p) := by
    rw [hrest]
    exact trimmedNE_main_props p hnt
  have hshape : S "Manager: " ++ leaderPersonLine p
      = S "Manager:" ++ ' ' :: leaderPersonLine p := by
    rw [show S "Manager: " = S "Manager:" ++ [' '] from rfl]
    simp
  have hlineT : TrimmedNE (S "Manager:" ++ ' ' :: leaderPersonLine p) := by
    refine ⟨headNotWs_append (by decide) (by decide), ?_, by simp⟩
    refine lastNotWs_append (b := ' ' :: leaderPersonLine p) ?_ (by simp)
    rw [show ' ' :: leaderPersonLine p = [' '] ++ leaderPersonLine p from rfl]
    exact lastNotWs_append hrt.2.1 hrt.2.2
  have hhead : (S "Manager:" ++ ' ' :: leaderPersonLine p).head? = some 'M' := rfl
  rw [hshape]
  unfold processLine
  rw [jsTrim_of_trimmedNE hlineT]
  dsimp only
  rw [isEmpty_false_of_ne hlineT.2.2]
  simp only [Bool.false_eq_true, if_false]
  rw [matchHashHeading_none_head' (n := 1) (by omega) hhead (by decide)]
  rw [if_neg (fun hand => Bool.false_ne_true hand.1)]
  rw [matchHashHeading_none_head' (n := 4) (by omega) hhead (by decide)]
  try dsimp only
  rw [matchHashHeading_none_head' (n := 3) (by omega) hhead (by decide)]
  try dsimp only
  rw [matchHashHeading_none_head' (n := 2) (by omega) hhead (by decide)]
  try dsimp only
  rw [if_neg (fun hand => by
    have h2 := hand.2
    rw [hgr] at h2
    exact Bool.false_ne_true h2)]
  try dsimp only
  rw [matchPrefixCI_literal_space (by decide) (by decide) hrt.1 hrt.2.2]
  try dsimp only
  rw [hgr]
  try dsimp only
  rw [parseLeadershipLine_generated hg hname hl (S "Manager:")]
  try dsimp only
  rfl

/-- A `Staff:` line inside a group. -/
theorem processLine_staff (supply : Nat → Str) (st : MdState) (n : Nat)
    {p : PersonI} (hg : goodPerson p) {nm : Str} (hname : p.name = some nm)
    {l : Location} (hl : p.location = some l) {g : GroupI} (hgr : st.curGroup = some g) :
    processLine supply st n (S "Staff: " ++ leaderPersonLine p)
      = { st with
            curGroup := some { g with
              staffEngineers := g.staffEngineers
                ++ [{ id := supply st.ctr, name := some nm,
                      role := staff_engineer, type := p.type,
                      vendor := p.vendor, location := some l }] }
            ctr := st.ctr + 1 } := by
  have hn := hg.1 nm hname
  have hnt := goodPersonName_trimmedNE hn
  have hrest := leaderPersonLine_named hn hname
  have hrt : TrimmedNE (leaderPersonLine p) := by
    rw [hrest]
    exact trimmedNE_main_props p hnt
  have hshape : S "Staff: " ++ leaderPersonLine p
      = S "Staff:" ++ ' ' :: leaderPersonLine p := by
    rw [show S "Staff: " = S "Staff:" ++ [' '] from rfl]
    simp
  have hlineT : TrimmedNE (S "Staff:" ++ ' ' :: leaderPersonLine p) := by
    refine ⟨headNotWs_append (by decide) (by decide), ?_, by simp⟩
    refine lastNotWs_append (b := ' ' :: leaderPersonLine p) ?_ (by simp)
    rw [show ' ' :: leaderPersonLine p = [' '] ++ leaderPersonLine p from rfl]
    exact lastNotWs_append hrt.2.1 hrt.2.2
  have hhead : (S "Staff:" ++ ' ' :: leaderPersonLine p).head? = some 'S' := rfl
  rw [hshape]
  unfold processLine
  rw [jsTrim_of_trimmedNE hlineT]
  dsimp only
  rw [isEmpty_false_of_ne hlineT.2.2]
  simp only [Bool.false_eq_true, if_false]
  rw [matchHashHeading_none_head' (n := 1) (by omega) hhead (by decide)]
  rw [if_neg (fun hand => Bool.false_ne_true hand.1)]
  rw [matchHashHeading_none_head' (n := 4) (by omega) hhead (by decide)]
  try dsimp only
  rw [matchHashHeading_none_head' (n := 3) (by omega) hhead (by decide)]
  try dsimp only
  rw [matchHashHeading_none_head' (n := 2) (by omega) hhead (by decide)]
  try dsimp only
  rw [if_neg (fun hand => by
    have h2 := hand.2
    rw [hgr] at h2
    exact Bool.false_ne_true h2)]
  try dsimp only
  rw [@matchPrefixCI_none_head' (S "manager:") _ 'm' 'S' rfl hhead (by decide)]
  try dsimp only
  rw [@matchPrefixCI_none_head' (S "managed by:") _ 'm' 'S' rfl hhead (by decide)]
  try dsimp only
  rw [matchPrefixCI_literal_space (by decide) (by decide) hrt.1 hrt.2.2]
  try dsimp only
  rw [hgr]
  try dsimp only
  rw [parseLeadershipLine_generated hg hname hl (S "Staff:")]
  try dsimp only
  rfl

/-- A `Managed by:` line inside a group. -/
theorem processLine_managedBy (supply : Nat → Str) (st : MdState) (n : Nat)
    {mb : Str} (hmb : TrimmedNE mb) {g : GroupI} (hgr : st.curGroup = some g) :
    processLine supply st n (S "Managed by: " ++ mb)
      = { st with curGroup := some { g with managedBy := some mb } } := by
  have hshape : S "Managed by: " ++ mb = S "Managed by:" ++ ' ' :: mb := by
    rw [show S "Managed by: " = S "Managed by:" ++ [' '] from rfl]
    simp
  have hlineT : TrimmedNE (S "Managed by:" ++ ' ' :: mb) := by
    refine ⟨headNotWs_append (by decide) (by decide), ?_, by simp⟩
    refine lastNotWs_append (b := ' ' :: mb) ?_ (by simp)
    rw [show ' ' :: mb = [' '] ++ mb from rfl]
    exact lastNotWs_append hmb.2.1 hmb.2.2
  have hhead : (S "Managed by:" ++ ' ' :: mb).head? = some 'M' := rfl
  rw [hshape]
  unfold processLine
  rw [jsTrim_of_trimmedNE hlineT]
  dsimp only
  rw [isEmpty_false_of_ne hlineT.2.2]
  simp only [Bool.false_eq_true, if_false]
  rw [matchHashHeading_none_head' (n := 1) (by omega) hhead (by decide)]
  rw [if_neg (fun hand => Bool.false_ne_true hand.1)]
  rw [matchHashHeading_none_head' (n := 4) (by omega) hhead (by decide)]
  try dsimp only
  rw [matchHashHeading_none_head' (n := 3) (by omega) hhead (by decide)]
  try dsimp only
  rw [matchHashHeading_none_head' (n := 2) (by omega) hhead (by decide)]
  try dsimp only
  rw [if_neg (fun hand => by
    have h2 := hand.2
    rw [hgr] at h2
    exact Bool.false_ne_true h2)]
  try dsimp only
  rw [@matchPrefixCI_none_take (S "manager:") _ (by
    rw [take_lower_append (by decide)]
    decide)]
  try dsimp only
  rw [matchPrefixCI_literal_space (by decide) (by decide) hmb.1 hmb.2.2]
  try dsimp only
  rw [hgr]
  try dsimp only
  rw [jsTrim_of_trimmedNE hmb]

/-- A list-item member line inside a team. -/
theorem processLine_listItem (supply : Nat → Str) (st : MdState) (n : Nat)
    {content : Str} (hct : TrimmedNE content) {g : GroupI} (hgr : st.curGroup = some g)
    {t : TeamI} (hteam : st.curTeam = some t) {vs : List PersonV}
    (hparse : parsePersonLine content = { persons := vs, error := none }) :
    processLine supply st n (S "- " ++ content)
      = { st with
            curTeam := some { t with members := t.members
              ++ (vs.enum.map (fun q => attachId supply (st.ctr + q.1) q.2)) }
            ctr := st.ctr + vs.length } := by
  have hshape : S "- " ++ content = '-' :: ' ' :: content := rfl
  have hlineT : TrimmedNE ('-' :: ' ' :: content) := by
    refine ⟨headNotWs_cons (by decide), ?_, by simp⟩
    rw [show '-' :: ' ' :: content = ['-', ' '] ++ content from rfl]
    exact lastNotWs_append hct.2.1 hct.2.2
  have hhead : ('-' :: ' ' :: content).head? = some '-' := rfl
  rw [hshape]
  unfold processLine
  rw [jsTrim_of_trimmedNE hlineT]
  dsimp only
  rw [isEmpty_false_of_ne hlineT.2.2]
  simp only [Bool.false_eq_true, if_false]
  rw [matchHashHeading_none_head' (n := 1) (by omega) hhead (by decide)]
  rw [if_neg (fun hand => Bool.false_ne_true hand.1)]
  rw [matchHashHeading_none_head' (n := 4) (by omega) hhead (by decide)]
  try dsimp only
  rw [matchHashHeading_none_head' (n := 3) (by omega) hhead (by decide)]
  try dsimp only
  rw [matchHashHeading_none_head' (n := 2) (by omega) hhead (by decide)]
  try dsimp only
  rw [if_neg (fun hand => by
    have h2 := hand.2
    rw [hgr] at h2
    exact Bool.false_ne_true h2)]
  try dsimp only
  rw [@matchPrefixCI_none_head' (S "manager:") _ 'm' '-' rfl hhead (by decide)]
  try dsimp only
  rw [@matchPrefixCI_none_head' (S "managed by:") _ 'm' '-' rfl hhead (by decide)]
  try dsimp only
  rw [@matchPrefixCI_none_head' (S "staff:") _ 's' '-' rfl hhead (by decide)]
  try dsimp only
  rw [matchListItem_dash hct.1 hct.2.2]
  try dsimp only
  rw [hteam]
  try dsimp only
  rw [hparse]

theorem heading_line_trimmedNE {k : Nat} {x : Str} (hx : TrimmedNE x) (hk : 1 ≤ k) :
    TrimmedNE (List.replicate k '#' ++ ' ' :: x) := by
  refine ⟨?_, ?_, by simp⟩
  · cases k with
    | zero => omega
    | succ m =>
      rw [List.replicate_succ, List.cons_append]
      exact headNotWs_cons (by decide)
  · refine lastNotWs_append (b := ' ' :: x) ?_ (by simp)
    rw [show ' ' :: x = [' '] ++ x from rfl]
    exact lastNotWs_append hx.2.1 hx.2.2

/-- A `## Division:` heading. -/
theorem processLine_division (supply : Nat → Str) (st : MdState) (n : Nat)
    {dname : Str} (hd : goodLabel dname) :
    processLine supply st n (S "## Division: " ++ dname)
      = { finishDivision st with
            curDivision := some { id := supply (finishDivision st).ctr, name := dname,
                                  groups := [] }
            groupInDivision := false
            ctr := (finishDivision st).ctr + 1 } := by
  have hdt := trimmedNE_of_goodLabel hd
  have hX : TrimmedNE (S "Division: " ++ dname) := by
    refine ⟨headNotWs_append (by decide) (by decide), ?_,
      fun hc => hdt.2.2 (List.append_eq_nil.mp hc).2⟩
    exact lastNotWs_append hdt.2.1 hdt.2.2
  have hshape : S "## Division: " ++ dname
      = List.replicate 2 '#' ++ ' ' :: (S "Division: " ++ dname) := by
    rw [show S "## Division: " = ['#', '#', ' '] ++ S "Division: " from rfl]
    simp
  have hlineT : TrimmedNE (List.replicate 2 '#' ++ ' ' :: (S "Division: " ++ dname)) :=
    heading_line_trimmedNE hX (by omega)
  have hX2 : S "Division: " ++ dname = S "Division:" ++ ' ' :: dname := by
    rw [show S "Division: " = S "Division:" ++ [' '] from rfl]
    simp
  rw [hshape]
  unfold processLine
  rw [jsTrim_of_trimmedNE hlineT]
  dsimp only
  rw [isEmpty_false_of_ne hlineT.2.2]
  simp only [Bool.false_eq_true, if_false]
  rw [matchHashHeading_generated (n := 1) (by omega) (by omega) hX]
  rw [if_neg (fun hand => by
    have h1 := hand.1
    rw [if_neg (by omega : ¬ (1 : Nat) = 2)] at h1
    exact Bool.false_ne_true h1)]
  rw [matchHashHeading_generated (n := 4) (by omega) (by omega) hX]
  rw [if_neg (by omega : ¬ (4 : Nat) = 2)]
  try dsimp only
  rw [matchHashHeading_generated (n := 3) (by omega) (by omega) hX]
  rw [if_neg (by omega : ¬ (3 : Nat) = 2)]
  try dsimp only
  rw [matchHashHeading_generated (n := 2) (by omega) (by omega) hX]
  rw [if_pos rfl]
  try dsimp only
  rw [jsTrim_of_trimmedNE hX]
  rw [hX2]
  rw [matchPrefixCI_literal_space (by decide) (by decide) hdt.1 hdt.2.2]
  try dsimp only
  rw [jsTrim_of_trimmedNE hdt]

/-- A `##` direct-group heading. -/
theorem processLine_directGroup (supply : Nat → Str) (st : MdState) (n : Nat)
    {gname : Str} (hgn : goodLabel gname)
    (hnd : matchPrefixCI (S "division:") gname = none) :
    processLine supply st n (S "## " ++ gname)
      = { finishDivision st with
            curGroup := some { id := supply (finishDivision st).ctr, name := gname,
                               manager := none, managedBy := none,
                               staffEngineers := [], teams := [] }
            groupInDivision := false
            ctr := (finishDivision st).ctr + 1 } := by
  have hgt := trimmedNE_of_goodLabel hgn
  have hshape : S "## " ++ gname = List.replicate 2 '#' ++ ' ' :: gname := by
    rw [show S "## " = ['#', '#', ' '] from rfl]
    simp
  have hlineT : TrimmedNE (List.replicate 2 '#' ++ ' ' :: gname) :=
    heading_line_trimmedNE hgt (by omega)
  rw [hshape]
  unfold processLine
  rw [jsTrim_of_trimmedNE hlineT]
  dsimp only
  rw [isEmpty_false_of_ne hlineT.2.2]
  simp only [Bool.false_eq_true, if_false]
  rw [matchHashHeading_generated (n := 1) (by omega) (by omega) hgt]
  rw [if_neg (fun hand => by
    have h1 := hand.1
    rw [if_neg (by omega : ¬ (1 : Nat) = 2)] at h1
    exact Bool.false_ne_true h1)]
  rw [matchHashHeading_generated (n := 4) (by omega) (by omega) hgt]
  rw [if_neg (by omega : ¬ (4 : Nat) = 2)]
  try dsimp only
  rw [matchHashHeading_generated (n := 3) (by omega) (by omega) hgt]
  rw [if_neg (by omega : ¬ (3 : Nat) = 2)]
  try dsimp only
  rw [matchHashHeading_generated (n := 2) (by omega) (by omega) hgt]
  rw [if_pos rfl]
  try dsimp only
  rw [jsTrim_of_trimmedNE hgt]
  rw [hnd]

/-- A `###` group heading inside a division. -/
theorem processLine_divGroup (supply : Nat → Str) (st : MdState) (n : Nat)
    {gname : Str} (hgn : goodLabel gname) {d : DivisionI}
    (hdiv : st.curDivision = some d) :
    processLine supply st n (S "### " ++ gname)
      = { finishGroup st with
            curGroup := some { id := supply (finishGroup st).ctr, name := gname,
                               manager := none, managedBy := none,
                               staffEngineers := [], teams := [] }
            groupInDivision := true
            ctr := (finishGroup st).ctr + 1 } := by
  have hgt := trimmedNE_of_goodLabel hgn
  have hshape : S "### " ++ gname = List.replicate 3 '#' ++ ' ' :: gname := by
    rw [show S "### " = ['#', '#', '#', ' '] from rfl]
    simp
  have hlineT : TrimmedNE (List.replicate 3 '#' ++ ' ' :: gname) :=
    heading_line_trimmedNE hgt (by omega)
  rw [hshape]
  unfold processLine
  rw [jsTrim_of_trimmedNE hlineT]
  dsimp only
  rw [isEmpty_false_of_ne hlineT.2.2]
  simp only [Bool.false_eq_true, if_false]
  rw [matchHashHeading_generated (n := 1) (by omega) (by omega) hgt]
  rw [if_neg (fun hand => by
    have h1 := hand.1
    rw [if_neg (by omega : ¬ (1 : Nat) = 3)] at h1
    exact Bool.false_ne_true h1)]
  rw [matchHashHeading_generated (n := 4) (by omega) (by omega) hgt]
  rw [if_neg (by omega : ¬ (4 : Nat) = 3)]
  try dsimp only
  rw [matchHashHeading_generated (n := 3) (by omega) (by omega) hgt]
  rw [if_pos rfl]
  try dsimp only
  rw [hdiv]
  try dsimp only
  rw [jsTrim_of_trimmedNE hgt]

/-- A `###` team heading in a direct group. -/
theorem processLine_directTeam (supply : Nat → Str) (st : MdState) (n : Nat)
    {tname : Str} (htn : goodLabel tname) (hdiv : st.curDivision = none)
    {g : GroupI} (hgr : st.curGroup = some g) :
    processLine supply st n (S "### " ++ tname)
      = { finishTeam st with
            curTeam := some { id := supply (finishTeam st).ctr, name := tname,
                              members := [] }
            ctr := (finishTeam st).ctr + 1 } := by
  have htt := trimmedNE_of_goodLabel htn
  have hshape : S "### " ++ tname = List.replicate 3 '#' ++ ' ' :: tname := by
    rw [show S "### " = ['#', '#', '#', ' '] from rfl]
    simp
  have hlineT : TrimmedNE (List.replicate 3 '#' ++ ' ' :: tname) :=
    heading_line_trimmedNE htt (by omega)
  rw [hshape]
  unfold processLine
  rw [jsTrim_of_trimmedNE hlineT]
  dsimp only
  rw [isEmpty_false_of_ne hlineT.2.2]
  simp only [Bool.false_eq_true, if_false]
  rw [matchHashHeading_generated (n := 1) (by omega) (by omega) htt]
  rw [if_neg (fun hand => by
    have h1 := hand.1
    rw [if_neg (by omega : ¬ (1 : Nat) = 3)] at h1
    exact Bool.false_ne_true h1)]
  rw [matchHashHeading_generated (n := 4) (by omega) (by omega) htt]
  rw [if_neg (by omega : ¬ (4 : Nat) = 3)]
  try dsimp only
  rw [matchHashHeading_generated (n := 3) (by omega) (by omega) htt]
  rw [if_pos rfl]
  try dsimp only
  rw [hdiv]
  try dsimp only
  rw [hgr]
  try dsimp only
  rw [jsTrim_of_trimmedNE htt]

/-- A `####` team heading inside a division group. -/
theorem processLine_divTeam (supply : Nat → Str) (st : MdState) (n : Nat)
    {tname : Str} (htn : goodLabel tname) {g : GroupI} (hgr : st.curGroup = some g) :
    processLine supply st n (S "#### " ++ tname)
      = { finishTeam st with
            curTeam := some { id := supply (finishTeam st).ctr, name := tname,
                              members := [] }
            ctr := (finishTeam st).ctr + 1 } := by
  have htt := trimmedNE_of_goodLabel htn
  have hshape : S "#### " ++ tname = List.replicate 4 '#' ++ ' ' :: tname := by
    rw [show S "#### " = ['#', '#', '#', '#', ' '] from rfl]
    simp
  have hlineT : TrimmedNE (List.replicate 4 '#' ++ ' ' :: tname) :=
    heading_line_trimmedNE htt (by omega)
  rw [hshape]
  unfold processLine
  rw [jsTrim_of_trimmedNE hlineT]
  dsimp only
  rw [isEmpty_false_of_ne hlineT.2.2]
  simp only [Bool.false_eq_true, if_false]
  rw [matchHashHeading_generated (n := 1) (by omega) (by omega) htt]
  rw [if_neg (fun hand => by
    have h1 := hand.1
    rw [if_neg (by omega : ¬ (1 : Nat) = 4)] at h1
    exact Bool.false_ne_true h1)]
  rw [matchHashHeading_generated (n := 4) (by omega) (by omega) htt]
  rw [if_pos rfl]
  try dsimp only
  rw [hgr]
  try dsimp only
  rw [jsTrim_of_trimmedNE htt]

/-! ### Member blocks -/

theorem mdRun_append (supply : Nat → Str) (a : List Str) : ∀ (st : MdState) (n : Nat)
    (b : List Str), mdRun supply st n (a ++ b)
      = mdRun supply (mdRun supply st n a) (n + a.length) b := by
  induction a with
  | nil =>
    intro st n b
    simp [mdRun]
  | cons l ls ih =>
    intro st n b
    rw [List.cons_append]
    show mdRun supply (processLine supply st n l) (n + 1) (ls ++ b) = _
    rw [ih]
    show mdRun supply (mdRun supply (processLine supply st n l) (n + 1) ls)
      (n + 1 + ls.length) b = mdRun supply (mdRun supply st n (l :: ls)) (n + (ls.length + 1)) b
    rw [show mdRun supply st n (l :: ls)
      = mdRun supply (processLine supply st n l) (n + 1) ls from rfl]
    congr 1
    omega

theorem erasePerson_attachId (supply : Nat → Str) (k : Nat) (v : PersonV) :
    erasePerson (attachId supply k v) = v := rfl

/-- The value a parsed unnamed member carries. -/
def unnamedV (p : PersonI) : PersonV :=
  { name := none, role := p.role, type := p.type, vendor := p.vendor,
    location := p.location }

/-- The member values an unnamed-groups list stands for. -/
def expandUnnamed (gsl : List (Str × PersonI × Nat)) : List PersonV :=
  (gsl.map (fun e => List.replicate e.2.2 (unnamedV e.2.1))).flatten

/-- The encoder's line for one unnamed-group entry. -/
def unnamedLine (e : Str × PersonI × Nat) : Str :=
  S "- " ++ (if e.2.2 > 1 then natToStr e.2.2 ++ S "x " else [])
    ++ ROLE_LABELS e.2.1.role ++ personProps e.2.1

theorem quantityMain_trimmedNE (count : Nat) (r : Role) :
    TrimmedNE ((natToStr count ++ S "x ") ++ ROLE_LABELS r) := by
  have hnt := natToStr_trimmedNE count
  have hlf := roleLabel_facts r
  have hlt := roleLabel_trimmedNE r
  refine ⟨?_, ?_, ?_⟩
  · exact headNotWs_append (headNotWs_append hnt.1 hnt.2.2) (by
      intro hc
      exact hnt.2.2 (List.append_eq_nil.mp hc).1)
  · exact lastNotWs_append hlt.2.1 hlf.2.1
  · intro hc
    exact hlf.2.1 (List.append_eq_nil.mp hc).2

/-- One unnamed-entry line adds `count` copies of the entry's value. -/
theorem processLine_unnamedEntry (supply : Nat → Str) (st : MdState) (n : Nat)
    {e : Str × PersonI × Nat} (hg : goodPerson e.2.1) (hcnt : 1 ≤ e.2.2)
    {g : GroupI} (hgr : st.curGroup = some g) {t : TeamI} (hteam : st.curTeam = some t) :
    processLine supply st n (unnamedLine e)
      = { st with
            curTeam := some { t with members := t.members
              ++ ((List.replicate e.2.2 (unnamedV e.2.1)).enum.map
                  (fun q => attachId supply (st.ctr + q.1) q.2)) }
            ctr := st.ctr + e.2.2 } := by
  obtain ⟨l, hl⟩ := Option.isSome_iff_exists.mp hg.2.2.1
  have hvloc : unnamedV e.2.1 = { name := none, role := e.2.1.role, type := e.2.1.type, vendor := e.2.1.vendor, location := some l } := by
    unfold unnamedV
    rw [hl]
  by_cases hq : e.2.2 > 1
  · have hshape : unnamedLine e = S "- "
        ++ ((natToStr e.2.2 ++ S "x ") ++ ROLE_LABELS e.2.1.role ++ personProps e.2.1) := by
      unfold unnamedLine
      rw [if_pos hq]
      simp
    rw [hshape]
    rw [processLine_listItem supply st n
      (trimmedNE_main_props e.2.1 (quantityMain_trimmedNE e.2.2 e.2.1.role))
      hgr hteam (parsePersonLine_quantity hg hl e.2.2)]
    rw [hvloc]
    rw [show (List.replicate e.2.2 ({ name := none, role := e.2.1.role, type := e.2.1.type, vendor := e.2.1.vendor, location := some l } : PersonV)).length = e.2.2 from List.length_replicate _ _]
  · have hone : e.2.2 = 1 := by omega
    have hshape : unnamedLine e = S "- "
        ++ (ROLE_LABELS e.2.1.role ++ personProps e.2.1) := by
      unfold unnamedLine
      rw [if_neg hq]
      simp
    rw [hshape]
    rw [processLine_listItem supply st n
      (trimmedNE_main_props e.2.1 (roleLabel_trimmedNE e.2.1.role))
      hgr hteam (parsePersonLine_unnamed hg hl)]
    rw [hone, hvloc]
    rfl

/-- Processing the unnamed block appends exactly the expanded values. -/
theorem mdRun_unnamedLines (supply : Nat → Str) (gsl : List (Str × PersonI × Nat))
    (hgood : ∀ e ∈ gsl, goodPerson e.2.1) (hcnt : ∀ e ∈ gsl, 1 ≤ e.2.2) :
    ∀ (st : MdState) (n : Nat) (g : GroupI) (t : TeamI), st.curGroup = some g →
      st.curTeam = some t →
    ∃ ps : List PersonI,
      mdRun supply st n (gsl.map unnamedLine)
        = { st with curTeam := some { t with members := t.members ++ ps }
                    ctr := st.ctr + ps.length }
      ∧ ps.map erasePerson = expandUnnamed gsl := by
  induction gsl with
  | nil =>
    intro st n g t hgr hteam
    refine ⟨[], ?_, rfl⟩
    show st = _
    rw [show t.members ++ [] = t.members from List.append_nil _]
    rw [show st.ctr + ([] : List PersonI).length = st.ctr from rfl]
    rw [← hteam]
  | cons e gsl' ih =>
    intro st n g t hgr hteam
    rw [List.map_cons]
    show ∃ ps, mdRun supply (processLine supply st n (unnamedLine e)) (n + 1)
        (gsl'.map unnamedLine) = _ ∧ _
    rw [processLine_unnamedEntry supply st n (hgood e (by simp)) (hcnt e (by simp))
      hgr hteam]
    obtain ⟨ps', hrun, herase⟩ := ih (fun x hx => hgood x (by simp [hx]))
      (fun x hx => hcnt x (by simp [hx]))
      { st with curTeam := some { t with members := t.members ++ ((List.replicate e.2.2 (unnamedV e.2.1)).enum.map (fun q => attachId supply (st.ctr + q.1) q.2)) }, ctr := st.ctr + e.2.2 }
      (n + 1) g
      { t with members := t.members ++ ((List.replicate e.2.2 (unnamedV e.2.1)).enum.map (fun q => attachId supply (st.ctr + q.1) q.2)) }
      hgr rfl
    rw [hrun]
    refine ⟨((List.replicate e.2.2 (unnamedV e.2.1)).enum.map
      (fun q => attachId supply (st.ctr + q.1) q.2)) ++ ps', ?_, ?_⟩
    · have h1 : t.members ++ (((List.replicate e.2.2 (unnamedV e.2.1)).enum.map (fun q => attachId supply (st.ctr + q.1) q.2)) ++ ps') = (t.members ++ ((List.replicate e.2.2 (unnamedV e.2.1)).enum.map (fun q => attachId supply (st.ctr + q.1) q.2))) ++ ps' := (List.append_assoc _ _ _).symm
      have h2 : st.ctr + (((List.replicate e.2.2 (unnamedV e.2.1)).enum.map (fun q => attachId supply (st.ctr + q.1) q.2)) ++ ps').length = (st.ctr + e.2.2) + ps'.length := by
        rw [List.length_append, List.length_map, List.enum_length, List.length_replicate]
        omega
      rw [h1, h2]
    · rw [List.map_append, herase]
      rw [show expandUnnamed (e :: gsl')
        = List.replicate e.2.2 (unnamedV e.2.1) ++ expandUnnamed gsl' from rfl]
      congr 1
      rw [List.map_map]
      rw [show (erasePerson ∘ fun q => attachId supply (st.ctr + q.1) q.2)
        = fun q : Nat × PersonV => q.2 from rfl]
      conv_rhs => rw [← List.enum_map_snd (List.replicate e.2.2 (unnamedV e.2.1))]

/-- Processing the named block appends exactly the named values. -/
theorem mdRun_namedLines (supply : Nat → Str) (ns : List PersonI)
    (hgood : ∀ p ∈ ns, goodPerson p) (hnamed : ∀ p ∈ ns, truthy p.name = true) :
    ∀ (st : MdState) (n : Nat) (g : GroupI) (t : TeamI), st.curGroup = some g →
      st.curTeam = some t →
    ∃ ps : List PersonI,
      mdRun supply st n (ns.map (fun p => S "- " ++ namedPersonLine p))
        = { st with curTeam := some { t with members := t.members ++ ps }
                    ctr := st.ctr + ps.length }
      ∧ ps.map erasePerson = ns.map erasePerson := by
  induction ns with
  | nil =>
    intro st n g t hgr hteam
    refine ⟨[], ?_, rfl⟩
    show st = _
    rw [show t.members ++ [] = t.members from List.append_nil _]
    rw [show st.ctr + ([] : List PersonI).length = st.ctr from rfl]
    rw [← hteam]
  | cons p ns' ih =>
    intro st n g t hgr hteam
    have hgp := hgood p (by simp)
    have hnp := hnamed p (by simp)
    obtain ⟨l, hl⟩ := Option.isSome_iff_exists.mp hgp.2.2.1
    obtain ⟨nm, hnm⟩ : ∃ nm, p.name = some nm := by
      cases hpn : p.name with
      | none => rw [hpn] at hnp; cases hnp
      | some nm => exact ⟨nm, rfl⟩
    rw [List.map_cons]
    show ∃ ps, mdRun supply (processLine supply st n (S "- " ++ namedPersonLine p)) (n + 1)
        (ns'.map (fun p => S "- " ++ namedPersonLine p)) = _ ∧ _
    have hmt : TrimmedNE (namedPersonLine p) := by
      have hn := hgp.1 nm hnm
      have hcontent : namedPersonLine p
          = (nm ++ S ", " ++ ROLE_LABELS p.role) ++ personProps p := by
        unfold namedPersonLine nameOrUnnamed
        rw [hnm]
        dsimp only
        rw [isEmpty_false_of_ne hn.2.1]
        simp
      rw [hcontent]
      refine trimmedNE_main_props p ?_
      have hnt := goodPersonName_trimmedNE hn
      have hlf := roleLabel_facts p.role
      have hlt := roleLabel_trimmedNE p.role
      refine ⟨?_, ?_, ?_⟩
      · exact headNotWs_append (headNotWs_append hnt.1 hnt.2.2) (by
          intro hc
          exact hnt.2.2 (List.append_eq_nil.mp hc).1)
      · exact lastNotWs_append hlt.2.1 hlf.2.1
      · intro hc
        exact hlf.2.1 (List.append_eq_nil.mp hc).2
    rw [processLine_listItem supply st n hmt hgr hteam
      (parsePersonLine_named hgp hnm hl)]
    obtain ⟨ps', hrun, herase⟩ := ih (fun x hx => hgood x (by simp [hx]))
      (fun x hx => hnamed x (by simp [hx]))
      { st with curTeam := some { t with members := t.members ++ (([{ name := some nm, role := p.role, type := p.type, location := some l, vendor := p.vendor }] : List PersonV).enum.map (fun q => attachId supply (st.ctr + q.1) q.2)) }, ctr := st.ctr + ([{ name := some nm, role := p.role, type := p.type, location := some l, vendor := p.vendor }] : List PersonV).length }
      (n + 1) g
      { t with members := t.members ++ (([{ name := some nm, role := p.role, type := p.type, location := some l, vendor := p.vendor }] : List PersonV).enum.map (fun q => attachId supply (st.ctr + q.1) q.2)) }
      hgr rfl
    rw [hrun]
    refine ⟨(([{ name := some nm, role := p.role, type := p.type, location := some l, vendor := p.vendor }] : List PersonV).enum.map (fun q => attachId supply (st.ctr + q.1) q.2)) ++ ps', ?_, ?_⟩
    · have h1 : t.members ++ ((([{ name := some nm, role := p.role, type := p.type, location := some l, vendor := p.vendor }] : List PersonV).enum.map (fun q => attachId supply (st.ctr + q.1) q.2)) ++ ps') = (t.members ++ (([{ name := some nm, role := p.role, type := p.type, location := some l, vendor := p.vendor }] : List PersonV).enum.map (fun q => attachId supply (st.ctr + q.1) q.2))) ++ ps' := (List.append_assoc _ _ _).symm
      have h2 : st.ctr + ((([{ name := some nm, role := p.role, type := p.type, location := some l, vendor := p.vendor }] : List PersonV).enum.map (fun q => attachId supply (st.ctr + q.1) q.2)) ++ ps').length = (st.ctr + ([{ name := some nm, role := p.role, type := p.type, location := some l, vendor := p.vendor }] : List PersonV).length) + ps'.length := by
        rw [List.length_append, List.length_map, List.enum_length]
        omega
      rw [h1, h2]
    · rw [List.map_append, herase, List.map_cons]
      congr 1
      rw [show erasePerson p = { name := p.name, role := p.role, type := p.type, vendor := p.vendor, location := p.location } from rfl]
      rw [hnm, hl]
      rfl

theorem formatTeamMembers_decomp (members : List PersonI) :
    formatTeamMembers members
      = (unnamedGroupsOf members).map unnamedLine
        ++ (members.filter (fun m => truthy m.name)).map
            (fun p => S "- " ++ namedPersonLine p) := by
  unfold formatTeamMembers unnamedGroupsOf unnamedLine
  rw [formatAcc_spec]
  simp

theorem updateFirst_mem {α : Type} {p : α → Bool} {f : α → α} :
    ∀ {l : List α} {x : α}, x ∈ updateFirst p f l → x ∈ l ∨ ∃ y ∈ l, x = f y := by
  intro l
  induction l with
  | nil => intro x hx; cases hx
  | cons a t ih =>
    intro x hx
    unfold updateFirst at hx
    by_cases hp : p a
    · rw [if_pos hp] at hx
      rcases List.mem_cons.mp hx with h | h
      · exact Or.inr ⟨a, by simp, h⟩
      · exact Or.inl (by simp [h])
    · rw [if_neg hp] at hx
      rcases List.mem_cons.mp hx with h | h
      · exact Or.inl (by simp [h])
      · rcases ih h with h2 | ⟨y, hy, hxy⟩
        · exact Or.inl (by simp [h2])
        · exact Or.inr ⟨y, by simp [hy], hxy⟩

/-- Entry invariant preserved by the unnamed-member fold. -/
def EntryOK (e : Str × PersonI × Nat) : Prop :=
  goodPerson e.2.1 ∧ truthy e.2.1.name = false ∧ 1 ≤ e.2.2 ∧ e.1 = groupingKey e.2.1

theorem addUnnamedMember_entryOK {acc : List (Str × PersonI × Nat)} {m : PersonI}
    (hacc : ∀ e ∈ acc, EntryOK e) (hm : goodPerson m) (hun : truthy m.name = false) :
    ∀ e ∈ addUnnamedMember acc m, EntryOK e := by
  intro e he
  unfold addUnnamedMember at he
  by_cases hany : acc.any (fun e => decide (e.1 = groupingKey m)) = true
  · rw [if_pos hany] at he
    rcases updateFirst_mem he with h | ⟨y, hy, hxy⟩
    · exact hacc e h
    · obtain ⟨hg, hu, hc, hk⟩ := hacc y hy
      subst hxy
      exact ⟨hg, hu, by dsimp only; omega, hk⟩
  · rw [if_neg hany] at he
    rcases List.mem_append.mp he with h | h
    · exact hacc e h
    · rw [List.mem_singleton] at h
      subst h
      exact ⟨hm, hun, Nat.le_refl 1, rfl⟩

theorem foldl_addUnnamed_entryOK (us : List PersonI)
    (hgood : ∀ m ∈ us, goodPerson m) (hun : ∀ m ∈ us, truthy m.name = false) :
    ∀ acc, (∀ e ∈ acc, EntryOK e) →
      ∀ e ∈ us.foldl addUnnamedMember acc, EntryOK e := by
  induction us with
  | nil => intro acc hacc e he; exact hacc e he
  | cons m us' ih =>
    intro acc hacc e he
    rw [List.foldl_cons] at he
    exact ih (fun x hx => hgood x (by simp [hx])) (fun x hx => hun x (by simp [hx]))
      (addUnnamedMember acc m)
      (addUnnamedMember_entryOK hacc (hgood m (by simp)) (hun m (by simp))) e he

theorem unnamedGroupsOf_entryOK {ms : List PersonI} (hgood : ∀ m ∈ ms, goodPerson m) :
    ∀ e ∈ unnamedGroupsOf ms, EntryOK e := by
  unfold unnamedGroupsOf
  refine foldl_addUnnamed_entryOK _ ?_ ?_ [] (fun e he => absurd he (List.not_mem_nil e))
  · intro m hm
    exact hgood m (List.mem_of_mem_filter hm)
  · intro m hm
    have := List.of_mem_filter hm
    simp only [Bool.not_eq_true'] at this
    exact this

theorem roleKeyStr_inj : ∀ r1 r2 : Role, roleKeyStr r1 = roleKeyStr r2 → r1 = r2 := by
  intro r1 r2 h
  cases r1 <;> cases r2 <;> first | rfl | exact absurd h (by decide)

theorem employeeTypeStr_inj : ∀ t1 t2 : EmployeeType,
    employeeTypeStr t1 = employeeTypeStr t2 → t1 = t2 := by
  intro t1 t2 h
  cases t1 <;> cases t2 <;> first | rfl | exact absurd h (by decide)

theorem locationStr_inj : ∀ l1 l2 : Location, locationStr l1 = locationStr l2 → l1 = l2 := by
  intro l1 l2 h
  cases l1 <;> cases l2 <;> first | rfl | exact absurd h (by decide)

theorem append_pipe_inj : ∀ {a1 a2 b1 b2 : Str}, '|' ∉ a1 → '|' ∉ a2 →
    a1 ++ '|' :: b1 = a2 ++ '|' :: b2 → a1 = a2 ∧ b1 = b2 := by
  intro a1
  induction a1 with
  | nil =>
    intro a2 b1 b2 h1 h2 he
    cases a2 with
    | nil => exact ⟨rfl, (List.cons.inj he.symm).2.symm⟩
    | cons c t =>
      exfalso
      rw [List.nil_append, List.cons_append] at he
      have := (List.cons.inj he).1
      exact h2 (by simp [← this])
  | cons c t ih =>
    intro a2 b1 b2 h1 h2 he
    cases a2 with
    | nil =>
      exfalso
      rw [List.nil_append, List.cons_append] at he
      have := (List.cons.inj he).1
      exact h1 (by simp [this])
    | cons d u =>
      rw [List.cons_append, List.cons_append] at he
      obtain ⟨hcd, hrest⟩ := List.cons.inj he
      obtain ⟨hau, hb⟩ := ih (fun hc => h1 (by simp [hc]))
        (fun hc => h2 (by simp [hc])) hrest
      exact ⟨by rw [hcd, hau], hb⟩

theorem groupingKey_shape (p : PersonI) :
    groupingKey p = roleKeyStr p.role ++ '|' :: (employeeTypeStr p.type ++ '|' ::
      ((match p.location with | some l => locationStr l | none => locationStr onshore)
        ++ '|' :: p.vendor.getD [])) := by
  unfold groupingKey
  rw [show S "|" = ['|'] from rfl]
  simp

theorem groupingKey_inj {p q : PersonI} (hp : goodPerson p) (hq : goodPerson q)
    (h : groupingKey p = groupingKey q) : unnamedV p = unnamedV q := by
  obtain ⟨lp, hlp⟩ := Option.isSome_iff_exists.mp hp.2.2.1
  obtain ⟨lq, hlq⟩ := Option.isSome_iff_exists.mp hq.2.2.1
  rw [groupingKey_shape, groupingKey_shape, hlp, hlq] at h
  have hrole_pipe : ∀ r : Role, '|' ∉ roleKeyStr r := by
    intro r
    cases r <;> decide
  have htype_pipe : ∀ t : EmployeeType, '|' ∉ employeeTypeStr t := by
    intro t
    cases t <;> decide
  have hloc_pipe : ∀ l : Location, '|' ∉ locationStr l := by
    intro l
    cases l <;> decide
  obtain ⟨h1, h2⟩ := append_pipe_inj (hrole_pipe _) (hrole_pipe _) h
  obtain ⟨h3, h4⟩ := append_pipe_inj (htype_pipe _) (htype_pipe _) h2
  obtain ⟨h5, h6⟩ := append_pipe_inj (hloc_pipe _) (hloc_pipe _) h4
  have hvend : p.vendor = q.vendor := by
    cases hv1 : p.vendor with
    | none =>
      cases hv2 : q.vendor with
      | none => rfl
      | some v2 =>
        rw [hv1, hv2] at h6
        have h6' : [] = v2 := h6
        exact absurd h6'.symm (hq.2.1 v2 hv2).2.1
    | some v1 =>
      cases hv2 : q.vendor with
      | none =>
        rw [hv1, hv2] at h6
        have h6' : v1 = [] := h6
        exact absurd h6' (hp.2.1 v1 hv1).2.1
      | some v2 =>
        rw [hv1, hv2] at h6
        have h6' : v1 = v2 := h6
        rw [h6']
  unfold unnamedV
  rw [roleKeyStr_inj _ _ h1, employeeTypeStr_inj _ _ h3, hvend, hlp, hlq,
    locationStr_inj _ _ h5]

theorem unnamedV_eq_erase {p : PersonI} (hg : goodPerson p)
    (hun : truthy p.name = false) : unnamedV p = erasePerson p := by
  have hname : p.name = none := by
    cases hn : p.name with
    | none => rfl
    | some nm =>
      have := hg.1 nm hn
      rw [hn] at hun
      unfold truthy at hun
      dsimp only at hun
      rw [isEmpty_false_of_ne this.2.1] at hun
      cases hun
  unfold unnamedV erasePerson
  rw [hname]

theorem coe_append_personV (a b : List PersonV) :
    (↑(a ++ b) : Multiset PersonV) = ↑a + ↑b := by
  simp

theorem coe_repl_succ (n : Nat) (x : PersonV) :
    (↑(List.replicate (n + 1) x) : Multiset PersonV) = ↑(List.replicate n x) + {x} := by
  rw [List.replicate_succ]
  rw [show (↑(x :: List.replicate n x) : Multiset PersonV)
    = x ::ₘ ↑(List.replicate n x) from rfl]
  rw [← Multiset.singleton_add]
  exact add_comm _ _

theorem expand_updateFirst {m : PersonI} (hm : goodPerson m) :
    ∀ (acc : List (Str × PersonI × Nat)), (∀ e ∈ acc, EntryOK e) →
    acc.any (fun e => decide (e.1 = groupingKey m)) = true →
    (↑(expandUnnamed (updateFirst (fun e => decide (e.1 = groupingKey m))
        (fun e => (e.1, e.2.1, e.2.2 + 1)) acc)) : Multiset PersonV)
      = ↑(expandUnnamed acc) + {unnamedV m} := by
  intro acc
  induction acc with
  | nil =>
    intro _ hany
    cases hany
  | cons a t ih =>
    intro hok hany
    unfold updateFirst
    by_cases hk : decide (a.1 = groupingKey m) = true
    · rw [if_pos hk]
      rw [show expandUnnamed ((a.1, a.2.1, a.2.2 + 1) :: t)
        = List.replicate (a.2.2 + 1) (unnamedV a.2.1) ++ expandUnnamed t from rfl]
      rw [show expandUnnamed (a :: t)
        = List.replicate a.2.2 (unnamedV a.2.1) ++ expandUnnamed t from rfl]
      rw [coe_append_personV, coe_append_personV, coe_repl_succ]
      have hval : unnamedV a.2.1 = unnamedV m := by
        refine groupingKey_inj (hok a (by simp)).1 hm ?_
        rw [← (hok a (by simp)).2.2.2]
        exact of_decide_eq_true hk
      rw [hval]
      rw [add_assoc, add_comm ({unnamedV m} : Multiset PersonV), ← add_assoc]
    · rw [if_neg hk]
      rw [show expandUnnamed (a :: updateFirst (fun e => decide (e.1 = groupingKey m)) (fun e => (e.1, e.2.1, e.2.2 + 1)) t) = List.replicate a.2.2 (unnamedV a.2.1) ++ expandUnnamed (updateFirst (fun e => decide (e.1 = groupingKey m)) (fun e => (e.1, e.2.1, e.2.2 + 1)) t) from rfl]
      rw [show expandUnnamed (a :: t)
        = List.replicate a.2.2 (unnamedV a.2.1) ++ expandUnnamed t from rfl]
      rw [coe_append_personV, coe_append_personV]
      have hany' : t.any (fun e => decide (e.1 = groupingKey m)) = true := by
        rw [List.any_cons] at hany
        rcases Bool.or_eq_true_iff.mp hany with h | h
        · exact absurd h hk
        · exact h
      rw [ih (fun e he => hok e (by simp [he])) hany']
      rw [add_assoc]

theorem expandUnnamed_append (a b : List (Str × PersonI × Nat)) :
    expandUnnamed (a ++ b) = expandUnnamed a ++ expandUnnamed b := by
  unfold expandUnnamed
  rw [List.map_append, List.flatten_append]

theorem foldl_addUnnamed_multiset (us : List PersonI)
    (hgood : ∀ m ∈ us, goodPerson m) (hun : ∀ m ∈ us, truthy m.name = false) :
    ∀ acc, (∀ e ∈ acc, EntryOK e) →
    (↑(expandUnnamed (us.foldl addUnnamedMember acc)) : Multiset PersonV)
      = ↑(expandUnnamed acc) + ↑(us.map unnamedV) := by
  induction us with
  | nil =>
    intro acc hacc
    simp
  | cons m us' ih =>
    intro acc hacc
    rw [List.foldl_cons]
    rw [ih (fun x hx => hgood x (by simp [hx])) (fun x hx => hun x (by simp [hx]))
      (addUnnamedMember acc m)
      (addUnnamedMember_entryOK hacc (hgood m (by simp)) (hun m (by simp)))]
    have hstep : (↑(expandUnnamed (addUnnamedMember acc m)) : Multiset PersonV)
        = ↑(expandUnnamed acc) + {unnamedV m} := by
      unfold addUnnamedMember
      by_cases hany : acc.any (fun e => decide (e.1 = groupingKey m)) = true
      · rw [if_pos hany]
        exact expand_updateFirst (hgood m (by simp)) acc hacc hany
      · rw [if_neg hany]
        rw [expandUnnamed_append]
        rw [show expandUnnamed [(groupingKey m, m, 1)] = [unnamedV m] from rfl]
        rw [coe_append_personV]
        rfl
    rw [hstep]
    rw [List.map_cons]
    rw [show (↑(unnamedV m :: us'.map unnamedV) : Multiset PersonV)
      = {unnamedV m} + ↑(us'.map unnamedV) from by rw [Multiset.singleton_add]; rfl]
    rw [add_assoc]

theorem members_multiset {ms : List PersonI} (hgood : ∀ m ∈ ms, goodPerson m) :
    (↑(expandUnnamed (unnamedGroupsOf ms)
        ++ (ms.filter (fun m => truthy m.name)).map erasePerson) : Multiset PersonV)
      = ↑(ms.map erasePerson) := by
  rw [coe_append_personV]
  unfold unnamedGroupsOf
  rw [foldl_addUnnamed_multiset _
    (fun m hm => hgood m (List.mem_of_mem_filter hm))
    (fun m hm => by simpa using List.of_mem_filter hm)
    [] (fun e he => absurd he (List.not_mem_nil e))]
  rw [show expandUnnamed ([] : List (Str × PersonI × Nat)) = [] from rfl]
  rw [show ((ms.filter (fun m => !truthy m.name)).map unnamedV)
      = ((ms.filter (fun m => !truthy m.name)).map erasePerson) from
    List.map_congr_left (fun m hm => unnamedV_eq_erase
      (hgood m (List.mem_of_mem_filter hm))
      (by simpa using List.of_mem_filter hm))]
  rw [show (↑([] : List PersonV) : Multiset PersonV) = 0 from rfl, zero_add]
  rw [← coe_append_personV, ← List.map_append]
  refine Multiset.coe_eq_coe.mpr ?_
  refine List.Perm.map erasePerson ?_
  exact (List.perm_append_comm).trans (List.filter_append_perm _ ms)

/-- Processing a full member block appends members whose values are,
as a multiset, exactly the original members' values. -/
theorem mdRun_teamMembers (supply : Nat → Str) {ms : List PersonI}
    (hgood : ∀ m ∈ ms, goodPerson m) :
    ∀ (st : MdState) (n : Nat) (g : GroupI) (t : TeamI), st.curGroup = some g →
      st.curTeam = some t →
    ∃ ps : List PersonI,
      mdRun supply st n (formatTeamMembers ms)
        = { st with curTeam := some { t with members := t.members ++ ps }
                    ctr := st.ctr + ps.length }
      ∧ (↑(ps.map erasePerson) : Multiset PersonV) = ↑(ms.map erasePerson) := by
  intro st n g t hgr hteam
  rw [formatTeamMembers_decomp, mdRun_append]
  obtain ⟨ps1, hrun1, her1⟩ := mdRun_unnamedLines supply (unnamedGroupsOf ms)
    (fun e he => (unnamedGroupsOf_entryOK hgood e he).1)
    (fun e he => (unnamedGroupsOf_entryOK hgood e he).2.2.1)
    st n g t hgr hteam
  rw [hrun1]
  obtain ⟨ps2, hrun2, her2⟩ := mdRun_namedLines supply
    (ms.filter (fun m => truthy m.name))
    (fun p hp => hgood p (List.mem_of_mem_filter hp))
    (fun p hp => by simpa using List.of_mem_filter hp)
    { st with curTeam := some { t with members := t.members ++ ps1 }, ctr := st.ctr + ps1.length }
    (n + ((unnamedGroupsOf ms).map unnamedLine).length) g
    { t with members := t.members ++ ps1 }
    hgr rfl
  rw [hrun2]
  refine ⟨ps1 ++ ps2, ?_, ?_⟩
  · have h1 : t.members ++ (ps1 ++ ps2) = (t.members ++ ps1) ++ ps2 :=
      (List.append_assoc _ _ _).symm
    have h2 : st.ctr + (ps1 ++ ps2).length = (st.ctr + ps1.length) + ps2.length := by
      rw [List.length_append]
      omega
    rw [h1, h2]
  · rw [List.map_append, coe_append_personV, her1, her2]
    rw [← coe_append_personV]
    exact members_multiset hgood

/-! ### Structural blocks -/

/-- The team list after closing an open team into a group. -/
def teamsAfterClose (G : GroupI) (ct : Option TeamI) : List TeamI :=
  match ct with
  | some t => G.teams ++ [t]
  | none => G.teams

/-- Closing an open group/team pair into a full group. -/
def closeG (g : GroupI) (topt : Option TeamI) : GroupI :=
  match topt with
  | some t => { g with teams := g.teams ++ [t] }
  | none => g

theorem finishTeam_eq {st : MdState} {G : GroupI} (h : st.curGroup = some G) :
    finishTeam st = { st with
      curGroup := some { G with teams := teamsAfterClose G st.curTeam }
      curTeam := none } := by
  unfold finishTeam teamsAfterClose
  cases hct : st.curTeam with
  | none =>
    rw [h]
    dsimp only
    rw [← h, ← hct]
  | some t =>
    rw [h]

theorem finishTeam_of_none {st : MdState} (h : st.curTeam = none) :
    finishTeam st = st := by
  unfold finishTeam
  rw [h]

/-- One in-division team block opens a value-faithful copy of the team. -/
theorem mdRun_teamBlockDiv (supply : Nat → Str) {t : TeamI} (ht : goodTeam t) :
    ∀ (st : MdState) (n : Nat) (G : GroupI), st.curGroup = some G →
    ∃ (t' : TeamI) (c : Nat),
      mdRun supply st n (([] :: (S "#### " ++ t.name) :: []) ++ formatTeamMembers t.members)
        = { finishTeam st with curTeam := some t', ctr := c }
      ∧ eraseTeam t' = eraseTeam t := by
  intro st n G hgr
  rw [mdRun_append]
  rw [show mdRun supply st n ([] :: (S "#### " ++ t.name) :: [])
    = processLine supply (processLine supply st n []) (n + 1) (S "#### " ++ t.name)
    from rfl]
  rw [processLine_blank]
  rw [processLine_divTeam supply st (n + 1) ht.1 hgr]
  have hgr2 : (finishTeam st).curGroup
      = some { G with teams := teamsAfterClose G st.curTeam } := by
    rw [finishTeam_eq hgr]
  obtain ⟨ps, hrun, hval⟩ := mdRun_teamMembers supply ht.2
    { finishTeam st with curTeam := some { id := supply (finishTeam st).ctr, name := t.name, members := [] }, ctr := (finishTeam st).ctr + 1 }
    (n + ([] :: (S "#### " ++ t.name) :: []).length) _
    { id := supply (finishTeam st).ctr, name := t.name, members := [] }
    hgr2 rfl
  rw [hrun]
  refine ⟨{ id := supply (finishTeam st).ctr, name := t.name, members := ps },
    (finishTeam st).ctr + 1 + ps.length, ?_, ?_⟩
  · rfl
  · unfold eraseTeam
    dsimp only
    rw [show (↑(ps.map erasePerson) : Multiset PersonV)
      = ↑(t.members.map erasePerson) from hval]

/-- One direct team block (depth-3 heading). -/
theorem mdRun_teamBlockDirect (supply : Nat → Str) {t : TeamI} (ht : goodTeam t) :
    ∀ (st : MdState) (n : Nat) (G : GroupI), st.curGroup = some G →
      st.curDivision = none →
    ∃ (t' : TeamI) (c : Nat),
      mdRun supply st n (([] :: (S "### " ++ t.name) :: []) ++ formatTeamMembers t.members)
        = { finishTeam st with curTeam := some t', ctr := c }
      ∧ eraseTeam t' = eraseTeam t := by
  intro st n G hgr hdiv
  rw [mdRun_append]
  rw [show mdRun supply st n ([] :: (S "### " ++ t.name) :: [])
    = processLine supply (processLine supply st n []) (n + 1) (S "### " ++ t.name)
    from rfl]
  rw [processLine_blank]
  rw [processLine_directTeam supply st (n + 1) ht.1 hdiv hgr]
  have hgr2 : (finishTeam st).curGroup
      = some { G with teams := teamsAfterClose G st.curTeam } := by
    rw [finishTeam_eq hgr]
  obtain ⟨ps, hrun, hval⟩ := mdRun_teamMembers supply ht.2
    { finishTeam st with curTeam := some { id := supply (finishTeam st).ctr, name := t.name, members := [] }, ctr := (finishTeam st).ctr + 1 }
    (n + ([] :: (S "### " ++ t.name) :: []).length) _
    { id := supply (finishTeam st).ctr, name := t.name, members := [] }
    hgr2 rfl
  rw [hrun]
  refine ⟨{ id := supply (finishTeam st).ctr, name := t.name, members := ps },
    (finishTeam st).ctr + 1 + ps.length, ?_, ?_⟩
  · rfl
  · unfold eraseTeam
    dsimp only
    rw [show (↑(ps.map erasePerson) : Multiset PersonV)
      = ↑(t.members.map erasePerson) from hval]

/-- Chain of in-division team blocks, closed view. -/
theorem mdRun_teamBlocksDiv (supply : Nat → Str) {ts : List TeamI}
    (hts : ∀ t ∈ ts, goodTeam t) :
    ∀ (st : MdState) (n : Nat) (G : GroupI), st.curGroup = some G →
    ∃ (ts' : List TeamI) (c : Nat),
      finishTeam (mdRun supply st n
          ((ts.map (fun t => ([] :: (S "#### " ++ t.name) :: [])
            ++ formatTeamMembers t.members)).flatten))
        = { st with curGroup := some { G with teams := teamsAfterClose G st.curTeam ++ ts' }
                    curTeam := none, ctr := c }
      ∧ ts'.map eraseTeam = ts.map eraseTeam := by
  induction ts with
  | nil =>
    intro st n G hgr
    refine ⟨[], st.ctr, ?_, rfl⟩
    simp only [List.map_nil, List.flatten_nil]
    rw [show mdRun supply st n [] = st from rfl]
    rw [finishTeam_eq hgr]
    rw [List.append_nil]
  | cons t ts' ih =>
    intro st n G hgr
    rw [List.map_cons, List.flatten_cons, mdRun_append]
    obtain ⟨t', c2, hrun1, hv1⟩ := mdRun_teamBlockDiv supply (hts t (by simp)) st n G hgr
    have hrun1' : mdRun supply st n (([] :: (S "#### " ++ t.name) :: [])
        ++ formatTeamMembers t.members)
        = { st with curGroup := some { G with teams := teamsAfterClose G st.curTeam }, curTeam := some t', ctr := c2 } := by
      rw [hrun1, finishTeam_eq hgr]
    rw [hrun1']
    obtain ⟨ts'', c'', hrun2, hv2⟩ := ih (fun x hx => hts x (by simp [hx]))
      { st with curGroup := some { G with teams := teamsAfterClose G st.curTeam }, curTeam := some t', ctr := c2 } _
      { G with teams := teamsAfterClose G st.curTeam } rfl
    rw [hrun2]
    refine ⟨t' :: ts'', c'', ?_, ?_⟩
    · rw [show teamsAfterClose { G with teams := teamsAfterClose G st.curTeam }
        (some t') = teamsAfterClose G st.curTeam ++ [t'] from rfl]
      rw [List.append_assoc]
      rw [show [t'] ++ ts'' = t' :: ts'' from rfl]
    · rw [List.map_cons, List.map_cons, hv2, hv1]

/-- Chain of direct team blocks, closed view. -/
theorem mdRun_teamBlocksDirect (supply : Nat → Str) {ts : List TeamI}
    (hts : ∀ t ∈ ts, goodTeam t) :
    ∀ (st : MdState) (n : Nat) (G : GroupI), st.curGroup = some G →
      st.curDivision = none →
    ∃ (ts' : List TeamI) (c : Nat),
      finishTeam (mdRun supply st n
          ((ts.map (fun t => ([] :: (S "### " ++ t.name) :: [])
            ++ formatTeamMembers t.members)).flatten))
        = { st with curGroup := some { G with teams := teamsAfterClose G st.curTeam ++ ts' }
                    curTeam := none, ctr := c }
      ∧ ts'.map eraseTeam = ts.map eraseTeam := by
  induction ts with
  | nil =>
    intro st n G hgr hdiv
    refine ⟨[], st.ctr, ?_, rfl⟩
    simp only [List.map_nil, List.flatten_nil]
    rw [show mdRun supply st n [] = st from rfl]
    rw [finishTeam_eq hgr]
    rw [List.append_nil]
  | cons t ts' ih =>
    intro st n G hgr hdiv
    rw [List.map_cons, List.flatten_cons, mdRun_append]
    obtain ⟨t', c2, hrun1, hv1⟩ := mdRun_teamBlockDirect supply (hts t (by simp)) st n G
      hgr hdiv
    have hrun1' : mdRun supply st n (([] :: (S "### " ++ t.name) :: [])
        ++ formatTeamMembers t.members)
        = { st with curGroup := some { G with teams := teamsAfterClose G st.curTeam }, curTeam := some t', ctr := c2 } := by
      rw [hrun1, finishTeam_eq hgr]
    rw [hrun1']
    obtain ⟨ts'', c'', hrun2, hv2⟩ := ih (fun x hx => hts x (by simp [hx]))
      { st with curGroup := some { G with teams := teamsAfterClose G st.curTeam }, curTeam := some t', ctr := c2 } _
      { G with teams := teamsAfterClose G st.curTeam } rfl hdiv
    rw [hrun2]
    refine ⟨t' :: ts'', c'', ?_, ?_⟩
    · rw [show teamsAfterClose { G with teams := teamsAfterClose G st.curTeam }
        (some t') = teamsAfterClose G st.curTeam ++ [t'] from rfl]
      rw [List.append_assoc]
      rw [show [t'] ++ ts'' = t' :: ts'' from rfl]
    · rw [List.map_cons, List.map_cons, hv2, hv1]

/-- Chain of `Staff:` lines. -/
theorem mdRun_staffLines (supply : Nat → Str) {ses : List PersonI}
    (hses : ∀ se ∈ ses, goodLeader se staff_engineer) :
    ∀ (st : MdState) (n : Nat) (G : GroupI), st.curGroup = some G →
    ∃ (ps : List PersonI) (c : Nat),
      mdRun supply st n (ses.map (fun se => S "Staff: " ++ leaderPersonLine se))
        = { st with curGroup := some { G with staffEngineers := G.staffEngineers ++ ps }
                    ctr := c }
      ∧ ps.map erasePerson = ses.map erasePerson := by
  induction ses with
  | nil =>
    intro st n G hgr
    refine ⟨[], st.ctr, ?_, rfl⟩
    simp only [List.map_nil]
    rw [show mdRun supply st n [] = st from rfl]
    rw [List.append_nil, ← hgr]
  | cons se ses' ih =>
    intro st n G hgr
    have hgl := hses se (by simp)
    obtain ⟨nm, hnm⟩ := Option.isSome_iff_exists.mp hgl.2.2
    obtain ⟨l, hl⟩ := Option.isSome_iff_exists.mp hgl.1.2.2.1
    rw [List.map_cons]
    show ∃ ps c, mdRun supply
      (processLine supply st n (S "Staff: " ++ leaderPersonLine se)) (n + 1) _ = _ ∧ _
    rw [processLine_staff supply st n hgl.1 hnm hl hgr]
    obtain ⟨ps', c', hrun, herase⟩ := ih (fun x hx => hses x (by simp [hx]))
      { st with curGroup := some { G with staffEngineers := G.staffEngineers ++ [{ id := supply st.ctr, name := some nm, role := staff_engineer, type := se.type, vendor := se.vendor, location := some l }] }, ctr := st.ctr + 1 }
      (n + 1)
      { G with staffEngineers := G.staffEngineers ++ [{ id := supply st.ctr, name := some nm, role := staff_engineer, type := se.type, vendor := se.vendor, location := some l }] }
      rfl
    rw [hrun]
    refine ⟨{ id := supply st.ctr, name := some nm, role := staff_engineer, type := se.type, vendor := se.vendor, location := some l } :: ps', c', ?_, ?_⟩
    · rw [show G.staffEngineers ++ ({ id := supply st.ctr, name := some nm, role := staff_engineer, type := se.type, vendor := se.vendor, location := some l } : PersonI) :: ps' = (G.staffEngineers ++ [{ id := supply st.ctr, name := some nm, role := staff_engineer, type := se.type, vendor := se.vendor, location := some l }]) ++ ps' from by rw [List.append_cons]]
    · rw [List.map_cons, List.map_cons, herase]
      congr 1
      rw [show erasePerson se = { name := se.name, role := se.role, type := se.type, vendor := se.vendor, location := se.location } from rfl]
      rw [hnm, hl, hgl.2.1]
      rfl

theorem closeG_eq (g : GroupI) (ct : Option TeamI) :
    closeG g ct = { g with teams := teamsAfterClose g ct } := by
  cases ct <;> rfl

theorem finishTeam_curTeam_none {st : MdState}
    (h : st.curTeam = none ∨ st.curGroup ≠ none) : (finishTeam st).curTeam = none := by
  rcases hct : st.curTeam with _ | t
  · unfold finishTeam
    rw [hct]
    rcases hcg : st.curGroup with _ | g
    · exact hct
    · exact hct
  · rcases hcg : st.curGroup with _ | g
    · rcases h with h | h
      · rw [hct] at h
        exact Option.noConfusion h
      · exact absurd hcg h
    · unfold finishTeam
      rw [hct, hcg]

theorem finishGroup_curGroup_none (st : MdState) : (finishGroup st).curGroup = none := by
  unfold finishGroup
  dsimp only
  cases hcg : (finishTeam st).curGroup with
  | none => exact hcg
  | some g =>
    cases hgid : (finishTeam st).groupInDivision <;>
      cases hcd : (finishTeam st).curDivision <;> rfl

theorem finishGroup_curTeam_none {st : MdState}
    (h : st.curTeam = none ∨ st.curGroup ≠ none) : (finishGroup st).curTeam = none := by
  unfold finishGroup
  dsimp only
  have hft := finishTeam_curTeam_none h
  cases hcg : (finishTeam st).curGroup with
  | none => exact hft
  | some g =>
    cases hgid : (finishTeam st).groupInDivision <;>
      cases hcd : (finishTeam st).curDivision <;> exact hft

theorem finishDivision_curDivision_none (st : MdState) :
    (finishDivision st).curDivision = none := by
  unfold finishDivision
  dsimp only
  cases hcd : (finishGroup st).curDivision with
  | none => exact hcd
  | some d => rfl

theorem finishDivision_curGroup_none (st : MdState) :
    (finishDivision st).curGroup = none := by
  unfold finishDivision
  dsimp only
  have hfg := finishGroup_curGroup_none st
  cases hcd : (finishGroup st).curDivision with
  | none => exact hfg
  | some d => exact hfg

theorem finishDivision_curTeam_none {st : MdState}
    (h : st.curTeam = none ∨ st.curGroup ≠ none) : (finishDivision st).curTeam = none := by
  unfold finishDivision
  dsimp only
  have hfg := finishGroup_curTeam_none h
  cases hcd : (finishGroup st).curDivision with
  | none => exact hfg
  | some d => exact hfg

theorem finishGroup_of_none {st : MdState} (hcg : st.curGroup = none)
    (hct : st.curTeam = none) : finishGroup st = st := by
  unfold finishGroup
  dsimp only
  rw [finishTeam_of_none hct, hcg]

theorem finishGroup_eq_div {st : MdState} {g : GroupI} {d : DivisionI}
    (hcg : st.curGroup = some g) (hgid : st.groupInDivision = true)
    (hcd : st.curDivision = some d) :
    finishGroup st = { st with
      curDivision := some { d with groups := d.groups ++ [closeG g st.curTeam] }
      curGroup := none, curTeam := none } := by
  unfold finishGroup
  dsimp only
  rw [finishTeam_eq hcg]
  rw [closeG_eq]
  dsimp only
  rw [hgid, hcd]

theorem finishGroup_eq_direct {st : MdState} {g : GroupI}
    (hcg : st.curGroup = some g) (hgid : st.groupInDivision = false) :
    finishGroup st = { st with
      directGroups := st.directGroups ++ [closeG g st.curTeam]
      curGroup := none, curTeam := none } := by
  unfold finishGroup
  dsimp only
  rw [finishTeam_eq hcg]
  rw [closeG_eq]
  dsimp only
  rw [hgid]

theorem finishDivision_of_none {st : MdState} (hcd : st.curDivision = none)
    (hcg : st.curGroup = none) (hct : st.curTeam = none) : finishDivision st = st := by
  unfold finishDivision
  dsimp only
  rw [finishGroup_of_none hcg hct, hcd]

/-! ### Group blocks -/

/-- The manager / managed-by lines of a group block. -/
def mgrLines (g : GroupI) : List Str :=
  match g.manager with
  | some m => [S "Manager: " ++ leaderPersonLine m]
  | none => match g.managedBy with
    | some mb => if !mb.isEmpty then [S "Managed by: " ++ mb] else []
    | none => []

theorem teamsAfterClose_none (G : GroupI) : teamsAfterClose G none = G.teams := rfl

theorem mdRun_mgrLines (supply : Nat → Str) {g : GroupI} (hg : goodGroup g)
    (st : MdState) (n : Nat) {G : GroupI} (hgr : st.curGroup = some G)
    (hGm : G.manager = none) :
    ∃ (mo : Option PersonI) (mbo : Option Str) (c : Nat),
      mdRun supply st n (mgrLines g)
        = { st with curGroup := some { G with manager := mo, managedBy := mbo }, ctr := c }
      ∧ mo.map erasePerson = g.manager.map erasePerson := by
  cases hm : g.manager with
  | some m =>
    have hgl := hg.2.2.1 m hm
    obtain ⟨nm, hnm⟩ := Option.isSome_iff_exists.mp hgl.2.2
    obtain ⟨l, hl⟩ := Option.isSome_iff_exists.mp hgl.1.2.2.1
    rw [show mgrLines g = [S "Manager: " ++ leaderPersonLine m] from by
      unfold mgrLines
      rw [hm]]
    rw [show mdRun supply st n [S "Manager: " ++ leaderPersonLine m]
      = processLine supply st n (S "Manager: " ++ leaderPersonLine m) from rfl]
    rw [processLine_manager supply st n hgl.1 hnm hl hgr]
    refine ⟨some { id := supply st.ctr, name := some nm, role := engineering_manager, type := m.type, vendor := m.vendor, location := some l }, G.managedBy, st.ctr + 1, rfl, ?_⟩
    rw [show Option.map erasePerson (some m) = some (erasePerson m) from rfl]
    rw [show erasePerson m = { name := m.name, role := m.role, type := m.type, vendor := m.vendor, location := m.location } from rfl]
    rw [hnm, hl, hgl.2.1]
    rfl
  | none =>
    cases hmb : g.managedBy with
    | some mb =>
      have hgmb := hg.2.2.2.1 mb hmb
      by_cases hne : mb = []
      · rw [show mgrLines g = [] from by
          unfold mgrLines
          rw [hm, hmb, hne]
          rfl]
        refine ⟨none, G.managedBy, st.ctr, ?_, rfl⟩
        rw [show mdRun supply st n [] = st from rfl]
        conv_rhs => rw [← hGm,
          show ({ G with manager := G.manager, managedBy := G.managedBy } : GroupI) = G
            from rfl, ← hgr]
      · rcases hgmb with h0 | ⟨hj, hne', hnl⟩
        · exact absurd h0 hne
        have hmbT : TrimmedNE mb := trimmedNE_of_jsTrim hj hne'
        rw [show mgrLines g = [S "Managed by: " ++ mb] from by
          unfold mgrLines
          rw [hm, hmb]
          dsimp only
          rw [if_pos (show (!mb.isEmpty) = true from by
            rw [isEmpty_false_of_ne hne]
            rfl)]]
        rw [show mdRun supply st n [S "Managed by: " ++ mb]
          = processLine supply st n (S "Managed by: " ++ mb) from rfl]
        rw [processLine_managedBy supply st n hmbT hgr]
        refine ⟨none, some mb, st.ctr, ?_, rfl⟩
        conv_rhs => rw [← hGm]
    | none =>
      rw [show mgrLines g = [] from by
        unfold mgrLines
        rw [hm, hmb]]
      refine ⟨none, G.managedBy, st.ctr, ?_, rfl⟩
      rw [show mdRun supply st n [] = st from rfl]
      conv_rhs => rw [← hGm,
        show ({ G with manager := G.manager, managedBy := G.managedBy } : GroupI) = G
          from rfl, ← hgr]

theorem finishTeam_curDivision (st : MdState) : (finishTeam st).curDivision = st.curDivision := by
  unfold finishTeam
  cases hct : st.curTeam <;> cases hcg : st.curGroup <;> rfl

theorem finishTeam_of_nogroup {st : MdState} (h : st.curGroup = none) :
    finishTeam st = st := by
  unfold finishTeam
  cases hct : st.curTeam <;> rw [h]

theorem finishGroup_of_nogroup {st : MdState} (h : st.curGroup = none) :
    finishGroup st = st := by
  unfold finishGroup
  dsimp only
  rw [finishTeam_of_nogroup h, h]

theorem finishDivision_curTeam_of_nogroup {st : MdState} (h : st.curGroup = none) :
    (finishDivision st).curTeam = st.curTeam := by
  unfold finishDivision
  dsimp only
  rw [finishGroup_of_nogroup h]
  cases hcd : st.curDivision <;> rfl

theorem safety_of_fd {X Y : MdState} (h : finishDivision X = Y) (hy : Y.curTeam = none) :
    X.curTeam = none ∨ X.curGroup ≠ none := by
  by_cases hg : X.curGroup = none
  · left
    have h2 := finishDivision_curTeam_of_nogroup hg
    rw [h, hy] at h2
    exact h2.symm
  · right
    exact hg

theorem curGroup_some_of_ft {X : MdState} {g : GroupI}
    (h : (finishTeam X).curGroup = some g) : X.curGroup ≠ none := by
  intro hn
  rw [finishTeam_of_nogroup hn, hn] at h
  exact Option.noConfusion h

theorem finishGroup_congr_ft {X Y : MdState} (h : finishTeam X = Y)
    (hy : Y.curTeam = none) : finishGroup X = finishGroup Y := by
  unfold finishGroup
  dsimp only
  rw [h, finishTeam_of_none hy]

theorem finishDivision_congr_ft {X Y : MdState} (h : finishTeam X = Y)
    (hy : Y.curTeam = none) : finishDivision X = finishDivision Y := by
  unfold finishDivision
  dsimp only
  rw [finishGroup_congr_ft h hy]

theorem finishDivision_eq {st : MdState} {d : DivisionI} (hcd : st.curDivision = some d)
    (hcg : st.curGroup = none) (hct : st.curTeam = none) :
    finishDivision st = { st with divisions := st.divisions ++ [d], curDivision := none } := by
  unfold finishDivision
  dsimp only
  rw [finishGroup_of_none hcg hct, hcd]

theorem finishDivision_eq_of_fg {X Y : MdState} (h : finishGroup X = Y) {d : DivisionI}
    (hcd : Y.curDivision = some d) :
    finishDivision X = { Y with divisions := Y.divisions ++ [d], curDivision := none } := by
  unfold finishDivision
  dsimp only
  rw [h, hcd]

/-- The body of a direct group block: manager / managed-by line, staff
lines and the depth-3 team blocks, starting from a freshly opened group. -/
theorem mdRun_groupBodyDirect (supply : Nat → Str) {g : GroupI} (hg : goodGroup g)
    (st : MdState) (n : Nat) (G : GroupI) (hgr : st.curGroup = some G)
    (hct : st.curTeam = none) (hcd : st.curDivision = none)
    (hGm : G.manager = none) (hGs : G.staffEngineers = [])
    (hGt : G.teams = []) (hGn : G.name = g.name) :
    ∃ (g' : GroupI) (c : Nat),
      finishTeam (mdRun supply st n
          ((mgrLines g ++ g.staffEngineers.map (fun se => S "Staff: " ++ leaderPersonLine se))
            ++ (g.teams.map (fun t => ([] :: (S "### " ++ t.name) :: [])
                ++ formatTeamMembers t.members)).flatten))
        = { st with curGroup := some g', curTeam := none, ctr := c }
      ∧ eraseGroup g' = eraseGroup g := by
  obtain ⟨mo, mbo, c1, hrun1, hvm⟩ := mdRun_mgrLines supply hg st n hgr hGm
  rw [mdRun_append, mdRun_append, hrun1]
  obtain ⟨ps, c2, hrun2, hvs⟩ := mdRun_staffLines supply hg.2.2.2.2.1 { st with curGroup := some { G with manager := mo, managedBy := mbo }, ctr := c1 } (n + (mgrLines g).length) { G with manager := mo, managedBy := mbo } rfl
  have hrun2f : mdRun supply { st with curGroup := some { G with manager := mo, managedBy := mbo }, ctr := c1 } (n + (mgrLines g).length) (g.staffEngineers.map (fun se => S "Staff: " ++ leaderPersonLine se)) = { st with curGroup := some { G with manager := mo, managedBy := mbo, staffEngineers := G.staffEngineers ++ ps }, ctr := c2 } := hrun2
  rw [hrun2f]
  rw [hGs, hGt, hGn, hct]
  simp only [List.nil_append]
  obtain ⟨ts', c3, hrun3, hvt⟩ := mdRun_teamBlocksDirect supply hg.2.2.2.2.2 { st with curGroup := some { id := G.id, name := g.name, manager := mo, managedBy := mbo, staffEngineers := ps, teams := [] }, curTeam := none, ctr := c2 } (n + (mgrLines g ++ g.staffEngineers.map (fun se => S "Staff: " ++ leaderPersonLine se)).length) { id := G.id, name := g.name, manager := mo, managedBy := mbo, staffEngineers := ps, teams := [] } rfl hcd
  refine ⟨_, _, hrun3, ?_⟩
  dsimp only [eraseGroup, teamsAfterClose, List.nil_append]
  rw [hvm, hvs, hvt]

/-- The body of an in-division group block: manager / managed-by line,
staff lines and the depth-4 team blocks, from a freshly opened group. -/
theorem mdRun_groupBodyDiv (supply : Nat → Str) {g : GroupI} (hg : goodGroup g)
    (st : MdState) (n : Nat) (G : GroupI) (hgr : st.curGroup = some G)
    (hct : st.curTeam = none)
    (hGm : G.manager = none) (hGs : G.staffEngineers = [])
    (hGt : G.teams = []) (hGn : G.name = g.name) :
    ∃ (g' : GroupI) (c : Nat),
      finishTeam (mdRun supply st n
          ((mgrLines g ++ g.staffEngineers.map (fun se => S "Staff: " ++ leaderPersonLine se))
            ++ (g.teams.map (fun t => ([] :: (S "#### " ++ t.name) :: [])
                ++ formatTeamMembers t.members)).flatten))
        = { st with curGroup := some g', curTeam := none, ctr := c }
      ∧ eraseGroup g' = eraseGroup g := by
  obtain ⟨mo, mbo, c1, hrun1, hvm⟩ := mdRun_mgrLines supply hg st n hgr hGm
  rw [mdRun_append, mdRun_append, hrun1]
  obtain ⟨ps, c2, hrun2, hvs⟩ := mdRun_staffLines supply hg.2.2.2.2.1 { st with curGroup := some { G with manager := mo, managedBy := mbo }, ctr := c1 } (n + (mgrLines g).length) { G with manager := mo, managedBy := mbo } rfl
  have hrun2f : mdRun supply { st with curGroup := some { G with manager := mo, managedBy := mbo }, ctr := c1 } (n + (mgrLines g).length) (g.staffEngineers.map (fun se => S "Staff: " ++ leaderPersonLine se)) = { st with curGroup := some { G with manager := mo, managedBy := mbo, staffEngineers := G.staffEngineers ++ ps }, ctr := c2 } := hrun2
  rw [hrun2f]
  rw [hGs, hGt, hGn, hct]
  simp only [List.nil_append]
  obtain ⟨ts', c3, hrun3, hvt⟩ := mdRun_teamBlocksDiv supply hg.2.2.2.2.2 { st with curGroup := some { id := G.id, name := g.name, manager := mo, managedBy := mbo, staffEngineers := ps, teams := [] }, curTeam := none, ctr := c2 } (n + (mgrLines g ++ g.staffEngineers.map (fun se => S "Staff: " ++ leaderPersonLine se)).length) { id := G.id, name := g.name, manager := mo, managedBy := mbo, staffEngineers := ps, teams := [] } rfl
  refine ⟨_, _, hrun3, ?_⟩
  dsimp only [eraseGroup, teamsAfterClose, List.nil_append]
  rw [hvm, hvs, hvt]

theorem mdRun_cons (supply : Nat → Str) (st : MdState) (n : Nat) (l : Str) (ls : List Str) :
    mdRun supply st n (l :: ls) = mdRun supply (processLine supply st n l) (n + 1) ls := rfl

/-- A whole direct (depth-2) group block. -/
theorem mdRun_groupBlockDirect (supply : Nat → Str) {g : GroupI} (hg : goodGroup g)
    (st : MdState) (n : Nat) (hsafe : st.curTeam = none ∨ st.curGroup ≠ none) :
    ∃ (g' : GroupI) (c : Nat),
      finishTeam (mdRun supply st n (generateGroupLines g 2))
        = { finishDivision st with curGroup := some g', curTeam := none, groupInDivision := false, ctr := c }
      ∧ eraseGroup g' = eraseGroup g := by
  rw [show generateGroupLines g 2 = (S "## " ++ g.name) :: ((mgrLines g ++ g.staffEngineers.map (fun se => S "Staff: " ++ leaderPersonLine se)) ++ (g.teams.map (fun t => ([] :: (S "### " ++ t.name) :: []) ++ formatTeamMembers t.members)).flatten) from rfl]
  rw [mdRun_cons]
  rw [processLine_directGroup supply st n hg.1 hg.2.1]
  obtain ⟨g', c, hrun, hv⟩ := mdRun_groupBodyDirect supply hg { finishDivision st with curGroup := some { id := supply (finishDivision st).ctr, name := g.name, manager := none, managedBy := none, staffEngineers := [], teams := [] }, groupInDivision := false, ctr := (finishDivision st).ctr + 1 } (n + 1) { id := supply (finishDivision st).ctr, name := g.name, manager := none, managedBy := none, staffEngineers := [], teams := [] } rfl (finishDivision_curTeam_none hsafe) (finishDivision_curDivision_none st) rfl rfl rfl rfl
  exact ⟨g', c, hrun, hv⟩

/-- A whole in-division (depth-3) group block. -/
theorem mdRun_groupBlockDiv (supply : Nat → Str) {g : GroupI} (hg : goodGroup g)
    (st : MdState) (n : Nat) {d : DivisionI} (hdiv : st.curDivision = some d)
    (hsafe : st.curTeam = none ∨ st.curGroup ≠ none) :
    ∃ (g' : GroupI) (c : Nat),
      finishTeam (mdRun supply st n (generateGroupLines g 3))
        = { finishGroup st with curGroup := some g', curTeam := none, groupInDivision := true, ctr := c }
      ∧ eraseGroup g' = eraseGroup g := by
  rw [show generateGroupLines g 3 = (S "### " ++ g.name) :: ((mgrLines g ++ g.staffEngineers.map (fun se => S "Staff: " ++ leaderPersonLine se)) ++ (g.teams.map (fun t => ([] :: (S "#### " ++ t.name) :: []) ++ formatTeamMembers t.members)).flatten) from rfl]
  rw [mdRun_cons]
  rw [processLine_divGroup supply st n hg.1 hdiv]
  obtain ⟨g', c, hrun, hv⟩ := mdRun_groupBodyDiv supply hg { finishGroup st with curGroup := some { id := supply (finishGroup st).ctr, name := g.name, manager := none, managedBy := none, staffEngineers := [], teams := [] }, groupInDivision := true, ctr := (finishGroup st).ctr + 1 } (n + 1) { id := supply (finishGroup st).ctr, name := g.name, manager := none, managedBy := none, staffEngineers := [], teams := [] } rfl (finishGroup_curTeam_none hsafe) rfl rfl rfl rfl
  exact ⟨g', c, hrun, hv⟩

theorem finishDivision_eq_of_fg_none {X Y : MdState} (h : finishGroup X = Y)
    (hcd : Y.curDivision = none) : finishDivision X = Y := by
  unfold finishDivision
  dsimp only
  rw [h, hcd]

theorem finishGroup_open_direct (A : MdState) (g1 : GroupI) (c1 : Nat) :
    finishGroup { A with curGroup := some g1, curTeam := none, groupInDivision := false, ctr := c1 }
      = { A with directGroups := A.directGroups ++ [g1], curGroup := none, curTeam := none, groupInDivision := false, ctr := c1 } := by
  rw [@finishGroup_eq_direct { A with curGroup := some g1, curTeam := none, groupInDivision := false, ctr := c1 } g1 rfl rfl]
  rfl

theorem finishGroup_open_div (A : MdState) (g1 : GroupI) (c1 : Nat) {dA : DivisionI}
    (hcd : A.curDivision = some dA) :
    finishGroup { A with curGroup := some g1, curTeam := none, groupInDivision := true, ctr := c1 }
      = { A with curDivision := some { dA with groups := dA.groups ++ [g1] }, curGroup := none, curTeam := none, groupInDivision := true, ctr := c1 } := by
  rw [@finishGroup_eq_div { A with curGroup := some g1, curTeam := none, groupInDivision := true, ctr := c1 } g1 dA rfl rfl hcd]
  rfl

/-- Chain of direct group blocks, each preceded by a blank line. -/
theorem mdRun_groupChainDirect (supply : Nat → Str) {gs : List GroupI}
    (hgs : ∀ g ∈ gs, goodGroup g) :
    ∀ (st : MdState) (n : Nat), (st.curTeam = none ∨ st.curGroup ≠ none) →
    ∃ (gs' : List GroupI) (b : Bool) (c : Nat),
      finishDivision (mdRun supply st n
          ((gs.map (fun g => [] :: generateGroupLines g 2)).flatten))
        = { finishDivision st with directGroups := (finishDivision st).directGroups ++ gs', curDivision := none, curGroup := none, curTeam := none, groupInDivision := b, ctr := c }
      ∧ gs'.map eraseGroup = gs.map eraseGroup := by
  induction gs with
  | nil =>
    intro st n hsafe
    refine ⟨[], (finishDivision st).groupInDivision, (finishDivision st).ctr, ?_, rfl⟩
    simp only [List.map_nil, List.flatten_nil]
    rw [show mdRun supply st n [] = st from rfl]
    rw [List.append_nil]
    rw [← finishDivision_curDivision_none st, ← finishDivision_curGroup_none st,
      ← finishDivision_curTeam_none hsafe]
  | cons gcur rest ih =>
    intro st n hsafe
    rw [List.map_cons, List.flatten_cons, mdRun_append]
    rw [mdRun_cons, processLine_blank]
    obtain ⟨g1, c1, hrun1, hv1⟩ := mdRun_groupBlockDirect supply (hgs gcur (by simp)) st
      (n + 1) hsafe
    have hsafe1 : (mdRun supply st (n + 1) (generateGroupLines gcur 2)).curTeam = none
        ∨ (mdRun supply st (n + 1) (generateGroupLines gcur 2)).curGroup ≠ none :=
      Or.inr (curGroup_some_of_ft (g := g1) (by rw [hrun1]))
    obtain ⟨gs'', b, c, hrun2, hv2⟩ := ih (fun x hx => hgs x (by simp [hx]))
      (mdRun supply st (n + 1) (generateGroupLines gcur 2))
      (n + ([] :: generateGroupLines gcur 2).length) hsafe1
    have hfd1 : finishDivision (mdRun supply st (n + 1) (generateGroupLines gcur 2))
        = { finishDivision st with directGroups := (finishDivision st).directGroups ++ [g1], curGroup := none, curTeam := none, groupInDivision := false, ctr := c1 } := by
      rw [finishDivision_congr_ft hrun1 rfl]
      exact finishDivision_eq_of_fg_none
        (finishGroup_open_direct (finishDivision st) g1 c1)
        (finishDivision_curDivision_none st)
    rw [hfd1] at hrun2
    dsimp only at hrun2
    rw [List.append_assoc] at hrun2
    simp only [List.singleton_append] at hrun2
    refine ⟨g1 :: gs'', b, c, hrun2, ?_⟩
    rw [List.map_cons, List.map_cons, hv1, hv2]

/-- Chain of in-division group blocks, each preceded by a blank line. -/
theorem mdRun_groupChainDiv (supply : Nat → Str) {gs : List GroupI}
    (hgs : ∀ g ∈ gs, goodGroup g) :
    ∀ (st : MdState) (n : Nat) (d dF : DivisionI), st.curDivision = some d →
      (finishGroup st).curDivision = some dF →
      (st.curTeam = none ∨ st.curGroup ≠ none) →
    ∃ (gs' : List GroupI) (b : Bool) (c : Nat),
      finishGroup (mdRun supply st n
          ((gs.map (fun g => [] :: generateGroupLines g 3)).flatten))
        = { finishGroup st with curDivision := some { dF with groups := dF.groups ++ gs' }, curGroup := none, curTeam := none, groupInDivision := b, ctr := c }
      ∧ gs'.map eraseGroup = gs.map eraseGroup := by
  induction gs with
  | nil =>
    intro st n d dF hd hdF hsafe
    refine ⟨[], (finishGroup st).groupInDivision, (finishGroup st).ctr, ?_, rfl⟩
    simp only [List.map_nil, List.flatten_nil]
    rw [show mdRun supply st n [] = st from rfl]
    rw [List.append_nil]
    rw [show ({ dF with groups := dF.groups } : DivisionI) = dF from rfl]
    rw [← hdF, ← finishGroup_curGroup_none st, ← finishGroup_curTeam_none hsafe]
  | cons gcur rest ih =>
    intro st n d dF hd hdF hsafe
    rw [List.map_cons, List.flatten_cons, mdRun_append]
    rw [mdRun_cons, processLine_blank]
    obtain ⟨g1, c1, hrun1, hv1⟩ := mdRun_groupBlockDiv supply (hgs gcur (by simp)) st
      (n + 1) hd hsafe
    have hsafe1 : (mdRun supply st (n + 1) (generateGroupLines gcur 3)).curTeam = none
        ∨ (mdRun supply st (n + 1) (generateGroupLines gcur 3)).curGroup ≠ none :=
      Or.inr (curGroup_some_of_ft (g := g1) (by rw [hrun1]))
    have hd1 : (mdRun supply st (n + 1) (generateGroupLines gcur 3)).curDivision = some dF := by
      rw [← finishTeam_curDivision, hrun1]
      exact hdF
    have hfg1 : finishGroup (mdRun supply st (n + 1) (generateGroupLines gcur 3))
        = { finishGroup st with curDivision := some { dF with groups := dF.groups ++ [g1] }, curGroup := none, curTeam := none, groupInDivision := true, ctr := c1 } := by
      rw [finishGroup_congr_ft hrun1 rfl]
      exact finishGroup_open_div (finishGroup st) g1 c1 hdF
    have hdF1 : (finishGroup (mdRun supply st (n + 1) (generateGroupLines gcur 3))).curDivision
        = some { dF with groups := dF.groups ++ [g1] } := by
      rw [hfg1]
    obtain ⟨gs'', b, c, hrun2, hv2⟩ := ih (fun x hx => hgs x (by simp [hx]))
      (mdRun supply st (n + 1) (generateGroupLines gcur 3))
      (n + ([] :: generateGroupLines gcur 3).length) dF { dF with groups := dF.groups ++ [g1] }
      hd1 hdF1 hsafe1
    rw [hfg1] at hrun2
    dsimp only at hrun2
    rw [List.append_assoc] at hrun2
    simp only [List.singleton_append] at hrun2
    refine ⟨g1 :: gs'', b, c, hrun2, ?_⟩
    rw [List.map_cons, List.map_cons, hv1, hv2]

/-! ### Division blocks -/

theorem enumFrom_groupLines (rest : List GroupI) : ∀ (k : Nat), 1 ≤ k →
    ((List.enumFrom k rest).map (fun p => (if p.1 > 0 then [[]] else [])
        ++ generateGroupLines p.2 3)).flatten
      = (rest.map (fun g => [] :: generateGroupLines g 3)).flatten := by
  induction rest with
  | nil => intro k hk; rfl
  | cons r rs ih =>
    intro k hk
    rw [show List.enumFrom k (r :: rs) = (k, r) :: List.enumFrom (k + 1) rs from rfl]
    rw [List.map_cons, List.flatten_cons]
    dsimp only
    rw [if_pos (by omega : k > 0)]
    rw [ih (k + 1) (by omega)]
    rw [List.map_cons, List.flatten_cons]
    rw [List.singleton_append, List.cons_append]

theorem divGroups_lines {gs : List GroupI} (h : gs ≠ []) :
    [] :: ((gs.enum.map (fun p => (if p.1 > 0 then [[]] else [])
        ++ generateGroupLines p.2 3)).flatten)
      = (gs.map (fun g => [] :: generateGroupLines g 3)).flatten := by
  cases gs with
  | nil => exact absurd rfl h
  | cons g rest =>
    rw [show (g :: rest).enum = (0, g) :: List.enumFrom 1 rest from rfl]
    rw [List.map_cons, List.flatten_cons]
    dsimp only
    rw [if_neg (by omega : ¬ (0 : Nat) > 0)]
    rw [enumFrom_groupLines rest 1 (by omega)]
    rw [List.map_cons, List.flatten_cons]
    rw [List.nil_append, List.cons_append]

/-- A whole division block (without its leading blank line). -/
theorem mdRun_divisionBlock (supply : Nat → Str) {d : DivisionI} (hd : goodDivision d)
    (st : MdState) (n : Nat) (hsafe : st.curTeam = none ∨ st.curGroup ≠ none) :
    ∃ (d' : DivisionI) (b : Bool) (c : Nat),
      finishDivision (mdRun supply st n (generateDivisionLines d))
        = { finishDivision st with divisions := (finishDivision st).divisions ++ [d'], curDivision := none, curGroup := none, curTeam := none, groupInDivision := b, ctr := c }
      ∧ eraseDivision d' = eraseDivision d := by
  rw [show generateDivisionLines d = (S "## Division: " ++ d.name) :: [] :: ((d.groups.enum.map (fun p => (if p.1 > 0 then [[]] else []) ++ generateGroupLines p.2 3)).flatten) from rfl]
  rw [mdRun_cons, processLine_division supply st n hd.1]
  rw [mdRun_cons, processLine_blank]
  by_cases hne : d.groups = []
  · rw [hne]
    rw [show (([] : List GroupI).enum.map (fun p => (if p.1 > 0 then [[]] else []) ++ generateGroupLines p.2 3)).flatten = ([] : List Str) from rfl]
    rw [show ∀ (A : MdState), mdRun supply A (n + 1 + 1) [] = A from fun A => rfl]
    rw [@finishDivision_eq { finishDivision st with curDivision := some { id := supply (finishDivision st).ctr, name := d.name, groups := [] }, groupInDivision := false, ctr := (finishDivision st).ctr + 1 } { id := supply (finishDivision st).ctr, name := d.name, groups := [] } rfl (finishDivision_curGroup_none st) (finishDivision_curTeam_none hsafe)]
    refine ⟨{ id := supply (finishDivision st).ctr, name := d.name, groups := [] }, false, (finishDivision st).ctr + 1, ?_, ?_⟩
    · dsimp only
      rw [finishDivision_curGroup_none st, finishDivision_curTeam_none hsafe]
    · dsimp only [eraseDivision]
      rw [hne]
  · have hcg1 : ({ finishDivision st with curDivision := some { id := supply (finishDivision st).ctr, name := d.name, groups := [] }, groupInDivision := false, ctr := (finishDivision st).ctr + 1 } : MdState).curGroup = none :=
      finishDivision_curGroup_none st
    have hct1 : ({ finishDivision st with curDivision := some { id := supply (finishDivision st).ctr, name := d.name, groups := [] }, groupInDivision := false, ctr := (finishDivision st).ctr + 1 } : MdState).curTeam = none :=
      finishDivision_curTeam_none hsafe
    have heq : mdRun supply { finishDivision st with curDivision := some { id := supply (finishDivision st).ctr, name := d.name, groups := [] }, groupInDivision := false, ctr := (finishDivision st).ctr + 1 } (n + 1 + 1) ((d.groups.enum.map (fun p => (if p.1 > 0 then [[]] else []) ++ generateGroupLines p.2 3)).flatten) = mdRun supply { finishDivision st with curDivision := some { id := supply (finishDivision st).ctr, name := d.name, groups := [] }, groupInDivision := false, ctr := (finishDivision st).ctr + 1 } (n + 1) ([] :: (d.groups.enum.map (fun p => (if p.1 > 0 then [[]] else []) ++ generateGroupLines p.2 3)).flatten) := by
      rw [mdRun_cons, processLine_blank]
    rw [heq, divGroups_lines hne]
    obtain ⟨gs', b, c, hrun, hv⟩ := mdRun_groupChainDiv supply hd.2
      { finishDivision st with curDivision := some { id := supply (finishDivision st).ctr, name := d.name, groups := [] }, groupInDivision := false, ctr := (finishDivision st).ctr + 1 }
      (n + 1) { id := supply (finishDivision st).ctr, name := d.name, groups := [] } { id := supply (finishDivision st).ctr, name := d.name, groups := [] } rfl
      (by rw [finishGroup_of_none hcg1 hct1])
      (Or.inl hct1)
    rw [finishGroup_of_none hcg1 hct1] at hrun
    rw [finishDivision_eq_of_fg hrun rfl]
    refine ⟨{ id := supply (finishDivision st).ctr, name := d.name, groups := gs' }, b, c, ?_, ?_⟩
    · rfl
    · dsimp only [eraseDivision]
      rw [hv]

/-- Chain of division blocks, each preceded by a blank line. -/
theorem mdRun_divisionChain (supply : Nat → Str) {ds : List DivisionI}
    (hds : ∀ d ∈ ds, goodDivision d) :
    ∀ (st : MdState) (n : Nat), (st.curTeam = none ∨ st.curGroup ≠ none) →
    ∃ (ds' : List DivisionI) (b : Bool) (c : Nat),
      finishDivision (mdRun supply st n
          ((ds.map (fun d => [] :: generateDivisionLines d)).flatten))
        = { finishDivision st with divisions := (finishDivision st).divisions ++ ds', curDivision := none, curGroup := none, curTeam := none, groupInDivision := b, ctr := c }
      ∧ ds'.map eraseDivision = ds.map eraseDivision := by
  induction ds with
  | nil =>
    intro st n hsafe
    refine ⟨[], (finishDivision st).groupInDivision, (finishDivision st).ctr, ?_, rfl⟩
    simp only [List.map_nil, List.flatten_nil]
    rw [show mdRun supply st n [] = st from rfl]
    rw [List.append_nil]
    rw [← finishDivision_curDivision_none st, ← finishDivision_curGroup_none st,
      ← finishDivision_curTeam_none hsafe]
  | cons d rest ih =>
    intro st n hsafe
    rw [List.map_cons, List.flatten_cons, mdRun_append]
    rw [mdRun_cons, processLine_blank]
    obtain ⟨d1, b1, c1, hrun1, hv1⟩ := mdRun_divisionBlock supply (hds d (by simp)) st
      (n + 1) hsafe
    have hsafe1 : (mdRun supply st (n + 1) (generateDivisionLines d)).curTeam = none
        ∨ (mdRun supply st (n + 1) (generateDivisionLines d)).curGroup ≠ none :=
      safety_of_fd hrun1 rfl
    obtain ⟨ds'', b, c, hrun2, hv2⟩ := ih (fun x hx => hds x (by simp [hx]))
      (mdRun supply st (n + 1) (generateDivisionLines d))
      (n + ([] :: generateDivisionLines d).length) hsafe1
    rw [hrun1] at hrun2
    dsimp only at hrun2
    rw [List.append_assoc] at hrun2
    simp only [List.singleton_append] at hrun2
    refine ⟨d1 :: ds'', b, c, hrun2, ?_⟩
    rw [List.map_cons, List.map_cons, hv1, hv2]

/-! ### Newline-freeness of generated lines -/

theorem nl_notin_append {a b : Str} (ha : '\n' ∉ a) (hb : '\n' ∉ b) : '\n' ∉ a ++ b := by
  intro hc
  rcases List.mem_append.mp hc with h | h
  · exact ha h
  · exact hb h

theorem nl_notin_natToStr (t : Nat) : '\n' ∉ natToStr t := by
  intro hc
  exact absurd (natToStr_all_digits t '\n' hc) (by decide)

theorem nl_notin_ROLE_LABELS (r : Role) : '\n' ∉ ROLE_LABELS r := by
  cases r <;> decide

theorem nl_notin_propsInner {p : PersonI} (hg : goodPerson p) {l : Location}
    (hl : p.location = some l) : '\n' ∉ propsInner p := by
  have hvgood : ∀ v, p.vendor = some v → goodVendor v := hg.2.1
  unfold propsInner propsParts
  rw [hl]
  dsimp only
  cases hpv : p.vendor with
  | none =>
    cases l with
    | onshore =>
      rw [if_neg (show ¬ onshore ≠ onshore by simp)]
      decide
    | nearshore =>
      rw [if_pos (show nearshore ≠ onshore by simp)]
      decide
    | offshore =>
      rw [if_pos (show offshore ≠ onshore by simp)]
      decide
  | some v =>
    have hv := hvgood v hpv
    try dsimp only
    rw [if_pos (show (!v.isEmpty) = true by rw [isEmpty_false_of_ne hv.2.1]; rfl)]
    cases l with
    | onshore =>
      rw [if_neg (show ¬ onshore ≠ onshore by simp)]
      intro hc
      rw [show joinSep (S ", ") ([S "contractor"] ++ [v]) = S "contractor, " ++ v from rfl] at hc
      rcases List.mem_append.mp hc with h | h
      · exact absurd h (by decide)
      · exact hv.2.2.1 h
    | nearshore =>
      rw [if_pos (show nearshore ≠ onshore by simp)]
      intro hc
      rw [show joinSep (S ", ") ([S "contractor"] ++ [locationStr nearshore] ++ [v])
        = S "contractor, nearshore, " ++ v from rfl] at hc
      rcases List.mem_append.mp hc with h | h
      · exact absurd h (by decide)
      · exact hv.2.2.1 h
    | offshore =>
      rw [if_pos (show offshore ≠ onshore by simp)]
      intro hc
      rw [show joinSep (S ", ") ([S "contractor"] ++ [locationStr offshore] ++ [v])
        = S "contractor, offshore, " ++ v from rfl] at hc
      rcases List.mem_append.mp hc with h | h
      · exact absurd h (by decide)
      · exact hv.2.2.1 h

theorem nl_notin_personProps {p : PersonI} (hg : goodPerson p) : '\n' ∉ personProps p := by
  by_cases ht : p.type = employee
  · rw [personProps_employee ht]
    intro hc
    cases hc
  · have ht' : p.type = contractor := by
      cases htp : p.type
      · exact absurd htp ht
      · rfl
    rw [personProps_contractor ht']
    obtain ⟨l, hl⟩ := Option.isSome_iff_exists.mp hg.2.2.1
    exact nl_notin_append (nl_notin_append (by decide) (nl_notin_propsInner hg hl)) (by decide)

theorem nl_notin_nameOrUnnamed {no : Option Str} (h : ∀ n, no = some n → '\n' ∉ n) :
    '\n' ∉ nameOrUnnamed no := by
  cases hn : no with
  | none => decide
  | some n =>
    unfold nameOrUnnamed
    dsimp only
    by_cases he : n.isEmpty = true
    · rw [if_pos he]
      decide
    · rw [if_neg he]
      exact h n hn

theorem nl_notin_leaderPersonLine {q : PersonI} {r : Role} (hgl : goodLeader q r) :
    '\n' ∉ leaderPersonLine q := by
  unfold leaderPersonLine
  refine nl_notin_append (nl_notin_nameOrUnnamed ?_) (nl_notin_personProps hgl.1)
  intro n hn
  exact (hgl.1.1 n hn).2.2.1

theorem nl_notin_namedPersonLine {q : PersonI} (hgp : goodPerson q) :
    '\n' ∉ namedPersonLine q := by
  unfold namedPersonLine
  refine nl_notin_append (nl_notin_append (nl_notin_append
    (nl_notin_nameOrUnnamed ?_) (by decide)) (nl_notin_ROLE_LABELS q.role))
    (nl_notin_personProps hgp)
  intro n hn
  exact (hgp.1 n hn).2.2.1

theorem nl_notin_unnamedLine {e : Str × PersonI × Nat} (he : EntryOK e) :
    '\n' ∉ unnamedLine e := by
  unfold unnamedLine
  refine nl_notin_append (nl_notin_append (nl_notin_append (by decide) ?_)
    (nl_notin_ROLE_LABELS e.2.1.role)) (nl_notin_personProps he.1)
  by_cases hc : e.2.2 > 1
  · rw [if_pos hc]
    exact nl_notin_append (nl_notin_natToStr _) (by decide)
  · rw [if_neg hc]
    intro hx
    cases hx

theorem nl_notin_formatTeamMembers {ms : List PersonI} (hms : ∀ m ∈ ms, goodPerson m) :
    ∀ x ∈ formatTeamMembers ms, '\n' ∉ x := by
  intro x hx
  rw [formatTeamMembers_decomp] at hx
  rcases List.mem_append.mp hx with h | h
  · obtain ⟨e, he, hxe⟩ := List.mem_map.mp h
    rw [← hxe]
    exact nl_notin_unnamedLine (unnamedGroupsOf_entryOK hms e he)
  · obtain ⟨m, hm, hxm⟩ := List.mem_map.mp h
    rw [← hxm]
    exact nl_notin_append (by decide)
      (nl_notin_namedPersonLine (hms m (List.mem_of_mem_filter hm)))

theorem nl_notin_groupLines {g : GroupI} (hg : goodGroup g) (depth : Nat) :
    ∀ x ∈ generateGroupLines g depth, '\n' ∉ x := by
  intro x hx
  unfold generateGroupLines at hx
  rcases List.mem_append.mp hx with hx | hx
  · rcases List.mem_append.mp hx with hx | hx
    · rcases List.mem_append.mp hx with hx | hx
      · rw [List.mem_singleton] at hx
        subst hx
        refine nl_notin_append (nl_notin_append ?_ (by decide)) hg.1.2.2
        intro hc
        exact absurd (List.eq_of_mem_replicate hc) (by decide)
      · cases hm : g.manager with
        | some m =>
          rw [hm] at hx
          dsimp only at hx
          rw [List.mem_singleton] at hx
          subst hx
          exact nl_notin_append (by decide) (nl_notin_leaderPersonLine (hg.2.2.1 m hm))
        | none =>
          rw [hm] at hx
          dsimp only at hx
          cases hmb : g.managedBy with
          | some mb =>
            rw [hmb] at hx
            dsimp only at hx
            by_cases hemp : (!mb.isEmpty) = true
            · rw [if_pos hemp] at hx
              rw [List.mem_singleton] at hx
              subst hx
              rcases hg.2.2.2.1 mb hmb with h0 | ⟨hj, hne, hnl⟩
              · subst h0
                exact absurd hemp (by decide)
              · exact nl_notin_append (by decide) hnl
            · rw [if_neg hemp] at hx
              cases hx
          | none =>
            rw [hmb] at hx
            dsimp only at hx
            cases hx
    · obtain ⟨se, hse, hxse⟩ := List.mem_map.mp hx
      rw [← hxse]
      exact nl_notin_append (by decide)
        (nl_notin_leaderPersonLine (hg.2.2.2.2.1 se hse))
  · rw [List.mem_flatten] at hx
    obtain ⟨blk, hblk, hxblk⟩ := hx
    obtain ⟨team, hteam, hblkeq⟩ := List.mem_map.mp hblk
    have hgt := hg.2.2.2.2.2 team hteam
    rw [← hblkeq] at hxblk
    rcases List.mem_append.mp hxblk with hx2 | hx2
    · rcases List.mem_cons.mp hx2 with hx2 | hx2
      · subst hx2
        intro hc
        cases hc
      · rw [List.mem_singleton] at hx2
        subst hx2
        refine nl_notin_append (nl_notin_append ?_ (by decide)) hgt.1.2.2
        intro hc
        exact absurd (List.eq_of_mem_replicate hc) (by decide)
    · exact nl_notin_formatTeamMembers hgt.2 x hx2

theorem nl_notin_divisionLines {d : DivisionI} (hd : goodDivision d) :
    ∀ x ∈ generateDivisionLines d, '\n' ∉ x := by
  intro x hx
  unfold generateDivisionLines at hx
  rcases List.mem_append.mp hx with hx | hx
  · rcases List.mem_cons.mp hx with hx | hx
    · subst hx
      exact nl_notin_append (by decide) hd.1.2.2
    · rw [List.mem_singleton] at hx
      subst hx
      intro hc
      cases hc
  · rw [List.mem_flatten] at hx
    obtain ⟨blk, hblk, hxblk⟩ := hx
    obtain ⟨pr, hpr, hblkeq⟩ := List.mem_map.mp hblk
    have hmem : pr.2 ∈ d.groups := by
      have h2 := List.mem_map_of_mem Prod.snd hpr
      rw [List.enum_map_snd] at h2
      exact h2
    rw [← hblkeq] at hxblk
    rcases List.mem_append.mp hxblk with hx2 | hx2
    · by_cases hpos : pr.1 > 0
      · rw [if_pos hpos] at hx2
        rw [List.mem_singleton] at hx2
        subst hx2
        intro hc
        cases hc
      · rw [if_neg hpos] at hx2
        cases hx2
    · exact nl_notin_groupLines (hd.2 pr.2 hmem) 3 x hx2

theorem nl_notin_generateLines {p : PortfolioI} (hp : Serializable p) :
    ∀ x ∈ generateLines p, '\n' ∉ x := by
  intro x hx
  unfold generateLines at hx
  rcases List.mem_append.mp hx with hx | hx
  · rcases List.mem_append.mp hx with hx | hx
    · rcases List.mem_append.mp hx with hx | hx
      · rcases List.mem_append.mp hx with hx | hx
        · rcases List.mem_cons.mp hx with hx | hx
          · subst hx
            refine nl_notin_append (nl_notin_append (nl_notin_append (nl_notin_append
              (by decide) hp.1.2.2) (by decide)) (nl_notin_natToStr _)) (by decide)
          · rw [List.mem_singleton] at hx
            subst hx
            intro hc
            cases hc
        · cases hh : p.headOfEngineering with
          | some h =>
            rw [hh] at hx
            dsimp only at hx
            rw [List.mem_singleton] at hx
            subst hx
            exact nl_notin_append (by decide) (nl_notin_leaderPersonLine (hp.2.1 h hh))
          | none =>
            rw [hh] at hx
            dsimp only at hx
            cases hx
      · obtain ⟨pe, hpe, hxpe⟩ := List.mem_map.mp hx
        rw [← hxpe]
        exact nl_notin_append (by decide) (nl_notin_leaderPersonLine (hp.2.2.1 pe hpe))
    · cases hds : p.divisions with
      | some ds =>
        rw [hds] at hx
        dsimp only at hx
        by_cases hlen : ds.length > 0
        · rw [if_pos hlen] at hx
          rw [List.mem_flatten] at hx
          obtain ⟨blk, hblk, hxblk⟩ := hx
          obtain ⟨d, hdm, hblkeq⟩ := List.mem_map.mp hblk
          have hgd : goodDivision d := by
            refine hp.2.2.2.1 d ?_
            rw [hds]
            exact hdm
          rw [← hblkeq] at hxblk
          rcases List.mem_cons.mp hxblk with hx2 | hx2
          · subst hx2
            intro hc
            cases hc
          · exact nl_notin_divisionLines hgd x hx2
        · rw [if_neg hlen] at hx
          cases hx
      | none =>
        rw [hds] at hx
        dsimp only at hx
        cases hx
  · rw [List.mem_flatten] at hx
    obtain ⟨blk, hblk, hxblk⟩ := hx
    obtain ⟨g, hgm, hblkeq⟩ := List.mem_map.mp hblk
    rw [← hblkeq] at hxblk
    rcases List.mem_cons.mp hxblk with hx2 | hx2
    · subst hx2
      intro hc
      cases hc
    · exact nl_notin_groupLines (hp.2.2.2.2 g hgm) 2 x hx2

/-- Chain of `Principal Engineer:` lines in portfolio context. -/
theorem mdRun_peLines (supply : Nat → Str) {pes : List PersonI}
    (hpes : ∀ pe ∈ pes, goodLeader pe principal_engineer) :
    ∀ (st : MdState) (n : Nat), st.curDivision = none → st.curGroup = none →
    ∃ (ps : List PersonI) (c : Nat),
      mdRun supply st n (pes.map (fun pe => S "Principal Engineer: " ++ leaderPersonLine pe))
        = { st with pes := st.pes ++ ps, ctr := c }
      ∧ ps.map erasePerson = pes.map erasePerson := by
  induction pes with
  | nil =>
    intro st n hdv hgr
    refine ⟨[], st.ctr, ?_, rfl⟩
    simp only [List.map_nil]
    rw [show mdRun supply st n [] = st from rfl]
    rw [List.append_nil]
  | cons pe rest ih =>
    intro st n hdv hgr
    have hgl := hpes pe (by simp)
    obtain ⟨nm, hnm⟩ := Option.isSome_iff_exists.mp hgl.2.2
    obtain ⟨l, hl⟩ := Option.isSome_iff_exists.mp hgl.1.2.2.1
    rw [List.map_cons, mdRun_cons]
    rw [processLine_pe supply st n hgl.1 hnm hl hdv hgr]
    obtain ⟨ps', c', hrun, herase⟩ := ih (fun x hx => hpes x (by simp [hx]))
      { st with pes := st.pes ++ [{ id := supply st.ctr, name := some nm, role := principal_engineer, type := pe.type, vendor := pe.vendor, location := some l }], ctr := st.ctr + 1 }
      (n + 1) hdv hgr
    rw [hrun]
    refine ⟨{ id := supply st.ctr, name := some nm, role := principal_engineer, type := pe.type, vendor := pe.vendor, location := some l } :: ps', c', ?_, ?_⟩
    · rw [show st.pes ++ ({ id := supply st.ctr, name := some nm, role := principal_engineer, type := pe.type, vendor := pe.vendor, location := some l } : PersonI) :: ps' = (st.pes ++ [{ id := supply st.ctr, name := some nm, role := principal_engineer, type := pe.type, vendor := pe.vendor, location := some l }]) ++ ps' from by rw [List.append_cons]]
    · rw [List.map_cons, List.map_cons, herase]
      congr 1
      rw [show erasePerson pe = { name := pe.name, role := pe.role, type := pe.type, vendor := pe.vendor, location := pe.location } from rfl]
      rw [hnm, hl, hgl.2.1]
      rfl

/-- The leadership line list for an optional head of engineering. -/
def hoeLines (hoeo : Option PersonI) : List Str :=
  match hoeo with
  | some h => [S "Head of Engineering: " ++ leaderPersonLine h]
  | none => []

/-- The line list of the divisions section. -/
def divPartLines (dso : Option (List DivisionI)) : List Str :=
  match dso with
  | some ds => if ds.length > 0 then (ds.map (fun d => [] :: generateDivisionLines d)).flatten else []
  | none => []

/-- The optional `Head of Engineering:` line of the leadership section. -/
theorem mdRun_hoeLines (supply : Nat → Str) {hoeo : Option PersonI}
    (hhoe : ∀ h, hoeo = some h → goodLeader h head_of_engineering)
    (st : MdState) (n : Nat) (hdv : st.curDivision = none) (hgr : st.curGroup = none)
    (hh0 : st.hoe = none) :
    ∃ (ho : Option PersonI) (c : Nat),
      mdRun supply st n (hoeLines hoeo) = { st with hoe := ho, ctr := c }
      ∧ ho.map erasePerson = hoeo.map erasePerson := by
  cases hh : hoeo with
  | none =>
    dsimp only [hoeLines]
    refine ⟨none, st.ctr, ?_, rfl⟩
    rw [show mdRun supply st n [] = st from rfl]
    rw [← hh0]
  | some h =>
    dsimp only [hoeLines]
    have hgl := hhoe h hh
    obtain ⟨nm, hnm⟩ := Option.isSome_iff_exists.mp hgl.2.2
    obtain ⟨l, hl⟩ := Option.isSome_iff_exists.mp hgl.1.2.2.1
    rw [mdRun_cons, processLine_hoe supply st n hgl.1 hnm hl hdv hgr]
    refine ⟨some { id := supply st.ctr, name := some nm, role := head_of_engineering, type := h.type, vendor := h.vendor, location := some l }, st.ctr + 1, rfl, ?_⟩
    rw [show Option.map erasePerson (some h) = some (erasePerson h) from rfl]
    rw [show erasePerson h = { name := h.name, role := h.role, type := h.type, vendor := h.vendor, location := h.location } from rfl]
    rw [hnm, hl, hgl.2.1]
    rfl

/-- The divisions section of the generated document, from a state with
no open context. -/
theorem mdRun_divPart (supply : Nat → Str) {dso : Option (List DivisionI)}
    (hds : ∀ d ∈ dso.getD [], goodDivision d) (st : MdState) (n : Nat)
    (hdv : st.curDivision = none) (hgr : st.curGroup = none) (hct : st.curTeam = none) :
    ∃ (ds' : List DivisionI) (b : Bool) (c : Nat),
      finishDivision (mdRun supply st n (divPartLines dso))
        = { st with divisions := st.divisions ++ ds', curDivision := none, curGroup := none, curTeam := none, groupInDivision := b, ctr := c }
      ∧ ds'.map eraseDivision = (dso.getD []).map eraseDivision := by
  have hfd : finishDivision st = st := finishDivision_of_none hdv hgr hct
  cases hd : dso with
  | none =>
    dsimp only [divPartLines]
    refine ⟨[], st.groupInDivision, st.ctr, ?_, rfl⟩
    rw [show mdRun supply st n [] = st from rfl, hfd, List.append_nil]
    rw [← hdv, ← hgr, ← hct]
  | some ds =>
    dsimp only [divPartLines]
    by_cases hlen : ds.length > 0
    · rw [if_pos hlen]
      have hds' : ∀ d ∈ ds, goodDivision d := fun d hdm => hds d (by rw [hd]; exact hdm)
      obtain ⟨ds', b, c, hrun, hv⟩ := mdRun_divisionChain supply hds' st n (Or.inl hct)
      rw [hfd] at hrun
      exact ⟨ds', b, c, hrun, hv⟩
    · rw [if_neg hlen]
      have hds0 : ds = [] := List.length_eq_zero.mp (by omega)
      subst hds0
      refine ⟨[], st.groupInDivision, st.ctr, ?_, rfl⟩
      rw [show mdRun supply st n [] = st from rfl, hfd, List.append_nil]
      rw [← hdv, ← hgr, ← hct]

/-- The whole organisation section (leadership, divisions, direct
groups) of the generated document, from a fresh scan state. -/
theorem mdRun_orgLines (supply : Nat → Str) {p : PortfolioI} (hp : Serializable p)
    (st : MdState) (n : Nat) (hdv : st.curDivision = none) (hgr : st.curGroup = none)
    (hct : st.curTeam = none) (hh0 : st.hoe = none) (hp0 : st.pes = [])
    (hd0 : st.divisions = []) (hg0 : st.directGroups = []) :
    ∃ (ho : Option PersonI) (pes' : List PersonI) (ds' : List DivisionI)
      (gs' : List GroupI) (b : Bool) (c : Nat),
      finishGroup (finishDivision (mdRun supply st n
          (((hoeLines p.headOfEngineering
              ++ p.principalEngineers.map (fun pe => S "Principal Engineer: " ++ leaderPersonLine pe))
            ++ divPartLines p.divisions)
            ++ (p.groups.map (fun g => [] :: generateGroupLines g 2)).flatten)))
        = { st with hoe := ho, pes := pes', divisions := ds', directGroups := gs', curDivision := none, curGroup := none, curTeam := none, groupInDivision := b, ctr := c }
      ∧ ho.map erasePerson = p.headOfEngineering.map erasePerson
      ∧ pes'.map erasePerson = p.principalEngineers.map erasePerson
      ∧ ds'.map eraseDivision = (p.divisions.getD []).map eraseDivision
      ∧ gs'.map eraseGroup = p.groups.map eraseGroup := by
  rw [mdRun_append, mdRun_append, mdRun_append]
  obtain ⟨ho, c1, hrunB, hvho⟩ := mdRun_hoeLines supply hp.2.1 st n hdv hgr hh0
  rw [hrunB]
  obtain ⟨ps, c2, hrunC, hvpe⟩ := mdRun_peLines supply hp.2.2.1 { st with hoe := ho, ctr := c1 } (n + (hoeLines p.headOfEngineering).length) hdv hgr
  rw [hrunC]
  dsimp only
  rw [hp0]
  simp only [List.nil_append]
  rw [hd0, hg0]
  obtain ⟨ds', bD, c3, hrunD, hvds⟩ := mdRun_divPart supply hp.2.2.2.1 { st with hoe := ho, pes := ps, divisions := [], directGroups := [], ctr := c2 } (n + (hoeLines p.headOfEngineering ++ p.principalEngineers.map (fun pe => S "Principal Engineer: " ++ leaderPersonLine pe)).length) hdv hgr hct
  obtain ⟨gs', bE, c4, hrunE, hvgs⟩ := mdRun_groupChainDirect supply hp.2.2.2.2 (mdRun supply { st with hoe := ho, pes := ps, divisions := [], directGroups := [], ctr := c2 } (n + (hoeLines p.headOfEngineering ++ p.principalEngineers.map (fun pe => S "Principal Engineer: " ++ leaderPersonLine pe)).length) (divPartLines p.divisions)) (n + ((hoeLines p.headOfEngineering ++ p.principalEngineers.map (fun pe => S "Principal Engineer: " ++ leaderPersonLine pe)) ++ divPartLines p.divisions).length) (safety_of_fd hrunD rfl)
  rw [hrunD] at hrunE
  dsimp only at hrunE
  simp only [List.nil_append] at hrunE
  rw [hrunE]
  exact ⟨ho, ps, ds', gs', bE, c4, finishGroup_of_none rfl rfl, hvho, hvpe, hvds, hvgs⟩

theorem generateLines_ne_nil (p : PortfolioI) : generateLines p ≠ [] := by
  unfold generateLines
  intro hc
  rcases List.append_eq_nil.mp hc with ⟨h1, -⟩
  rcases List.append_eq_nil.mp h1 with ⟨h2, -⟩
  rcases List.append_eq_nil.mp h2 with ⟨h3, -⟩
  rcases List.append_eq_nil.mp h3 with ⟨h4, -⟩
  exact List.noConfusion h4

theorem splitChar_generateMarkdown {p : PortfolioI} (hp : Serializable p) :
    splitChar '\n' (generateMarkdown p) = generateLines p ++ [[]] := by
  unfold generateMarkdown
  rw [show (S "\n" : Str) = ['\n'] from rfl]
  rw [← joinChar_append_nilpiece (generateLines_ne_nil p)]
  refine splitChar_joinChar ?_ ?_
  · intro x hx
    rcases List.mem_append.mp hx with h | h
    · exact nl_notin_generateLines hp x h
    · rw [List.mem_singleton] at h
      subst h
      intro hc
      cases hc
  · intro hc
    exact List.noConfusion (List.append_eq_nil.mp hc).2

/-- C1 (amended) — Serializable round-trip: for every portfolio
satisfying the §3 invariants together with grammar-safe names, labels
and vendors (`Serializable`), `parseMarkdown` applied to
`generateMarkdown` returns zero errors and a portfolio equal to the
input up to identifier renaming: names, roles, employment types,
locations, vendors and the division/group/team nesting all match, with
team members compared as multisets. -/
theorem claim_C1_roundtrip (supply : Nat → Str) (p : PortfolioI) (hp : Serializable p) :
    (parseMarkdown supply (generateMarkdown p)).errors = []
    ∧ ∃ q, (parseMarkdown supply (generateMarkdown p)).portfolio = some q
        ∧ eraseParsed q = erasePortfolio p := by
  unfold parseMarkdown
  rw [splitChar_generateMarkdown hp]
  rw [mdRun_append]
  rw [show mdRun supply (mdRun supply {} 1 (generateLines p)) (1 + (generateLines p).length) ([[]] : List Str) = mdRun supply {} 1 (generateLines p) from rfl]
  rw [show generateLines p = (S "# " ++ (p.name ++ S " (" ++ natToStr (p.onshoreTargetPercentage.getD 50) ++ S "% onshore target)")) :: [] :: (((hoeLines p.headOfEngineering ++ p.principalEngineers.map (fun pe => S "Principal Engineer: " ++ leaderPersonLine pe)) ++ divPartLines p.divisions) ++ (p.groups.map (fun g => [] :: generateGroupLines g 2)).flatten) from rfl]
  rw [mdRun_cons, processLine_heading supply ({} : MdState) 1 hp.1 (p.onshoreTargetPercentage.getD 50)]
  rw [mdRun_cons, processLine_blank]
  dsimp only
  obtain ⟨ho, pes', ds', gs', b, c, hrun, hvho, hvpe, hvds, hvgs⟩ :=
    mdRun_orgLines supply hp { portfolioName := some p.name, onshoreTarget := p.onshoreTargetPercentage.getD 50, hoe := none, pes := [], divisions := [], directGroups := [], curDivision := none, curGroup := none, curTeam := none, groupInDivision := false, errors := [], ctr := 0 } (1 + 1 + 1) rfl rfl rfl rfl rfl rfl rfl
  rw [hrun]
  dsimp only
  rw [if_neg (by decide : ¬ ([] : List MdError).length > 0)]
  refine ⟨rfl, ?_⟩
  refine ⟨_, rfl, ?_⟩
  dsimp only [eraseParsed, erasePortfolio]
  rw [hvho, hvpe, hvgs]
  have hdiv : ((if ds'.length > 0 then some ds' else none).getD []).map eraseDivision
      = (p.divisions.getD []).map eraseDivision := by
    by_cases hlen : ds'.length > 0
    · rw [if_pos hlen]
      exact hvds
    · rw [if_neg hlen]
      have hds0 : ds' = [] := List.length_eq_zero.mp (by omega)
      subst hds0
      exact hvds
  rw [hdiv]

/-! ### C1 fixtures -/

/-- ASCII-safe text, as the claim words it. -/
def asciiSafe (s : Str) : Prop := ∀ c ∈ s, c.toNat < 128

instance (s : Str) : Decidable (asciiSafe s) := by
  unfold asciiSafe
  infer_instance

/-- A name admitted by the claim: ASCII-safe and comma-free. -/
def claimNameOK (s : Str) : Prop := asciiSafe s ∧ ',' ∉ s

instance (s : Str) : Decidable (claimNameOK s) := by
  unfold claimNameOK
  infer_instance

/-- The §3 person invariants plus the claim's name condition. -/
def claimPersonOK (q : PersonI) : Prop :=
  (∀ n, q.name = some n → claimNameOK n)
  ∧ q.location.isSome
  ∧ (q.type = employee → q.location = some onshore ∧ q.vendor = none)

instance (q : PersonI) : Decidable (claimPersonOK q) := by
  unfold claimPersonOK
  infer_instance

def claimTeamOK (t : TeamI) : Prop :=
  claimNameOK t.name
  ∧ ∀ m ∈ t.members, claimPersonOK m
      ∧ (m.role = engineer ∨ m.role = senior_engineer ∨ m.role = staff_engineer)

instance (t : TeamI) : Decidable (claimTeamOK t) := by
  unfold claimTeamOK
  infer_instance

def claimGroupOK (g : GroupI) : Prop :=
  claimNameOK g.name
  ∧ (∀ m, g.manager = some m → claimPersonOK m ∧ m.role = engineering_manager)
  ∧ (∀ se ∈ g.staffEngineers, claimPersonOK se ∧ se.role = staff_engineer)
  ∧ ∀ t ∈ g.teams, claimTeamOK t

instance (g : GroupI) : Decidable (claimGroupOK g) := by
  unfold claimGroupOK
  infer_instance

/-- The hypothesis class of the claim as frozen: §3 data-model
invariants plus ASCII-safe, comma-free names. -/
def claimPortfolioOK (p : PortfolioI) : Prop :=
  claimNameOK p.name
  ∧ (∀ h, p.headOfEngineering = some h → claimPersonOK h ∧ h.role = head_of_engineering)
  ∧ (∀ pe ∈ p.principalEngineers, claimPersonOK pe ∧ pe.role = principal_engineer)
  ∧ (∀ d ∈ p.divisions.getD [], claimNameOK d.name ∧ ∀ g ∈ d.groups, claimGroupOK g)
  ∧ ∀ g ∈ p.groups, claimGroupOK g

instance (p : PortfolioI) : Decidable (claimPortfolioOK p) := by
  unfold claimPortfolioOK
  infer_instance

/-- A portfolio admitted by the claim whose only direct group is named
`Division: Ops`. -/
def cxPortA : PortfolioI := { id := S "pa", name := S "Acme", headOfEngineering := none, principalEngineers := [], divisions := none, groups := [{ id := S "ga", name := S "Division: Ops", manager := none, managedBy := none, staffEngineers := [], teams := [] }], onshoreTargetPercentage := none }

/-- A portfolio admitted by the claim with a member named `3x Alice`. -/
def cxPortB : PortfolioI := { id := S "pb", name := S "Acme", headOfEngineering := none, principalEngineers := [], divisions := none, groups := [{ id := S "gb", name := S "Ops", manager := none, managedBy := none, staffEngineers := [], teams := [{ id := S "tb", name := S "Core", members := [{ id := S "mb", name := some (S "3x Alice"), role := engineer, type := employee, vendor := none, location := some onshore }] }] }], onshoreTargetPercentage := none }

/-- C1 — counterexample to the frozen claim: two portfolios satisfying
the §3 invariants with ASCII-safe, comma-free names on which the round
trip fails. The direct group named `Division: Ops` round-trips without
error into a portfolio with zero direct groups and one division (the
heading is re-parsed as a division), and the member named `3x Alice`
makes the decode fail with an error, so neither the zero-error promise
nor the structural match holds on the claim's hypothesis class. -/
theorem claim_C1_counterexample :
    (claimPortfolioOK cxPortA
      ∧ (parseMarkdown c2supply (generateMarkdown cxPortA)).errors = []
      ∧ (parseMarkdown c2supply (generateMarkdown cxPortA)).portfolio.map
          (fun q => (q.groups.length, (q.divisions.getD []).length)) = some (0, 1)
      ∧ (cxPortA.groups.length, (cxPortA.divisions.getD []).length) = (1, 0))
    ∧ (claimPortfolioOK cxPortB
      ∧ (parseMarkdown c2supply (generateMarkdown cxPortB)).errors ≠ []) := by
  decide

/-- A serializable portfolio exercising every construct: head of
engineering, principal engineer, a division with a managed group,
staff engineer and a mixed team, plus an externally managed direct
group with an empty team. -/
def c1port : PortfolioI :=
  { id := S "p1", name := S "Acme", headOfEngineering := some { id := S "h", name := some (S "Harriet Lee"), role := head_of_engineering, type := employee, vendor := none, location := some onshore }, principalEngineers := [{ id := S "pe", name := some (S "Priya"), role := principal_engineer, type := contractor, vendor := some (S "TCS"), location := some offshore }], divisions := some [{ id := S "d1", name := S "Retail", groups := [{ id := S "g1", name := S "Checkout", manager := some { id := S "m", name := some (S "Mia"), role := engineering_manager, type := employee, vendor := none, location := some onshore }, managedBy := none, staffEngineers := [{ id := S "se", name := some (S "Sam"), role := staff_engineer, type := employee, vendor := none, location := some onshore }], teams := [{ id := S "t1", name := S "Payments", members := [{ id := S "x1", name := some (S "Bob"), role := senior_engineer, type := contractor, vendor := some (S "Acme Corp"), location := some nearshore }, { id := S "x2", name := none, role := engineer, type := employee, vendor := none, location := some onshore }] }] }] }], groups := [{ id := S "g2", name := S "Platform", manager := none, managedBy := some (S "TPM"), staffEngineers := [], teams := [{ id := S "t2", name := S "Infra", members := [] }] }], onshoreTargetPercentage := some 60 }

/-- Witness for the amended C1 at a concrete serializable portfolio. -/
theorem claim_C1_roundtrip_witness :
    Serializable c1port
    ∧ ((parseMarkdown c2supply (generateMarkdown c1port)).errors = []
      ∧ ∃ q, (parseMarkdown c2supply (generateMarkdown c1port)).portfolio = some q
          ∧ eraseParsed q = erasePortfolio c1port) :=
  ⟨by decide, claim_C1_roundtrip c2supply c1port (by decide)⟩
